import Mathlib

/-!
# gocb search query: streaming result engine

A shallow embedding of `cluster_searchquery.go`.

* JSON input is modelled at the level of the tokens that `encoding/json`'s
  `Decoder` hands out (`Token`, `More`, `Decode`); commas, colons and white
  space are not represented.
* Values decoded into `interface{}`, `json.RawMessage` and the nested map
  types are kept as the token sequence of the value (`Raw`).
* A Go pointer or interface that may be nil is an `Option`; an operation that
  would dereference nil returns `none` (a run-time panic).
* Instants read from the clock are natural numbers of nanoseconds; durations
  (`time.Duration`) and deadlines are integers, since a duration can be
  negative.
-/

namespace Gocb

/-! ## encoding/json at token level -/

/-- The four delimiters `json.Delim` can hold. -/
inductive Delim
  | lbrace
  | rbrace
  | lbrack
  | rbrack
  deriving DecidableEq, Repr

/-- A JSON number literal: an integer literal, or a literal with a fraction or
exponent whose text is kept as is (floating point values are not computed). -/
inductive JNum
  | int (i : Int)
  | frac (lit : String)
  deriving DecidableEq, Repr

/-- What `Decoder.Token` returns: a delimiter, a string (object keys are
strings too), a number, a boolean or null. -/
inductive JsonToken
  | delim (d : Delim)
  | str (s : String)
  | num (n : JNum)
  | bool (b : Bool)
  | null
  deriving DecidableEq, Repr

/-- The tokens of one JSON value (`json.RawMessage`, or a decoded value whose
structure the program does not inspect). -/
abbrev Raw := List JsonToken

/-- Rendering of a delimiter, `string(delim)` in Go. -/
def Delim.toString : Delim → String
  | .lbrace => "\x7b"
  | .rbrace => "\x7d"
  | .lbrack => "["
  | .rbrack => "]"

/-- One record of a multi error (`searchError`). -/
structure searchError where
  message : String
  deriving DecidableEq, Repr

/-- Go error values that occur in the search path. -/
inductive GoError
  | timeoutError
  | noResultsError
  | clientError (message : String)
  | serviceNotAvailableError (message : String)
  | searchMultiError (errors : List searchError) (endpoint : String) (httpStatus : Int)
  | ErrNoFtsService
  | jsonError (msg : String)
  | streamError (msg : String)
  | errorsNew (msg : String)
  | errorsWrap (cause : GoError) (msg : String)
  deriving DecidableEq, Repr

/-- Position inside an open container while one value is scanned. -/
inductive Frame
  | arr
  | objKey
  | objVal
  deriving DecidableEq, Repr

/-- State of the enclosing container once a value inside it is complete. -/
def afterValue : List Frame → List Frame
  | .objVal :: st => .objKey :: st
  | st => st

/-- Prefix the consumed tokens of a scan with one more token. -/
def consTok (t : JsonToken) : Option (Raw × List JsonToken) → Option (Raw × List JsonToken)
  | some (c, r) => some (t :: c, r)
  | none => none

/-- Scan to the end of the outermost open container: `st` is the stack of open
containers (innermost first). Returns the tokens consumed and the rest. -/
def scanOpen : List Frame → List JsonToken → Option (Raw × List JsonToken)
  | _, [] => none
  | [], _ :: _ => none
  | .arr :: st, t :: ts =>
    match t with
    | .delim .rbrack => if st = [] then some ([t], ts) else consTok t (scanOpen (afterValue st) ts)
    | .delim .lbrack => consTok t (scanOpen (.arr :: .arr :: st) ts)
    | .delim .lbrace => consTok t (scanOpen (.objKey :: .arr :: st) ts)
    | .delim .rbrace => none
    | _ => consTok t (scanOpen (.arr :: st) ts)
  | .objKey :: st, t :: ts =>
    match t with
    | .str _ => consTok t (scanOpen (.objVal :: st) ts)
    | .delim .rbrace => if st = [] then some ([t], ts) else consTok t (scanOpen (afterValue st) ts)
    | _ => none
  | .objVal :: st, t :: ts =>
    match t with
    | .delim .lbrack => consTok t (scanOpen (.arr :: .objVal :: st) ts)
    | .delim .lbrace => consTok t (scanOpen (.objKey :: .objVal :: st) ts)
    | .delim _ => none
    | _ => consTok t (scanOpen (.objKey :: st) ts)

/-- Split the tokens of the next complete JSON value off the input. -/
def scanValue : List JsonToken → Option (Raw × List JsonToken)
  | [] => none
  | t :: ts =>
    match t with
    | .delim .lbrack => consTok t (scanOpen [.arr] ts)
    | .delim .lbrace => consTok t (scanOpen [.objKey] ts)
    | .delim _ => none
    | _ => some ([t], ts)

/-- A token sequence that is exactly one JSON value. -/
def IsValue (raw : Raw) : Prop := scanValue raw = some (raw, [])

instance (raw : Raw) : Decidable (IsValue raw) := by
  unfold IsValue; exact inferInstance

/-- The receiver `dec.More()`: there is another element in the current array
or object. -/
def Decoder.More : List JsonToken → Bool
  | [] => false
  | .delim .rbrack :: _ => false
  | .delim .rbrace :: _ => false
  | _ => true

/-- The receiver `dec.Token()`: the next token, `io.EOF` at the end of input. -/
def Decoder.Token : List JsonToken → Except GoError (JsonToken × List JsonToken)
  | [] => .error (.jsonError "EOF")
  | t :: ts => .ok (t, ts)

/-- The reading half of `dec.Decode(&v)`: the tokens of the next value. -/
def Decoder.DecodeRaw (dec : List JsonToken) : Except GoError (Raw × List JsonToken) :=
  match scanValue dec with
  | some p => .ok p
  | none => .error (.jsonError "invalid or truncated JSON value")

/-- The receiver `dec.Decode(&v)` for a target of a type whose unmarshalling is
`um`: read the next value, then store it into the target (`old` is the
target's content before the call). A failed call leaves the decoder where it
was in this model. -/
def Decoder.Decode {α : Type} (um : Raw → α → Except GoError α) (dec : List JsonToken) (old : α) :
    Except GoError (α × List JsonToken) :=
  match Decoder.DecodeRaw dec with
  | .error e => .error e
  | .ok (raw, rest) =>
    match um raw old with
    | .error e => .error e
    | .ok v => .ok (v, rest)

/-- The least magnitude that `strconv.ParseFloat` rounds to infinity, half an
ulp above the largest `float64`: 2 ^ 1024 - 2 ^ 970. -/
def float64Overflow : Nat :=
  179769313486231580793728971405303415079934132710037826936173778980444968292764750946649017977587207096330286416692887910946555547851940402630657488671505820681908902000708383676273854845817711531764475730270069855571366959622842914819860834936475292719074168444365510704342711559699508093042880177904174497792

/-- Powers of ten. -/
def pow10 : Nat → Nat
  | 0 => 1
  | n + 1 => 10 * pow10 n

/-- The value of a run of decimal digits after the digits already read, `none`
if a character is not a digit. -/
def digitsValue : List Char → Nat → Option Nat
  | [], acc => some acc
  | c :: cs, acc =>
    if 48 ≤ c.toNat ∧ c.toNat ≤ 57 then digitsValue cs (10 * acc + (c.toNat - 48)) else none

/-- The exponent of a number literal, from the characters that follow its `e`
(none of them when the literal has no exponent). -/
def exponentValue (cs : List Char) : Option Int :=
  match cs with
  | [] => some 0
  | c :: rest =>
    if c = '-' then (digitsValue rest 0).map (fun n => -(n : Int))
    else if c = '+' then (digitsValue rest 0).map (fun n => (n : Int))
    else (digitsValue cs 0).map (fun n => (n : Int))

/-- The magnitude of a number literal with a fraction or exponent, as digits
m and an exponent e: the magnitude is m times ten to the power e. -/
def literalValue (lit : String) : Option (Nat × Int) :=
  let cs := match lit.data with
    | '-' :: rest => rest
    | all => all
  let mant := cs.takeWhile (fun c => !(c == 'e' || c == 'E'))
  let expo := (cs.dropWhile (fun c => !(c == 'e' || c == 'E'))).drop 1
  let ip := mant.takeWhile (fun c => !(c == '.'))
  let fp := (mant.dropWhile (fun c => !(c == '.'))).drop 1
  match digitsValue (ip ++ fp) 0, exponentValue expo with
  | some m, some e => if ip = [] then none else some (m, e - fp.length)
  | _, _ => none

/-- The number literal converts to a `float64`: `strconv.ParseFloat` reports a
range error for a magnitude that rounds to infinity, and none for one that
rounds to zero. -/
def JNum.fitsFloat64 : JNum → Bool
  | .int i => decide (i.natAbs < float64Overflow)
  | .frac lit =>
    match literalValue lit with
    | some (m, e) =>
      if 0 ≤ e then decide (m * pow10 e.toNat < float64Overflow)
      else decide (m < float64Overflow * pow10 (-e).toNat)
    | none => false

/-- Every number in the tokens of a value converts to a `float64`: what
decoding the value into an `interface{}` requires. -/
def fitsInterface (raw : Raw) : Bool :=
  raw.all (fun t =>
    match t with
    | .num n => n.fitsFloat64
    | _ => true)

/-- Unmarshal into a Go `string`: a JSON string is stored, null leaves the
target as it is, every other value is a type error. -/
def unmarshalString (raw : Raw) (old : String) : Except GoError String :=
  match raw with
  | [.str s] => .ok s
  | [.null] => .ok old
  | _ => .error (.jsonError "cannot unmarshal into Go value of type string")

/-- Unmarshal into a Go `int` (64 bit). -/
def unmarshalInt (raw : Raw) (old : Int) : Except GoError Int :=
  match raw with
  | [.num (.int i)] =>
    if -(2 ^ 63 : Int) ≤ i ∧ i < 2 ^ 63 then .ok i
    else .error (.jsonError "cannot unmarshal number into Go value of type int")
  | [.null] => .ok old
  | _ => .error (.jsonError "cannot unmarshal into Go value of type int")

/-- Unmarshal into a Go `uint` (64 bit). -/
def unmarshalUint (raw : Raw) (old : Nat) : Except GoError Nat :=
  match raw with
  | [.num (.int i)] =>
    if 0 ≤ i ∧ i < 2 ^ 64 then .ok i.toNat
    else .error (.jsonError "cannot unmarshal number into Go value of type uint")
  | [.null] => .ok old
  | _ => .error (.jsonError "cannot unmarshal into Go value of type uint")

/-- Unmarshal into a Go `float64`: the literal is kept, not evaluated; a
literal outside the range of a `float64` is an error. -/
def unmarshalFloat (raw : Raw) (old : JNum) : Except GoError JNum :=
  match raw with
  | [.num n] =>
    if n.fitsFloat64 = true then .ok n
    else .error (.jsonError "cannot unmarshal number into Go value of type float64")
  | [.null] => .ok old
  | _ => .error (.jsonError "cannot unmarshal into Go value of type float64")

/-- Unmarshal into a `json.RawMessage`: every value, null included, is stored
as its bytes. -/
def unmarshalRawMessage (raw : Raw) (_old : Option Raw) : Except GoError (Option Raw) :=
  .ok (some raw)

/-- Unmarshal into a throw-away `interface{}`: every value is accepted but one
that holds a number outside the range of a `float64`. -/
def unmarshalIgnore (raw : Raw) (_old : Unit) : Except GoError Unit :=
  if fitsInterface raw = true then .ok ()
  else .error (.jsonError "cannot unmarshal number into Go value of type float64")

/-- Members of a JSON object, from the tokens that follow its opening brace. -/
def objectMembers : Nat → List JsonToken → Option (List (String × Raw))
  | 0, _ => none
  | _ + 1, [] => none
  | fuel + 1, t :: ts =>
    match t with
    | .delim .rbrace => if ts = [] then some [] else none
    | .str k =>
      match scanValue ts with
      | some (v, rest) =>
        match objectMembers fuel rest with
        | some ms => some ((k, v) :: ms)
        | none => none
      | none => none
    | _ => none

/-- Assignment `m[k] = v` on a Go map kept as an association list. -/
def mapSet (m : List (String × Raw)) (k : String) (v : Raw) : List (String × Raw) :=
  match m with
  | [] => [(k, v)]
  | (k0, v0) :: rest => if k0 = k then (k, v) :: rest else (k0, v0) :: mapSet rest k v

/-- The Go map a JSON object unmarshals to: a repeated key keeps its last value. -/
def mapOfMembers (ms : List (String × Raw)) : List (String × Raw) :=
  ms.foldl (fun m kv => mapSet m kv.1 kv.2) []

/-- Dynamic values an `interface{}` can hold here. `encoding/json` stores nil,
bool, float64, string, `[]interface{}` or `map[string]interface{}`; a
`[]string` can only be put there by Go code. Elements of slices and maps are
kept as the tokens of their JSON value. -/
inductive Iface
  | nil
  | bool (b : Bool)
  | float64 (n : JNum)
  | string (s : String)
  | slice (elems : Raw)
  | map (m : List (String × Raw))
  | stringSlice (l : List String)
  deriving DecidableEq, Repr

/-- What `encoding/json` stores into an `interface{}` for a JSON value whose
numbers convert to a `float64` (the caller checks `fitsInterface`). -/
def decodeIface (raw : Raw) : Iface :=
  match raw with
  | [.null] => .nil
  | [.bool b] => .bool b
  | [.num n] => .float64 n
  | [.str s] => .string s
  | .delim .lbrack :: _ => .slice raw
  | .delim .lbrace :: rest =>
    match objectMembers raw.length rest with
    | some ms => .map (mapOfMembers ms)
    | none => .nil
  | _ => .nil

/-- The intermediary between response and result (`searchResponseStatus`). -/
structure searchResponseStatus where
  Total : Int
  Failed : Int
  Successful : Int
  Errors : Iface
  deriving DecidableEq, Repr

/-- Simple case folding of a character towards the lower case ASCII letters:
besides the upper case ASCII letters, the long s (U+017F) folds to s and the
Kelvin sign (U+212A) to k. -/
def foldChar (c : Char) : Char :=
  if c.toNat = 383 then 's' else if c.toNat = 8490 then 'k' else c.toLower

/-- Key matching of struct fields: `encoding/json` accepts a key that equals
the field name under Unicode simple case folding; `field` is a name in lower
case ASCII letters. -/
def foldEq (field key : String) : Bool :=
  key.data.map foldChar == field.data

/-- Store one member of the status object into the struct. -/
def unmarshalStatusField (st : searchResponseStatus) (kv : String × Raw) :
    Except GoError searchResponseStatus :=
  if foldEq "total" kv.1 then
    match unmarshalInt kv.2 st.Total with
    | .ok v => .ok { st with Total := v }
    | .error e => .error e
  else if foldEq "failed" kv.1 then
    match unmarshalInt kv.2 st.Failed with
    | .ok v => .ok { st with Failed := v }
    | .error e => .error e
  else if foldEq "successful" kv.1 then
    match unmarshalInt kv.2 st.Successful with
    | .ok v => .ok { st with Successful := v }
    | .error e => .error e
  else if foldEq "errors" kv.1 then
    if fitsInterface kv.2 = true then .ok { st with Errors := decodeIface kv.2 }
    else .error (.jsonError "cannot unmarshal number into Go value of type float64")
  else
    .ok st

/-- Store the members of the status object, in wire order. -/
def unmarshalStatusFields (st : searchResponseStatus) :
    List (String × Raw) → Except GoError searchResponseStatus
  | [] => .ok st
  | kv :: rest =>
    match unmarshalStatusField st kv with
    | .ok st1 => unmarshalStatusFields st1 rest
    | .error e => .error e

/-- Unmarshal into a `searchResponseStatus`: an object fills the fields it
names, null leaves the struct as it is, every other value is a type error. -/
def unmarshalStatus (raw : Raw) (old : searchResponseStatus) : Except GoError searchResponseStatus :=
  match raw with
  | [.null] => .ok old
  | .delim .lbrace :: rest =>
    match objectMembers raw.length rest with
    | some ms => unmarshalStatusFields old ms
    | none => .error (.jsonError "invalid object")
  | _ => .error (.jsonError "cannot unmarshal into Go value of type searchResponseStatus")

/-! ## Collaborators that are not part of the file -/

/-- Library behaviour the program relies on without fixing it: unmarshalling
into the nested map types of a row and of the facets (given the value and the
target's prior content), the order in which `range` walks a Go map (any
order), and `url.Parse` reduced to the host it yields. -/
structure Env where
  unmarshalExplanation : Raw → Option Raw → Except GoError (Option Raw)
  unmarshalLocations : Raw → Option Raw → Except GoError (Option Raw)
  unmarshalFragments : Raw → Option Raw → Except GoError (Option Raw)
  unmarshalFacets : Raw → Option Raw → Except GoError (Option Raw)
  rangeOrder : List (String × Raw) → List (String × Raw)
  urlParseHost : String → Option String
  ErrNoFtsServiceText : String

/-- The error of a context. -/
inductive CtxErr
  | Canceled
  | DeadlineExceeded
  deriving DecidableEq, Repr

/-- A `context.Context`: its deadline, if any, and the error it has latched
(cancellation, by its own cancel function or by a parent). -/
structure Context where
  deadline : Option Int
  done : Option CtxErr
  deriving DecidableEq, Repr

/-- The receiver `ctx.Err()` read at the instant `now`. -/
def Context.Err (c : Context) (now : Nat) : Option CtxErr :=
  match c.done with
  | some e => some e
  | none =>
    match c.deadline with
    | some d => if d ≤ (now : Int) then some .DeadlineExceeded else none
    | none => none

/-- Effect of the context's cancel function at the instant `now`: the first
cause wins. -/
def Context.cancel (c : Context) (now : Nat) : Context :=
  match c.Err now with
  | some e => { c with done := some e }
  | none => { c with done := some .Canceled }

/-- A `context.CancelFunc`, with the number of times it has been invoked. -/
structure CancelFunc where
  calls : Nat
  deriving DecidableEq, Repr

/-- Invoke the cancel function. -/
def CancelFunc.invoke (c : CancelFunc) : CancelFunc :=
  { c with calls := c.calls + 1 }

/-- A response body (`io.ReadCloser`): its content as JSON tokens and as text,
the error reading it to the end gives, the error `Close` gives, and the number
of times `Close` has been called on it. -/
structure Body where
  tokens : List JsonToken
  text : String
  readErr : Option GoError
  closeErr : Option GoError
  closeCalls : Nat
  deriving DecidableEq, Repr

/-- The receiver `body.Close()`. -/
def Body.Close (b : Body) : Body × Option GoError :=
  ({ b with closeCalls := b.closeCalls + 1 }, b.closeErr)

/-! ## The streaming result -/

/-- Modelled from the spec: the `streamingResult` type of the repository, whose
file is not among the sources (spec 4.1 and 4.2). It owns the byte stream and
the decoder cursor and tracks "has rows" and "closed"; `ended` records that the
end of the row array has been signalled. The attribute handler is passed to
the operations that call it instead of being stored. -/
structure streamingResult where
  decoder : List JsonToken
  stream : Body
  closed : Bool
  hasRows : Bool
  ended : Bool
  deriving DecidableEq, Repr

/-- Modelled from the spec: the constructor of the streaming result, absent
from the sources; the result owns the open stream, with a reader positioned at
the start of the top-level object. -/
def newStreamingResults (stream : Body) : Except GoError streamingResult :=
  .ok { decoder := stream.tokens, stream := stream, closed := false, hasRows := false,
        ended := false }

/-- Modelled from the spec: the closed flag of the streaming result. -/
def streamingResult.Closed (s : streamingResult) : Bool := s.closed

/-- Modelled from the spec: `hasRows() -> bool`, true iff the row array was
located. -/
def streamingResult.HasRows (s : streamingResult) : Bool := s.hasRows

/-- Modelled from the spec: the attribute decoder loop (spec 4.1), absent from
the sources. It reads the next key token and dispatches to the handler `cb`
until the handler reports the row array or the end of the object is reached;
the opening brace of the object is skipped. `fuel` bounds the iterations. -/
def streamingResult.readAttributesLoop {σ : Type}
    (cb : σ → List JsonToken → JsonToken → σ × List JsonToken × Bool × Option GoError) :
    Nat → streamingResult → σ → streamingResult × σ × Option GoError
  | 0, s, st => (s, st, none)
  | fuel + 1, s, st =>
    if Decoder.More s.decoder = false then (s, st, none)
    else
      match Decoder.Token s.decoder with
      | .error e => (s, st, some e)
      | .ok (t, dec) =>
        if t = .delim .lbrace then
          streamingResult.readAttributesLoop cb fuel { s with decoder := dec } st
        else
          match cb st dec t with
          | (st1, dec1, _, some e) => ({ s with decoder := dec1 }, st1, some e)
          | (st1, dec1, true, none) => ({ s with decoder := dec1, hasRows := true }, st1, none)
          | (st1, dec1, false, none) =>
            streamingResult.readAttributesLoop cb fuel { s with decoder := dec1 } st1

/-- Modelled from the spec: `readAttributes()` (spec 4.2), absent from the
sources. Every iteration of the loop consumes a token, so the length of the
input bounds the iterations. -/
def streamingResult.readAttributes {σ : Type}
    (cb : σ → List JsonToken → JsonToken → σ × List JsonToken × Bool × Option GoError)
    (s : streamingResult) (st : σ) : streamingResult × σ × Option GoError :=
  streamingResult.readAttributesLoop cb (s.decoder.length + 1) s st

/-- Modelled from the spec: `nextBytes() -> bytes | end` (spec 4.2), absent
from the sources. On the row array it decodes one element as raw bytes; at the
closing bracket it decodes the trailing attributes and signals the end; it
returns nothing further once closed or once the end was reached. -/
def streamingResult.NextBytes {σ : Type}
    (cb : σ → List JsonToken → JsonToken → σ × List JsonToken × Bool × Option GoError)
    (s : streamingResult) (st : σ) : streamingResult × σ × Option Raw × Option GoError :=
  if s.closed = true ∨ s.ended = true then (s, st, none, none)
  else if Decoder.More s.decoder = true then
    match Decoder.DecodeRaw s.decoder with
    | .ok (raw, rest) => ({ s with decoder := rest }, st, some raw, none)
    | .error e => (s, st, none, some e)
  else
    match Decoder.Token s.decoder with
    | .error e => (s, st, none, some e)
    | .ok (t, rest) =>
      if t = .delim .rbrack then
        match streamingResult.readAttributes cb { s with decoder := rest } st with
        | (s1, st1, err) => ({ s1 with ended := true }, st1, none, err)
      else (s, st, none, some (.jsonError "expected the end of the row array"))

/-- Modelled from the spec: `close() -> error|nil` (spec 4.2), absent from the
sources: releases the underlying stream once, is idempotent and returns the
stream's close error. -/
def streamingResult.Close (s : streamingResult) : streamingResult × Option GoError :=
  if s.closed = true then (s, none)
  else
    match s.stream.Close with
    | (b, err) => ({ s with stream := b, closed := true }, err)

/-! ## Result types of `cluster_searchquery.go` -/

/-- A payload deserializer (`JSONSerializer`), by identity. -/
inductive JSONSerializer
  | DefaultJSONSerializer
  | custom (id : Nat)
  deriving DecidableEq, Repr

/-- A single hit (`SearchResultRow`). -/
structure SearchResultRow where
  Index : String
  ID : String
  Score : JNum
  Explanation : Option Raw
  Locations : Option Raw
  Fragments : Option Raw
  fields : Option Raw
  serializer : Option JSONSerializer
  deriving DecidableEq, Repr

/-- The zero value of a row. -/
def SearchResultRow.zero : SearchResultRow :=
  { Index := "", ID := "", Score := .int 0, Explanation := none, Locations := none,
    Fragments := none, fields := none, serializer := none }

/-- Status counts (`SearchStatus`). -/
structure SearchStatus where
  Total : Int
  Failed : Int
  Successful : Int
  deriving DecidableEq, Repr

/-- Metadata of a result (`SearchMetadata`). -/
structure SearchMetadata where
  status : SearchStatus
  totalHits : Int
  took : Nat
  maxScore : JNum
  sourceAddr : String
  deriving DecidableEq, Repr

/-- The result iterator (`SearchResult`). -/
structure SearchResult where
  metadata : SearchMetadata
  err : Option GoError
  facets : Option Raw
  httpStatus : Int
  streamResult : Option streamingResult
  cancel : Option CancelFunc
  ctx : Option Context
  serializer : Option JSONSerializer
  deriving DecidableEq, Repr

/-- The loop over a map of status errors: one message `key-value` per entry,
failing at the first entry whose value is not a string. -/
def statusErrorsOfMap : List (String × Raw) → Option (List String)
  | [] => some []
  | (k, v) :: rest =>
    match v with
    | [.str msg] =>
      match statusErrorsOfMap rest with
      | some l => some ((k ++ "-" ++ msg) :: l)
      | none => none
    | _ => none

/-- The handler `readAttribute(decoder, t)`: the result after the call, the
decoder after the call, the flag and the error. -/
def SearchResult.readAttribute (env : Env) (r : SearchResult) (decoder : List JsonToken)
    (t : JsonToken) : SearchResult × List JsonToken × Bool × Option GoError :=
  if t = .str "status" then
    if r.httpStatus ≠ 200 then
      match Decoder.Decode unmarshalIgnore decoder () with
      | .error e => (r, decoder, false, some e)
      | .ok (_, dec) => (r, dec, false, none)
    else
      match Decoder.Decode unmarshalStatus decoder
          { Total := 0, Failed := 0, Successful := 0, Errors := .nil } with
      | .error e => (r, decoder, false, some e)
      | .ok (status, dec) =>
        let r1 : SearchResult :=
          { r with metadata := { r.metadata with status :=
              { Total := status.Total, Successful := status.Successful,
                Failed := status.Failed } } }
        match status.Errors with
        | .nil => (r1, dec, false, none)
        | .stringSlice statusErrors =>
          if statusErrors.length > 0 then
            ({ r1 with err := some (.searchMultiError (statusErrors.map searchError.mk)
                r1.metadata.sourceAddr r1.httpStatus) }, dec, false, none)
          else (r1, dec, false, none)
        | .map statusError =>
          match statusErrorsOfMap (env.rangeOrder statusError) with
          | none => (r1, dec, false, some (.clientError "could not parse errors"))
          | some statusErrors =>
            if statusErrors.length > 0 then
              ({ r1 with err := some (.searchMultiError (statusErrors.map searchError.mk)
                  r1.metadata.sourceAddr r1.httpStatus) }, dec, false, none)
            else (r1, dec, false, none)
        | _ => (r1, dec, false, some (.clientError "could not parse errors"))
  else if t = .str "total_hits" then
    match Decoder.Decode unmarshalInt decoder r.metadata.totalHits with
    | .error e => (r, decoder, false, some e)
    | .ok (v, dec) => ({ r with metadata := { r.metadata with totalHits := v } }, dec, false, none)
  else if t = .str "facets" then
    match Decoder.Decode env.unmarshalFacets decoder r.facets with
    | .error e => (r, decoder, false, some e)
    | .ok (v, dec) => ({ r with facets := v }, dec, false, none)
  else if t = .str "took" then
    match Decoder.Decode unmarshalUint decoder r.metadata.took with
    | .error e => (r, decoder, false, some e)
    | .ok (v, dec) => ({ r with metadata := { r.metadata with took := v } }, dec, false, none)
  else if t = .str "max_score" then
    match Decoder.Decode unmarshalFloat decoder r.metadata.maxScore with
    | .error e => (r, decoder, false, some e)
    | .ok (v, dec) => ({ r with metadata := { r.metadata with maxScore := v } }, dec, false, none)
  else if t = .str "hits" then
    match Decoder.Token decoder with
    | .error e => (r, decoder, false, some e)
    | .ok (t1, dec) =>
      match t1 with
      | .delim delim =>
        if delim ≠ .lbrack then
          (r, dec, false,
            some (.errorsNew ("expected results opening token to be [ but was " ++ delim.toString)))
        else (r, dec, true, none)
      | _ => (r, dec, false, none)
  else
    match Decoder.Decode unmarshalIgnore decoder () with
    | .error e => (r, decoder, false, some e)
    | .ok (_, dec) => (r, dec, false, none)

/-- The receiver `NextBytes()` of the result: `none` is a panic (nil streaming
result), otherwise the result after the call and the row bytes (nil when there
is no row). -/
def SearchResult.NextBytes (env : Env) (r : SearchResult) : Option (SearchResult × Option Raw) :=
  match r.streamResult with
  | none => none
  | some sr =>
    if sr.Closed = true then some (r, none)
    else
      match sr.NextBytes (SearchResult.readAttribute env) r with
      | (sr1, r1, _, some err) => some ({ r1 with streamResult := some sr1, err := some err }, none)
      | (sr1, r1, raw, none) => some ({ r1 with streamResult := some sr1 }, raw)

/-- The `switch t` in the loop of `Next`: decode the value that follows the
row attribute `t`. `.ok` is the result, the decoder and the row target with
which the loop goes on; `.error` is the result and the row target with which
`Next` returns false. -/
def SearchResult.NextSwitch (env : Env) (r : SearchResult) (t : JsonToken) (dec : List JsonToken)
    (rowPtr : SearchResultRow) :
    Except (SearchResult × SearchResultRow) (SearchResult × List JsonToken × SearchResultRow) :=
  if t = .str "index" then
    match Decoder.Decode unmarshalString dec rowPtr.Index with
    | .error e => .error ({ r with err := some e }, rowPtr)
    | .ok (v, dec1) => .ok ({ r with err := none }, dec1, { rowPtr with Index := v })
  else if t = .str "id" then
    match Decoder.Decode unmarshalString dec rowPtr.ID with
    | .error e => .error ({ r with err := some e }, rowPtr)
    | .ok (v, dec1) => .ok ({ r with err := none }, dec1, { rowPtr with ID := v })
  else if t = .str "score" then
    match Decoder.Decode unmarshalFloat dec rowPtr.Score with
    | .error e => .error ({ r with err := some e }, rowPtr)
    | .ok (v, dec1) => .ok ({ r with err := none }, dec1, { rowPtr with Score := v })
  else if t = .str "explanation" then
    match Decoder.Decode env.unmarshalExplanation dec rowPtr.Explanation with
    | .error e => .error ({ r with err := some e }, rowPtr)
    | .ok (v, dec1) => .ok ({ r with err := none }, dec1, { rowPtr with Explanation := v })
  else if t = .str "locations" then
    match Decoder.Decode env.unmarshalLocations dec rowPtr.Locations with
    | .error e => .error ({ r with err := some e }, rowPtr)
    | .ok (v, dec1) => .ok ({ r with err := none }, dec1, { rowPtr with Locations := v })
  else if t = .str "fragments" then
    match Decoder.Decode env.unmarshalFragments dec rowPtr.Fragments with
    | .error e => .error ({ r with err := some e }, rowPtr)
    | .ok (v, dec1) => .ok ({ r with err := none }, dec1, { rowPtr with Fragments := v })
  else if t = .str "fields" then
    match Decoder.Decode unmarshalRawMessage dec rowPtr.fields with
    | .error e => .error ({ r with err := some e }, { rowPtr with serializer := r.serializer })
    | .ok (v, dec1) =>
      .ok ({ r with err := none }, dec1, { rowPtr with serializer := r.serializer, fields := v })
  else
    match Decoder.Decode unmarshalIgnore dec () with
    | .error _ => .error (r, rowPtr)
    | .ok (_, dec1) => .ok (r, dec1, rowPtr)

/-- The token loop of `Next` over the bytes of one row: the result and the row
target after the loop and the value `Next` returns. Every iteration consumes a
token, so the length of the row bounds the iterations (`fuel`). -/
def SearchResult.NextLoop (env : Env) :
    Nat → SearchResult → List JsonToken → SearchResultRow → SearchResult × SearchResultRow × Bool
  | 0, r, _, rowPtr => (r, rowPtr, true)
  | fuel + 1, r, decoder, rowPtr =>
    if Decoder.More decoder = false then (r, rowPtr, true)
    else
      match Decoder.Token decoder with
      | .error e => ({ r with err := some e }, rowPtr, false)
      | .ok (t, dec) =>
        if t = .delim .lbrace ∨ t = .delim .rbrace then
          SearchResult.NextLoop env fuel r dec rowPtr
        else
          match SearchResult.NextSwitch env r t dec rowPtr with
          | .error (r1, rowPtr1) => (r1, rowPtr1, false)
          | .ok (r1, dec1, rowPtr1) => SearchResult.NextLoop env fuel r1 dec1 rowPtr1

/-- The receiver `Next(rowPtr)`: `none` is a panic, otherwise the result and
the row target after the call and the returned flag. -/
def SearchResult.Next (env : Env) (r : SearchResult) (rowPtr : SearchResultRow) :
    Option (SearchResult × SearchResultRow × Bool) :=
  if r.err ≠ none then some (r, rowPtr, false)
  else
    match r.NextBytes env with
    | none => none
    | some (r1, none) => some (r1, rowPtr, false)
    | some (r1, some row) => some (SearchResult.NextLoop env (row.length + 1) r1 row rowPtr)

/-- The receiver `Close()` called at the instant `now`: `none` is a panic (nil
streaming result or nil context), otherwise the result after the call and the
returned error. -/
def SearchResult.Close (now : Nat) (r : SearchResult) : Option (SearchResult × Option GoError) :=
  match r.streamResult with
  | none => none
  | some sr =>
    if sr.Closed = true then some (r, r.err)
    else
      match sr.Close with
      | (sr1, err) =>
        match r.ctx with
        | none => none
        | some ctx =>
          let ctxErr := ctx.Err now
          let r1 : SearchResult :=
            match r.cancel with
            | some c =>
              { r with streamResult := some sr1, cancel := some c.invoke,
                       ctx := some (ctx.cancel now) }
            | none => { r with streamResult := some sr1 }
          if ctxErr = some .DeadlineExceeded then some (r1, some .timeoutError)
          else if r.err ≠ none then some (r1, r.err)
          else some (r1, err)

/-- The loop `for r.NextBytes() != nil {}` of `One`. Every iteration that
continues has consumed a token of the stream (`fuel`). -/
def SearchResult.purge (env : Env) : Nat → SearchResult → Option SearchResult
  | 0, r => some r
  | fuel + 1, r =>
    match r.NextBytes env with
    | none => none
    | some (r1, none) => some r1
    | some (r1, some _) => SearchResult.purge env fuel r1

/-- Number of tokens of the stream not yet consumed. -/
def SearchResult.pending (r : SearchResult) : Nat :=
  match r.streamResult with
  | some sr => sr.decoder.length
  | none => 0

/-- The receiver `One(rowPtr)` called at the instant `now`. -/
def SearchResult.One (env : Env) (now : Nat) (r : SearchResult) (rowPtr : SearchResultRow) :
    Option (SearchResult × SearchResultRow × Option GoError) :=
  match r.Next env rowPtr with
  | none => none
  | some (r1, row1, false) =>
    match r1.Close now with
    | none => none
    | some (r2, some err) => some (r2, row1, some err)
    | some (r2, none) => some (r2, row1, some .noResultsError)
  | some (r1, row1, true) =>
    match SearchResult.purge env (r1.pending + 1) r1 with
    | none => none
    | some r2 =>
      match r2.Close now with
      | none => none
      | some (r3, some err) => some (r3, row1, some err)
      | some (r3, none) => some (r3, row1, none)

/-- The receiver `Metadata()`: `none` is a panic, otherwise the returned
pointer and error. -/
def SearchResult.Metadata (r : SearchResult) : Option (Option SearchMetadata × Option GoError) :=
  match r.streamResult with
  | none => none
  | some sr =>
    if sr.Closed = false then
      some (none, some (.clientError "result must be closed before accessing meta-data"))
    else some (some r.metadata, none)

/-- The receiver `Facets()`: `none` is a panic, otherwise the returned map and
error. -/
def SearchResult.Facets (r : SearchResult) : Option (Option Raw × Option GoError) :=
  match r.streamResult with
  | none => none
  | some sr =>
    if sr.Closed = false then
      some (none, some (.clientError "result must be closed before accessing meta-data"))
    else some (r.facets, none)

/-- What a call of `Fields` leaves behind: the returned error, the caller's
target after the call, and the number of times `Deserialize` was called. -/
structure FieldsOutcome (V : Type) where
  err : Option GoError
  value : V
  deserializeCalls : Nat

/-- The receiver `Fields(valuePtr)` of a row. `deserialize` is the behaviour of
the `Deserialize` method of each serializer: for the bytes and the target
before the call, the returned error and the target after it. `none` is a panic
(fields stashed on a row without serializer). -/
def SearchResultRow.Fields {V : Type}
    (deserialize : JSONSerializer → Raw → V → Option GoError × V)
    (row : SearchResultRow) (valuePtr : V) : Option (FieldsOutcome V) :=
  match row.fields with
  | none =>
    some { err := some (.errorsNew "no fields to scan"), value := valuePtr, deserializeCalls := 0 }
  | some fields =>
    match row.serializer with
    | none => none
    | some serializer =>
      some { err := (deserialize serializer fields valuePtr).1,
             value := (deserialize serializer fields valuePtr).2, deserializeCalls := 1 }

/-- The loop of `Next` seen member by member: the `switch` is applied to each
member of a row object in wire order and stops at the first failure. -/
def SearchResult.rowMembers (env : Env) (r : SearchResult) :
    List (String × Raw) → SearchResultRow → SearchResult × SearchResultRow × Bool
  | [], rowPtr => (r, rowPtr, true)
  | kv :: ms, rowPtr =>
    match SearchResult.NextSwitch env r (.str kv.1) kv.2 rowPtr with
    | .error (r1, rowPtr1) => (r1, rowPtr1, false)
    | .ok (r1, _, rowPtr1) => SearchResult.rowMembers env r1 ms rowPtr1

/-- The attributes of a row that `Next` decodes: the case labels of its
`switch`. -/
def SearchResult.rowAttributes : List String :=
  ["index", "id", "score", "explanation", "locations", "fragments", "fields"]

/-- The top-level attributes that `readAttribute` decodes: the case labels of
its `switch`. -/
def SearchResult.attributes : List String :=
  ["status", "total_hits", "facets", "took", "max_score", "hits"]

/-! ## The query executor -/

/-- Services of the cluster a request can address. -/
inductive ServiceType
  | FtsService
  | other (id : Nat)
  deriving DecidableEq, Repr

/-- A request handed to the HTTP provider (`gocbcore.HttpRequest`). -/
structure HttpRequest where
  Service : ServiceType
  Path : String
  Method : String
  Context : Context
  Body : Raw
  deriving DecidableEq, Repr

/-- A response of the HTTP provider (`gocbcore.HttpResponse`). -/
structure HttpResponse where
  StatusCode : Int
  Endpoint : String
  Body : Body
  deriving DecidableEq, Repr

/-- The HTTP execution provider: for a request sent at an instant, the
response or transport error and the instant at which the call returns. -/
structure httpProvider where
  DoHttpRequest : HttpRequest → Nat → Except GoError HttpResponse × Nat

/-- A `jsonx.DelayedObject`: keys with their undecoded values. -/
abbrev DelayedObject := List (String × Raw)

/-- Tokens of the members of an object. -/
def memberTokens : List (String × Raw) → List JsonToken
  | [] => []
  | (k, v) :: rest => .str k :: v ++ memberTokens rest

/-- The tokens of the JSON object with the given members. -/
def objectTokens (ms : List (String × Raw)) : Raw :=
  .delim .lbrace :: (memberTokens ms ++ [.delim .rbrace])

/-- Order of two keys as `sort.Strings` sees them: the order of their code
points, which is the order of their UTF-8 bytes. -/
def keyLt : List Char → List Char → Bool
  | _, [] => false
  | [], _ :: _ => true
  | a :: as, b :: bs =>
    if a.toNat < b.toNat then true else if b.toNat < a.toNat then false else keyLt as bs

/-- Insert a member into members sorted by key. -/
def insertMember (kv : String × Raw) : List (String × Raw) → List (String × Raw)
  | [] => [kv]
  | x :: xs => if keyLt kv.1.data x.1.data = true then kv :: x :: xs else x :: insertMember kv xs

/-- The entries of a Go map in the order in which `json.Marshal` writes them:
sorted by key. -/
def sortMembers (m : List (String × Raw)) : List (String × Raw) :=
  m.foldr insertMember []

/-- The call `json.Marshal(query)` on a delayed object: the JSON object of its
entries, sorted by key; it fails when a delayed value is not valid JSON. -/
def jsonMarshal (query : DelayedObject) : Except GoError Raw :=
  if query.all (fun kv => decide (IsValue kv.2)) then .ok (objectTokens (sortMembers query))
  else .error (.jsonError "json: error calling MarshalJSON for type json.RawMessage")

/-- What `executeSearchQuery` leaves behind: the returned result and error, the
response body in its final state when a response was received, and the
instant at which the provider returned. -/
structure ExecOutcome where
  result : Option SearchResult
  err : Option GoError
  body : Option Body
  now : Nat
  deriving DecidableEq, Repr

/-- The success path of `executeSearchQuery` (status 200), from the creation
of `queryResults` on: `epInfoHost` is the host of the endpoint and `now1` the
instant at which the provider returned. -/
def executeSearchQuery.success (env : Env) (ctx : Context) (cancel : Option CancelFunc)
    (serializer : Option JSONSerializer) (resp : HttpResponse) (epInfoHost : String)
    (now1 : Nat) : ExecOutcome :=
  let queryResults : SearchResult :=
    { metadata := { status := { Total := 0, Failed := 0, Successful := 0 }, totalHits := 0,
                    took := 0, maxScore := .int 0, sourceAddr := epInfoHost },
      err := none, facets := none, httpStatus := resp.StatusCode, streamResult := none,
      cancel := none, ctx := none, serializer := serializer }
  match newStreamingResults resp.Body with
  | .error err => { result := none, err := some err, body := some resp.Body, now := now1 }
  | .ok streamResult =>
    match streamResult.readAttributes (SearchResult.readAttribute env) queryResults with
    | (streamResult1, _, some err) =>
      { result := none, err := some err, body := some streamResult1.Close.1.stream, now := now1 }
    | (streamResult1, queryResults1, none) =>
      if streamResult1.HasRows = true then
        { result := some { queryResults1 with streamResult := some streamResult1,
                                              cancel := cancel, ctx := some ctx },
          err := none, body := some streamResult1.stream, now := now1 }
      else
        if queryResults1.err ≠ none then
          { result := none, err := queryResults1.err, body := some streamResult1.Close.1.stream,
            now := now1 }
        else
          { result := some { queryResults1 with streamResult := some streamResult1.Close.1 },
            err := none, body := some streamResult1.Close.1.stream, now := now1 }

/-- The part of `executeSearchQuery` that follows a response of the provider:
the endpoint is parsed and the response is classified by its status code. -/
def executeSearchQuery.respond (env : Env) (ctx : Context) (cancel : Option CancelFunc)
    (serializer : Option JSONSerializer) (resp : HttpResponse) (now1 : Nat) : ExecOutcome :=
  let epInfoHost : String :=
    match env.urlParseHost resp.Endpoint with
    | some host => host
    | none => ""
  if resp.StatusCode = 400 then
    match resp.Body.readErr with
    | some err => { result := none, err := some err, body := some resp.Body, now := now1 }
    | none =>
      { result := none,
        err := some (.searchMultiError [{ message := resp.Body.text }] epInfoHost
          resp.StatusCode),
        body := some resp.Body, now := now1 }
  else if resp.StatusCode = 401 then
    { result := none,
      err := some (.searchMultiError
        [{ message := "The requested consistency level could not be satisfied before the timeout was reached" }]
        epInfoHost resp.StatusCode),
      body := some resp.Body, now := now1 }
  else if resp.StatusCode ≠ 200 then
    { result := none,
      err := some (.searchMultiError [{ message := "An unknown error occurred" }] epInfoHost
        resp.StatusCode),
      body := some resp.Body, now := now1 }
  else executeSearchQuery.success env ctx cancel serializer resp epInfoHost now1

/-- The method `executeSearchQuery`, called at the instant `now`. -/
def executeSearchQuery (env : Env) (now : Nat) (ctx : Context) (query : DelayedObject)
    (qIndexName : String) (provider : httpProvider) (cancel : Option CancelFunc)
    (serializer : Option JSONSerializer) : ExecOutcome :=
  match jsonMarshal query with
  | .error err =>
    { result := none, err := some (.errorsWrap err "could not parse query options"),
      body := none, now := now }
  | .ok qBytes =>
    match provider.DoHttpRequest
        { Service := .FtsService, Path := "/api/index/" ++ qIndexName ++ "/query",
          Method := "POST", Context := ctx, Body := qBytes } now with
    | (.error err, now1) =>
      if err = .ErrNoFtsService then
        { result := none, err := some (.serviceNotAvailableError env.ErrNoFtsServiceText),
          body := none, now := now1 }
      else if ctx.Err now1 = some .DeadlineExceeded then
        { result := none, err := some .timeoutError, body := none, now := now1 }
      else
        { result := none,
          err := some (.errorsWrap err "could not complete search http request"),
          body := none, now := now1 }
    | (.ok resp, now1) => executeSearchQuery.respond env ctx cancel serializer resp now1

/-- The request `executeSearchQuery` hands to the provider for the index
`qIndexName`, under the context `ctx`, with the marshalled query `qBytes`. -/
def executeSearchQuery.request (ctx : Context) (qIndexName : String) (qBytes : Raw) :
    HttpRequest :=
  { Service := .FtsService, Path := "/api/index/" ++ qIndexName ++ "/query", Method := "POST",
    Context := ctx, Body := qBytes }

/-! ## The retry orchestrator and the timeout composition -/

/-- The constant `time.Millisecond`, in nanoseconds. -/
def Millisecond : Int := 1000000

/-- The value an `int64` holds after an arithmetic operation whose exact
result is `x` (two's complement wrap-around). -/
def wrapInt64 (x : Int) : Int := (x + 2 ^ 63) % 2 ^ 64 - 2 ^ 63

/-- Modelled from the spec: the JSON form of a `jsonMillisecondDuration`, a type
declared outside the file; the wire carries `ctl.timeout` as a number of
milliseconds (spec 6), here the whole milliseconds of the duration; the
division of Go's integers rounds toward zero. -/
def jsonMillisecondDuration.MarshalJSON (d : Int) : Except GoError Raw :=
  .ok [.num (.int (d.tdiv Millisecond))]

/-- The call `context.WithTimeout(parent, dur)` made at the instant `created`:
the derived context expires at the earlier of the parent's deadline and
`created + dur`, and has the parent's error if the parent is already done. -/
def Context.WithTimeout (parent : Context) (created : Nat) (dur : Int) : Context :=
  { deadline :=
      match parent.deadline with
      | some d => some (min d ((created : Int) + dur))
      | none => some ((created : Int) + dur),
    done := parent.Err created }

/-- The receiver `Has(key)` of a `jsonx.DelayedObject`. -/
def DelayedObject.Has (d : DelayedObject) (key : String) : Bool :=
  (d.lookup key).isSome

/-- The receiver `Get(key, &v)` of a `jsonx.DelayedObject`: the delayed value is
unmarshalled into the target. -/
def DelayedObject.Get {α : Type} (d : DelayedObject) (key : String)
    (um : Raw → α → Except GoError α) (old : α) : Except GoError α :=
  match d.lookup key with
  | some raw => um raw old
  | none => .error (.jsonError "unexpected end of JSON input")

/-- The receiver `Set(key, v)` of a `jsonx.DelayedObject`, given what
`json.Marshal(v)` returns. -/
def DelayedObject.Set (d : DelayedObject) (key : String) (marshalled : Except GoError Raw) :
    Except GoError DelayedObject :=
  match marshalled with
  | .error e => .error e
  | .ok raw => .ok (mapSet d key raw)

/-- Unmarshal into a `jsonx.DelayedObject`: an object adds its members, null
gives the empty object, every other value is a type error. -/
def unmarshalDelayedObject (raw : Raw) (old : DelayedObject) : Except GoError DelayedObject :=
  match raw with
  | [.null] => .ok []
  | .delim .lbrace :: rest =>
    match objectMembers raw.length rest with
    | some ms => .ok (ms.foldl (fun m kv => mapSet m kv.1 kv.2) old)
    | none => .error (.jsonError "invalid object")
  | _ => .error (.jsonError "cannot unmarshal into Go value of type jsonx.DelayedObject")

/-- The members of `SearchOptions`, a type declared outside the file, that
`searchQuery` uses: the caller's context, the serializer, and the options as
the JSON object that `toOptionsData`, `json.Marshal` and `json.Unmarshal`
give (or the first error among them). -/
structure SearchOptions where
  Context : Option Context
  Serializer : Option JSONSerializer
  toOptionsData : Except GoError DelayedObject

/-- The part of `SearchQuery`, a type declared outside the file, that
`searchQuery` uses: what `toSearchQueryData` returns, and inside it what
`json.Marshal` gives for the `Query` member. -/
structure SearchQuery where
  toSearchQueryData : Except GoError (Except GoError Raw)

/-- A retry behaviour: whether a retry is allowed after the given number of
attempts, and how long to wait before it. -/
structure RetryBehavior where
  CanRetry : Nat → Bool
  NextInterval : Nat → Int

/-- The members of the cluster's state block that `searchQuery` reads. -/
structure stateBlock where
  SearchTimeout : Int
  SearchRetryBehavior : Option RetryBehavior

/-- The cluster, reduced to its state block. -/
structure Cluster where
  sb : stateBlock

/-- The statement `ctlData` of `searchQuery`: the "ctl" block of the options,
empty when there is none. -/
def searchQuery.ctlData (queryData : DelayedObject) : Except GoError DelayedObject :=
  if queryData.Has "ctl" = true then queryData.Get "ctl" unmarshalDelayedObject []
  else .ok []

/-- The variable `timeout` of `searchQuery`: the cluster's search timeout unless
the "ctl" block carries a "timeout". -/
def searchQuery.timeout (c : Cluster) (ctlData : DelayedObject) : Except GoError Int :=
  if ctlData.Has "timeout" = true then ctlData.Get "timeout" unmarshalInt c.sb.SearchTimeout
  else .ok c.sb.SearchTimeout

/-- What `searchQuery` has built when it enters its retry loop: the derived
context and its cancel function, the request data, the serializer, and the
values of the local variables `timeout`, `opTimeout` and `ctlData`. -/
structure Prepared where
  ctx : Context
  cancel : CancelFunc
  queryData : DelayedObject
  Serializer : JSONSerializer
  timeout : Int
  opTimeout : Int
  ctlData : DelayedObject
  deriving DecidableEq, Repr

/-- How the part of `searchQuery` before the retry loop ends: with an error
(and the cancel function, once it exists, invoked), or ready to send. -/
inductive PrepareOutcome
  | failed (err : GoError) (cancel : Option CancelFunc)
  | ready (p : Prepared)
  deriving DecidableEq, Repr

/-- The part of `searchQuery` before the retry loop. `created` is the instant
at which the derived context is created and `built` the instant `time.Now()`
returns. -/
def searchQuery.prepare (c : Cluster) (created built : Nat) (ctx : Context) (q : SearchQuery)
    (opts : SearchOptions) : PrepareOutcome :=
  match opts.toOptionsData with
  | .error err => .failed err none
  | .ok queryData =>
    match searchQuery.ctlData queryData with
    | .error err => .failed err none
    | .ok ctlData =>
      match searchQuery.timeout c ctlData with
      | .error err => .failed err none
      | .ok timeout =>
        let ctx1 := ctx.WithTimeout created (wrapInt64 (timeout * Millisecond))
        let cancel : CancelFunc := { calls := 0 }
        let d : Int := ctx1.deadline.getD 0
        let opTimeout : Int := d - built
        match ctlData.Set "timeout" (jsonMillisecondDuration.MarshalJSON opTimeout) with
        | .error err => .failed err (some cancel.invoke)
        | .ok ctlData1 =>
          match queryData.Set "ctl" (jsonMarshal ctlData1) with
          | .error err => .failed err (some cancel.invoke)
          | .ok queryData1 =>
            match q.toSearchQueryData with
            | .error err => .failed err (some cancel.invoke)
            | .ok dqQuery =>
              match queryData1.Set "query" dqQuery with
              | .error err => .failed err (some cancel.invoke)
              | .ok queryData2 =>
                .ready { ctx := ctx1, cancel := cancel, queryData := queryData2,
                         Serializer := opts.Serializer.getD .DefaultJSONSerializer,
                         timeout := timeout, opTimeout := opTimeout, ctlData := ctlData1 }

/-- One attempt of the retry loop: the instant at which it was sent and what
`executeSearchQuery` left behind. -/
structure Attempt where
  sentAt : Nat
  outcome : ExecOutcome
  deriving DecidableEq, Repr

/-- The retry loop of `searchQuery`: `retries` attempts have been made, the
next one is sent at the instant `now`. Returns the outcome of the last attempt
and all attempts made, in order; `none` when the loop has not ended after
`fuel` attempts. `IsRetryableError` is the classifier of the same name,
declared outside the file. -/
def searchQuery.loop (env : Env) (c : Cluster) (IsRetryableError : GoError → Bool)
    (p : Prepared) (qIndexName : String) (provider : httpProvider) :
    Nat → Nat → Nat → List Attempt → Option (ExecOutcome × List Attempt)
  | 0, _, _, _ => none
  | fuel + 1, retries, now, made =>
    let res := executeSearchQuery env now p.ctx p.queryData qIndexName provider (some p.cancel)
      (some p.Serializer)
    let made1 := made ++ [{ sentAt := now, outcome := res }]
    match res.err with
    | none => some (res, made1)
    | some err =>
      match c.sb.SearchRetryBehavior with
      | none => some (res, made1)
      | some behavior =>
        if IsRetryableError err = false ∨ behavior.CanRetry (retries + 1) = false then
          some (res, made1)
        else
          searchQuery.loop env c IsRetryableError p qIndexName provider fuel (retries + 1)
            (res.now + (behavior.NextInterval (retries + 1)).toNat) made1

/-- What `searchQuery` leaves behind: the returned result and error, the cancel
function of the derived context in its final state once it exists, the
attempts made, and what was prepared for them. -/
structure SearchOutcome where
  result : Option SearchResult
  err : Option GoError
  cancel : Option CancelFunc
  attempts : List Attempt
  prepared : Option Prepared
  deriving DecidableEq, Repr

/-- The method `searchQuery`. The derived context is created at the instant
`created`, the clock is read and the first attempt sent at the instant
`built`; `none` when the retry loop has not ended after `fuel` attempts. -/
def searchQuery (env : Env) (c : Cluster) (IsRetryableError : GoError → Bool)
    (created built fuel : Nat) (ctx : Context) (qIndexName : String) (q : SearchQuery)
    (opts : SearchOptions) (provider : httpProvider) : Option SearchOutcome :=
  match searchQuery.prepare c created built ctx q opts with
  | .failed err cancel =>
    some { result := none, err := some err, cancel := cancel, attempts := [], prepared := none }
  | .ready p =>
    match searchQuery.loop env c IsRetryableError p qIndexName provider fuel 0 built [] with
    | none => none
    | some (res, made) =>
      match res.err with
      | some err =>
        some { result := none, err := some err, cancel := some p.cancel.invoke, attempts := made,
               prepared := some p }
      | none =>
        some { result := res.result, err := none, cancel := some p.cancel, attempts := made,
               prepared := some p }

/-! ## Consumers of a result -/

/-- A call a consumer makes on a result. Calls that take a row target or read
the clock carry it. -/
inductive Op
  | Next (rowPtr : SearchResultRow)
  | NextBytes
  | One (now : Nat) (rowPtr : SearchResultRow)
  | Metadata
  | Facets
  | Close (now : Nat)
  deriving DecidableEq, Repr

/-- The call is `One`. -/
def Op.isOne : Op → Bool
  | .One _ _ => true
  | _ => false

/-- The call is `Close`. -/
def Op.isClose : Op → Bool
  | .Close _ => true
  | _ => false

/-- The call reads rows: `Next` or `NextBytes`. -/
def Op.isRead : Op → Bool
  | .Next _ => true
  | .NextBytes => true
  | _ => false

/-- The result after one call; `none` when the call panics. -/
def SearchResult.step (env : Env) (r : SearchResult) : Op → Option SearchResult
  | .Next rowPtr => (r.Next env rowPtr).map (fun p => p.1)
  | .NextBytes => (r.NextBytes env).map (fun p => p.1)
  | .One now rowPtr => (r.One env now rowPtr).map (fun p => p.1)
  | .Metadata => r.Metadata.map (fun _ => r)
  | .Facets => r.Facets.map (fun _ => r)
  | .Close now => (r.Close now).map (fun p => p.1)

/-- The result after a sequence of calls; `none` when one of them panics. -/
def SearchResult.run (env : Env) : List Op → SearchResult → Option SearchResult
  | [], r => some r
  | op :: ops, r =>
    match r.step env op with
    | none => none
    | some r1 => SearchResult.run env ops r1

/-- The consumer loop `for r.Next(&row) { ... }` with at most `fuel` calls of
`Next`: the result after the loop, the content of the row target after each
call that returned true, and whether the call that returned false was reached. -/
def SearchResult.iterate (env : Env) :
    Nat → SearchResult → SearchResultRow → Option (SearchResult × List SearchResultRow × Bool)
  | 0, r, _ => some (r, [], false)
  | fuel + 1, r, rowPtr =>
    match r.Next env rowPtr with
    | none => none
    | some (r1, _, false) => some (r1, [], true)
    | some (r1, rowPtr1, true) =>
      match SearchResult.iterate env fuel r1 rowPtr1 with
      | none => none
      | some (r2, rows, fin) => some (r2, rowPtr1 :: rows, fin)

/-- The row target after the loop of `Next` has decoded the bytes `raw` into it. -/
def SearchResult.decodeRow (env : Env) (r : SearchResult) (raw : Raw) (rowPtr : SearchResultRow) :
    SearchResultRow :=
  (SearchResult.NextLoop env (raw.length + 1) r raw rowPtr).2.1

/-- The loop of `Next` accepts the bytes `raw` for the row target. -/
def SearchResult.rowDecodes (env : Env) (r : SearchResult) (raw : Raw) (rowPtr : SearchResultRow) :
    Bool :=
  (SearchResult.NextLoop env (raw.length + 1) r raw rowPtr).2.2

/-- The successive contents of one row target into which the rows are decoded
in the given order. -/
def SearchResult.decodeRows (env : Env) (r : SearchResult) :
    List Raw → SearchResultRow → List SearchResultRow
  | [], _ => []
  | raw :: rest, rowPtr =>
    r.decodeRow env raw rowPtr :: SearchResult.decodeRows env r rest (r.decodeRow env raw rowPtr)

/-- Every row is accepted when the rows are decoded in the given order into one
row target. -/
def SearchResult.rowsDecode (env : Env) (r : SearchResult) : List Raw → SearchResultRow → Bool
  | [], _ => true
  | raw :: rest, rowPtr =>
    r.rowDecodes env raw rowPtr && SearchResult.rowsDecode env r rest (r.decodeRow env raw rowPtr)

/-- The frame of a result that the attribute handler and the row loop never
write: the streaming result, the cancel function, the context, the HTTP status
and the serializer. -/
def SearchResult.SameFrame (r r1 : SearchResult) : Prop :=
  r1.streamResult = r.streamResult ∧ r1.cancel = r.cancel ∧ r1.ctx = r.ctx ∧
    r1.httpStatus = r.httpStatus ∧ r1.serializer = r.serializer

/-- A result on which no call dereferences nil: the streaming result is set,
and the context is set as long as the stream is open. -/
def SearchResult.Safe (r : SearchResult) : Prop :=
  ∃ sr, r.streamResult = some sr ∧ (sr.closed = false → r.ctx ≠ none)

/-- A top-level attribute that `readAttribute` accepts on a status 200 result:
wherever it stands, the handler consumes exactly its value, returns the flag
false and no error, and leaves the recorded error as it was. -/
def SearchResult.Accepts (env : Env) (kv : String × Raw) : Prop :=
  ∀ (r : SearchResult) (rest : List JsonToken), r.httpStatus = 200 →
    (r.readAttribute env (kv.2 ++ rest) (.str kv.1)).2 = (rest, false, none) ∧
    (r.readAttribute env (kv.2 ++ rest) (.str kv.1)).1.err = r.err

/-- A hit each of whose attributes is well typed: every value is a JSON value,
"index" and "id" are strings, "score" is a number in the range of a `float64`,
"explanation", "locations" and "fragments" are values their map types accept,
"fields" is any value, and the other attributes hold no number outside the
range of a `float64`. -/
def SearchResult.WellTypedHit (env : Env) (ms : List (String × Raw)) : Prop :=
  (∀ kv ∈ ms, IsValue kv.2) ∧
  (∀ kv ∈ ms, kv.1 ∉ SearchResult.rowAttributes → fitsInterface kv.2 = true) ∧
  (∀ kv ∈ ms, kv.1 ∈ SearchResult.rowAttributes →
    ((kv.1 = "index" ∨ kv.1 = "id") ∧ ∃ s, kv.2 = [.str s]) ∨
    (kv.1 = "score" ∧ ∃ n, kv.2 = [.num n] ∧ n.fitsFloat64 = true) ∨
    kv.1 = "fields" ∨
    (kv.1 = "explanation" ∧ ∀ old, ∃ x, env.unmarshalExplanation kv.2 old = .ok x) ∨
    (kv.1 = "locations" ∧ ∀ old, ∃ x, env.unmarshalLocations kv.2 old = .ok x) ∨
    (kv.1 = "fragments" ∧ ∀ old, ∃ x, env.unmarshalFragments kv.2 old = .ok x))

/-- Specification of a row, one attribute of a hit (spec 4.3 and 6, "Row
object fields": index, id, score, explanation, locations, fragments and fields,
all optional, unknown fields ignored): a known attribute is stored in the
field of the row it names; "fields" is stashed as bytes together with the
serializer; every other attribute leaves the row as it is. -/
def hitAttribute (env : Env) (serializer : Option JSONSerializer) (row : SearchResultRow)
    (kv : String × Raw) : SearchResultRow :=
  if kv.1 = "index" then
    match kv.2 with
    | [.str s] => { row with Index := s }
    | _ => row
  else if kv.1 = "id" then
    match kv.2 with
    | [.str s] => { row with ID := s }
    | _ => row
  else if kv.1 = "score" then
    match kv.2 with
    | [.num n] => { row with Score := n }
    | _ => row
  else if kv.1 = "explanation" then
    match env.unmarshalExplanation kv.2 row.Explanation with
    | .ok x => { row with Explanation := x }
    | .error _ => row
  else if kv.1 = "locations" then
    match env.unmarshalLocations kv.2 row.Locations with
    | .ok x => { row with Locations := x }
    | .error _ => row
  else if kv.1 = "fragments" then
    match env.unmarshalFragments kv.2 row.Fragments with
    | .ok x => { row with Fragments := x }
    | .error _ => row
  else if kv.1 = "fields" then { row with serializer := serializer, fields := some kv.2 }
  else row

/-- Specification of a row: the row target after a hit, given by its members in
wire order, has been stored in it. -/
def hitRow (env : Env) (serializer : Option JSONSerializer) (ms : List (String × Raw))
    (row : SearchResultRow) : SearchResultRow :=
  ms.foldl (hitAttribute env serializer) row

/-- Specification of the row sequence: the successive contents of one row
target in which the hits are stored in wire order. -/
def hitRows (env : Env) (serializer : Option JSONSerializer) :
    List (List (String × Raw)) → SearchResultRow → List SearchResultRow
  | [], _ => []
  | ms :: rest, row =>
    hitRow env serializer ms row :: hitRows env serializer rest (hitRow env serializer ms row)

/-- The tokens of the response whose top-level object holds the attributes
`pre`, then the row array "hits" with the given hits, then the tokens `post`. -/
def responseTokens (pre : List (String × Raw)) (hits : List (List (String × Raw)))
    (post : List JsonToken) : List JsonToken :=
  .delim .lbrace :: (memberTokens pre ++ .str "hits" :: .delim .lbrack ::
    ((hits.map objectTokens).flatten ++ .delim .rbrack :: post))

/-! ## Sample inputs -/

/-- A sample environment: the nested maps are stored as the tokens of their
value, `range` walks a map in insertion order, and one endpoint parses. -/
def sampleEnv : Env :=
  { unmarshalExplanation := fun raw _ => .ok (some raw)
    unmarshalLocations := fun raw _ => .ok (some raw)
    unmarshalFragments := fun raw _ => .ok (some raw)
    unmarshalFacets := fun raw _ => .ok (some raw)
    rangeOrder := fun m => m
    urlParseHost := fun s => if s = "http://10.0.0.1:8094" then some "10.0.0.1:8094" else none
    ErrNoFtsServiceText := "no FTS service" }

/-- A context whose deadline is the instant 100. -/
def sampleCtx : Context := { deadline := some 100, done := none }

/-- A body with the given tokens, text and close error, not yet closed. -/
def sampleBody (tokens : List JsonToken) (text : String) (closeErr : Option GoError) : Body :=
  { tokens := tokens, text := text, readErr := none, closeErr := closeErr, closeCalls := 0 }

/-- A provider that answers every request one instant later with the given
status code and body. -/
def sampleProvider (code : Int) (b : Body) : httpProvider :=
  { DoHttpRequest := fun _ now =>
      (.ok { StatusCode := code, Endpoint := "http://10.0.0.1:8094", Body := b }, now + 1) }

/-- The tokens of `{"total_hits":2,"hits":[{"id":"a"},{"id":"b"}],"took":7}`. -/
def sampleTokens : List JsonToken :=
  [.delim .lbrace, .str "total_hits", .num (.int 2), .str "hits", .delim .lbrack,
   .delim .lbrace, .str "id", .str "a", .delim .rbrace,
   .delim .lbrace, .str "id", .str "b", .delim .rbrace,
   .delim .rbrack, .str "took", .num (.int 7), .delim .rbrace]

/-- The tokens of `{"hits":[{"id":"a"}],"total_hits":1}`. -/
def sampleOneRowTokens : List JsonToken :=
  [.delim .lbrace, .str "hits", .delim .lbrack,
   .delim .lbrace, .str "id", .str "a", .delim .rbrace,
   .delim .rbrack, .str "total_hits", .num (.int 1), .delim .rbrace]

/-- The tokens of `{"hits":[]}`. -/
def sampleNoRowTokens : List JsonToken :=
  [.delim .lbrace, .str "hits", .delim .lbrack, .delim .rbrack, .delim .rbrace]

/-- What `executeSearchQuery` returns for a status 200 response with the given
body, asked at the instant 0 under `sampleCtx` with a fresh cancel function. -/
def sampleExec (b : Body) : ExecOutcome :=
  executeSearchQuery sampleEnv 0 sampleCtx [] "idx" (sampleProvider 200 b) (some { calls := 0 })
    (some .DefaultJSONSerializer)

/-- The streaming result positioned on the rows of `sampleTokens`. -/
def sampleStream : streamingResult :=
  { decoder := [.delim .lbrace, .str "id", .str "a", .delim .rbrace,
                .delim .lbrace, .str "id", .str "b", .delim .rbrace,
                .delim .rbrack, .str "took", .num (.int 7), .delim .rbrace],
    stream := sampleBody sampleTokens "" none, closed := false, hasRows := true, ended := false }

/-- The result `executeSearchQuery` returns for `sampleTokens`. -/
def sampleResult : SearchResult :=
  { metadata := { status := { Total := 0, Failed := 0, Successful := 0 }, totalHits := 2,
                  took := 0, maxScore := .int 0, sourceAddr := "10.0.0.1:8094" },
    err := none, facets := none, httpStatus := 200, streamResult := some sampleStream,
    cancel := some { calls := 0 }, ctx := some sampleCtx,
    serializer := some .DefaultJSONSerializer }

/-- The sample result after `Close` at the instant 5. -/
def sampleClosed : SearchResult :=
  { sampleResult with
    streamResult := some { sampleStream with
      stream := { sampleStream.stream with closeCalls := 1 }, closed := true },
    cancel := some { calls := 1 },
    ctx := some { deadline := some 100, done := some .Canceled } }

/-- The tokens that follow the row array of `sampleTokens`. -/
def samplePost : List JsonToken := [.str "took", .num (.int 7), .delim .rbrace]

/-- The sample stream once the attributes after the row array have been read. -/
def sampleTrailStream : streamingResult :=
  { sampleStream with decoder := [.delim .rbrace] }

/-- The sample result once the attributes after the row array have been read. -/
def sampleTrailResult : SearchResult :=
  { sampleResult with metadata := { sampleResult.metadata with took := 7 } }

/-- A result whose row array is empty, positioned at its closing bracket. -/
def sampleNoRowResult : SearchResult :=
  { sampleResult with
    streamResult := some { sampleStream with decoder := [.delim .rbrack, .delim .rbrace],
                                             stream := sampleBody sampleNoRowTokens "" none },
    metadata := { sampleResult.metadata with totalHits := 0 } }

/-- The tokens of `{"status":{"total":1,"failed":1,"errors":["boom"]},"hits":[]}`. -/
def sampleStatusArrayTokens : List JsonToken :=
  [.delim .lbrace, .str "status", .delim .lbrace, .str "total", .num (.int 1),
   .str "failed", .num (.int 1), .str "errors", .delim .lbrack, .str "boom", .delim .rbrack,
   .delim .rbrace, .str "hits", .delim .lbrack, .delim .rbrack, .delim .rbrace]

/-- The tokens of `{"status":{"total":1,"failed":1,"errors":{"pindex":"boom"}},"hits":[]}`. -/
def sampleStatusObjectTokens : List JsonToken :=
  [.delim .lbrace, .str "status", .delim .lbrace, .str "total", .num (.int 1),
   .str "failed", .num (.int 1), .str "errors", .delim .lbrace, .str "pindex", .str "boom",
   .delim .rbrace, .delim .rbrace, .str "hits", .delim .lbrack, .delim .rbrack, .delim .rbrace]

/-- The tokens of `{"hits":5}`. -/
def sampleScalarHitsTokens : List JsonToken :=
  [.delim .lbrace, .str "hits", .num (.int 5), .delim .rbrace]

/-- The tokens of `{"hits":[5,{"id":"b"}]}`: the first row is not an object. -/
def sampleBadRowTokens : List JsonToken :=
  [.delim .lbrace, .str "hits", .delim .lbrack, .num (.int 5),
   .delim .lbrace, .str "id", .str "b", .delim .rbrace, .delim .rbrack, .delim .rbrace]

/-- The tokens of `{"hits":[{"id":"a","fields":{"x":1}},{"id":"b"}]}`: only the
first row has fields. -/
def sampleStaleFieldsTokens : List JsonToken :=
  [.delim .lbrace, .str "hits", .delim .lbrack,
   .delim .lbrace, .str "id", .str "a", .str "fields",
   .delim .lbrace, .str "x", .num (.int 1), .delim .rbrace, .delim .rbrace,
   .delim .lbrace, .str "id", .str "b", .delim .rbrace, .delim .rbrack, .delim .rbrace]

/-- A sample deserializer: every serializer stores the bytes into the target
and returns no error. -/
def sampleDeserialize : JSONSerializer → Raw → Raw → Option GoError × Raw :=
  fun _ raw _ => (none, raw)

/-- A row with stashed fields `1` and the default serializer. -/
def sampleFieldsRow : SearchResultRow :=
  { SearchResultRow.zero with
    fields := some [.num (.int 1)], serializer := some .DefaultJSONSerializer }

/-- The tokens of `{"status":{"total":1,"failed":1,"errors":["boom"]},"hits":null}`. -/
def sampleStatusArrayNullHitsTokens : List JsonToken :=
  [.delim .lbrace, .str "status", .delim .lbrace, .str "total", .num (.int 1),
   .str "failed", .num (.int 1), .str "errors", .delim .lbrack, .str "boom", .delim .rbrack,
   .delim .rbrace, .str "hits", .null, .delim .rbrace]

/-- The tokens of
`{"status":{"total":1,"failed":1,"errors":{"pindex":"boom"}},"hits":null}`. -/
def sampleStatusObjectNullHitsTokens : List JsonToken :=
  [.delim .lbrace, .str "status", .delim .lbrace, .str "total", .num (.int 1),
   .str "failed", .num (.int 1), .str "errors", .delim .lbrace, .str "pindex", .str "boom",
   .delim .rbrace, .delim .rbrace, .str "hits", .null, .delim .rbrace]

/-- The tokens of `{"total_hits":0}`: no hits attribute. -/
def sampleAbsentHitsTokens : List JsonToken :=
  [.delim .lbrace, .str "total_hits", .num (.int 0), .delim .rbrace]

/-- A cluster with a search timeout of 75 seconds and no retry behaviour. -/
def sampleCluster : Cluster :=
  { sb := { SearchTimeout := 75000000000, SearchRetryBehavior := none } }

/-- The caller's context of the sample call: a deadline 200 ms after the
instant 0. -/
def sampleCallerCtx : Context := { deadline := some (200 * Millisecond), done := none }

/-- Search options `{"ctl":{"timeout":2},"size":10}` under the sample caller's
context. -/
def sampleOptions : SearchOptions :=
  { Context := some sampleCallerCtx, Serializer := none,
    toOptionsData := .ok [("ctl", [.delim .lbrace, .str "timeout", .num (.int 2), .delim .rbrace]),
                          ("size", [.num (.int 10)])] }

/-- A search query whose payload is `{"match":"beer"}`. -/
def sampleQuery : SearchQuery :=
  { toSearchQueryData := .ok (.ok [.delim .lbrace, .str "match", .str "beer", .delim .rbrace]) }

/-- A provider that fails every request 3 ms after the instant 0, or at once if
asked later, with a transport error. -/
def sampleFailingProvider : httpProvider :=
  { DoHttpRequest := fun _ now => (.error (.streamError "context canceled"), max now 3000000) }

/-- A classifier that retries nothing. -/
def sampleNotRetryable : GoError → Bool := fun _ => false

/-- What `searchQuery` prepares for the sample call when the derived context is
created at the instant 0 and the clock is read 0.5 ms later. -/
def samplePrepared : Prepared :=
  { ctx := { deadline := some 2000000, done := none },
    cancel := { calls := 0 },
    queryData :=
      [("ctl", [.delim .lbrace, .str "timeout", .num (.int 1), .delim .rbrace]),
       ("size", [.num (.int 10)]),
       ("query", [.delim .lbrace, .str "match", .str "beer", .delim .rbrace])],
    Serializer := .DefaultJSONSerializer,
    timeout := 2,
    opTimeout := 1500000,
    ctlData := [("timeout", [.num (.int 1)])] }

/-- A retry behaviour that allows one retry, 1 ms after the failed attempt. -/
def sampleRetryBehavior : RetryBehavior :=
  { CanRetry := fun n => decide (n < 2), NextInterval := fun _ => Millisecond }

/-- A cluster with a search timeout of 75 seconds and the sample retry
behaviour. -/
def sampleRetryCluster : Cluster :=
  { sb := { SearchTimeout := 75000000000, SearchRetryBehavior := some sampleRetryBehavior } }

/-- A classifier that retries every error. -/
def sampleRetryAll : GoError → Bool := fun _ => true

/-- A provider that answers every request 0.1 ms later with status 400 and the
tokens of the request body as its body. -/
def sampleEchoProvider : httpProvider :=
  { DoHttpRequest := fun req now =>
      (.ok { StatusCode := 400, Endpoint := "http://10.0.0.1:8094",
             Body := sampleBody req.Body "bad request" none }, now + 100000) }

/-- A context without deadline (`context.Background()`). -/
def sampleBackground : Context := { deadline := none, done := none }

/-- Search options `{"size":10}`, without a "ctl" block. -/
def sampleDefaultOptions : SearchOptions :=
  { Context := none, Serializer := none, toOptionsData := .ok [("size", [.num (.int 10)])] }

/-- Search options `{"ctl":{"timeout":75000},"size":10}`: a "ctl" timeout of
75 seconds. -/
def sampleSecondsOptions : SearchOptions :=
  { Context := none, Serializer := none,
    toOptionsData :=
      .ok [("ctl", [.delim .lbrace, .str "timeout", .num (.int 75000), .delim .rbrace]),
           ("size", [.num (.int 10)])] }

/-- The sample call of `searchQuery` (created at the instant 0, clock read
0.5 ms later, one attempt allowed) against the given provider. -/
def sampleSearch (provider : httpProvider) : Option SearchOutcome :=
  searchQuery sampleEnv sampleCluster sampleNotRetryable 0 500000 1 sampleCallerCtx "idx"
    sampleQuery sampleOptions provider

/-- The members of the row `{"id":"a","score":2}`. -/
def sampleRowMembers : List (String × Raw) :=
  [("id", [.str "a"]), ("score", [.num (.int 2)])]

/-- The members of the row `{"rank":[1,2],"id":"a","sort":null,"score":2}`: the
sample row with two attributes `Next` does not know. -/
def sampleRowMembersExtra : List (String × Raw) :=
  [("rank", [.delim .lbrack, .num (.int 1), .num (.int 2), .delim .rbrack]),
   ("id", [.str "a"]), ("sort", [.null]), ("score", [.num (.int 2)])]

/-- The members of the row `{"id":"a","score":2,"x":1e400}`: the sample row
with an attribute `Next` does not know whose value is a number outside the
range of a `float64`. -/
def sampleRowMembersHuge : List (String × Raw) :=
  [("id", [.str "a"]), ("score", [.num (.int 2)]), ("x", [.num (.frac "1e400")])]

/-- The tokens of the response `{"hits":[...]}` whose row array holds the given
rows. -/
def sampleHitsTokens (rows : List Raw) : List JsonToken :=
  [.delim .lbrace, .str "hits", .delim .lbrack] ++ rows.flatten ++
    [.delim .rbrack, .delim .rbrace]

/-- The tokens of `{"status":{"total":1,"errors":{"a":1e400}},"hits":[]}`: an
entry of the errors is a number outside the range of a `float64`. -/
def sampleStatusHugeErrorTokens : List JsonToken :=
  [.delim .lbrace, .str "status", .delim .lbrace, .str "total", .num (.int 1),
   .str "errors", .delim .lbrace, .str "a", .num (.frac "1e400"), .delim .rbrace,
   .delim .rbrace, .str "hits", .delim .lbrack, .delim .rbrack, .delim .rbrace]

/-- A caller's context whose deadline is 1 ms after the instant 0. -/
def sampleShortCtx : Context := { deadline := some Millisecond, done := none }

/-- A provider that fails every request sent before the instant 1 ms with a
transport error and answers every later one with status 200 and the sample
rows, 0.1 ms after the request. -/
def sampleFlakyProvider : httpProvider :=
  { DoHttpRequest := fun _ now =>
      if now < 1000000 then (.error (.streamError "connection reset"), now + 100000)
      else
        (.ok { StatusCode := 200, Endpoint := "http://10.0.0.1:8094",
               Body := sampleBody sampleTokens "" none }, now + 100000) }

/-- A provider that answers the expected request with status 400 and the body
text "received", and fails every other request with a transport error. -/
def sampleProbeProvider (expected : HttpRequest) : httpProvider :=
  { DoHttpRequest := fun req now =>
      if req = expected then
        (.ok { StatusCode := 400, Endpoint := "http://10.0.0.1:8094",
               Body := sampleBody [] "received" none }, now + 100000)
      else (.error (.streamError "unexpected request"), now) }

/-- The tokens of the truncated response `{"hits":[{"id":`: the stream ends
inside the first row. -/
def sampleTruncatedRowTokens : List JsonToken :=
  [.delim .lbrace, .str "hits", .delim .lbrack, .delim .lbrace, .str "id"]

/-- The status attribute `"status":{"total":1,"failed":0,"successful":1}`. -/
def sampleStatusAttr : String × Raw :=
  ("status", objectTokens [("total", [.num (.int 1)]), ("failed", [.num (.int 0)]),
    ("successful", [.num (.int 1)])])

/-- The hits `{"id":"a","score":2}` and `{"id":"b"}`. -/
def sampleHits : List (List (String × Raw)) :=
  [sampleRowMembers, [("id", [.str "b"])]]

/-- A provider that answers every request one instant later with status 200 and
the response
`{"status":{"total":1,"failed":0,"successful":1},"hits":[{"id":"a","score":2},{"id":"b"}],"took":7}`. -/
def sampleHitsProvider : httpProvider :=
  sampleProvider 200 (sampleBody
    (responseTokens [sampleStatusAttr] sampleHits [.str "took", .num (.int 7), .delim .rbrace])
    "" none)

/-- The tokens of `{"status":{"errors":{"pindex":"boom"}},"hits":[{"id":"a"}]}`:
a status with errors placed before a row array with one row. -/
def sampleStatusThenRowsTokens : List JsonToken :=
  [.delim .lbrace, .str "status", .delim .lbrace, .str "errors", .delim .lbrace,
   .str "pindex", .str "boom", .delim .rbrace, .delim .rbrace,
   .str "hits", .delim .lbrack, .delim .lbrace, .str "id", .str "a", .delim .rbrace,
   .delim .rbrack, .delim .rbrace]

/-! ## Frame lemmas -/

theorem SearchResult.SameFrame.refl (r : SearchResult) : r.SameFrame r :=
  ⟨rfl, rfl, rfl, rfl, rfl⟩
theorem SearchResult.SameFrame.trans {a b c : SearchResult} (h1 : a.SameFrame b)
    (h2 : b.SameFrame c) : a.SameFrame c := by
  obtain ⟨h11, h12, h13, h14, h15⟩ := h1
  obtain ⟨h21, h22, h23, h24, h25⟩ := h2
  exact ⟨h21.trans h11, h22.trans h12, h23.trans h13, h24.trans h14, h25.trans h15⟩
theorem readAttribute_sameFrame (env : Env) (r : SearchResult) (dec : List JsonToken)
    (t : JsonToken) : r.SameFrame (r.readAttribute env dec t).1 := by
  unfold SearchResult.readAttribute SearchResult.SameFrame
  repeat' split
  all_goals simp
theorem readAttributesLoop_fields {σ : Type}
    (cb : σ → List JsonToken → JsonToken → σ × List JsonToken × Bool × Option GoError)
    (fuel : Nat) (s : streamingResult) (st : σ) :
    (streamingResult.readAttributesLoop cb fuel s st).1.closed = s.closed ∧
    (streamingResult.readAttributesLoop cb fuel s st).1.stream = s.stream ∧
    (streamingResult.readAttributesLoop cb fuel s st).1.ended = s.ended := by
  induction fuel generalizing s st with
  | zero => simp [streamingResult.readAttributesLoop]
  | succ n ih =>
    unfold streamingResult.readAttributesLoop
    split
    · simp
    · split
      · simp
      · split
        · exact ih _ _
        · split
          · simp
          · simp
          · exact ih _ _
theorem readAttributesLoop_inv {σ : Type}
    (cb : σ → List JsonToken → JsonToken → σ × List JsonToken × Bool × Option GoError)
    (I : σ → Prop) (hcb : ∀ st dec t, I st → I (cb st dec t).1)
    (fuel : Nat) (s : streamingResult) (st : σ) (h : I st) :
    I (streamingResult.readAttributesLoop cb fuel s st).2.1 := by
  induction fuel generalizing s st with
  | zero => simpa [streamingResult.readAttributesLoop] using h
  | succ n ih =>
    unfold streamingResult.readAttributesLoop
    split
    · exact h
    · split
      · exact h
      · split
        · exact ih _ _ h
        · rename_i t dec _ _
          have hc := hcb st dec t h
          split
          · rename_i heq; rw [heq] at hc; exact hc
          · rename_i heq; rw [heq] at hc; exact hc
          · rename_i heq; rw [heq] at hc; exact ih _ _ hc
theorem readAttributes_fields {σ : Type}
    (cb : σ → List JsonToken → JsonToken → σ × List JsonToken × Bool × Option GoError)
    (s : streamingResult) (st : σ) :
    (s.readAttributes cb st).1.closed = s.closed ∧ (s.readAttributes cb st).1.stream = s.stream ∧
      (s.readAttributes cb st).1.ended = s.ended :=
  readAttributesLoop_fields cb _ s st

theorem readAttributes_inv {σ : Type}
    (cb : σ → List JsonToken → JsonToken → σ × List JsonToken × Bool × Option GoError)
    (I : σ → Prop) (hcb : ∀ st dec t, I st → I (cb st dec t).1)
    (s : streamingResult) (st : σ) (h : I st) : I (s.readAttributes cb st).2.1 :=
  readAttributesLoop_inv cb I hcb _ s st h

theorem streamNextBytes_fields {σ : Type}
    (cb : σ → List JsonToken → JsonToken → σ × List JsonToken × Bool × Option GoError)
    (s : streamingResult) (st : σ) :
    (s.NextBytes cb st).1.closed = s.closed ∧ (s.NextBytes cb st).1.stream = s.stream := by
  unfold streamingResult.NextBytes
  split
  · simp
  · split
    · split <;> simp
    · split
      · simp
      · split
        · split
          rename_i dec _ _ _ s1 st1 err heq
          have h := readAttributes_fields cb { s with decoder := dec } st
          rw [heq] at h
          exact ⟨h.1, h.2.1⟩
        · simp

theorem streamNextBytes_inv {σ : Type}
    (cb : σ → List JsonToken → JsonToken → σ × List JsonToken × Bool × Option GoError)
    (I : σ → Prop) (hcb : ∀ st dec t, I st → I (cb st dec t).1)
    (s : streamingResult) (st : σ) (h : I st) : I (s.NextBytes cb st).2.1 := by
  unfold streamingResult.NextBytes
  split
  · exact h
  · split
    · split <;> exact h
    · split
      · exact h
      · split
        · split
          rename_i dec _ _ _ s1 st1 err heq
          have h2 := readAttributes_inv cb I hcb { s with decoder := dec } st h
          rw [heq] at h2
          exact h2
        · exact h

/-- The call `NextBytes` of the result never panics on a result with a streaming result,
and leaves the closed flag, the stream, the cancel function and the context as
they were. -/
theorem SearchResult.NextBytes_frame (env : Env) (r : SearchResult) (sr : streamingResult)
    (h : r.streamResult = some sr) :
    ∃ r1 raw sr1, r.NextBytes env = some (r1, raw) ∧ r1.streamResult = some sr1 ∧
      sr1.closed = sr.closed ∧ sr1.stream = sr.stream ∧ r1.cancel = r.cancel ∧ r1.ctx = r.ctx ∧
      r1.httpStatus = r.httpStatus ∧ r1.serializer = r.serializer := by
  unfold SearchResult.NextBytes
  rw [h]
  simp only
  split
  · exact ⟨r, none, sr, rfl, h, rfl, rfl, rfl, rfl, rfl, rfl⟩
  · have hf := streamNextBytes_fields (SearchResult.readAttribute env) sr r
    have hi := streamNextBytes_inv (SearchResult.readAttribute env) (fun x => r.SameFrame x)
      (fun st dec t hst => hst.trans (readAttribute_sameFrame env st dec t)) sr r
      (SearchResult.SameFrame.refl r)
    split
    · rename_i heq
      rw [heq] at hf hi
      exact ⟨_, none, _, rfl, rfl, hf.1, hf.2, hi.2.1, hi.2.2.1, hi.2.2.2.1, hi.2.2.2.2⟩
    · rename_i heq
      rw [heq] at hf hi
      exact ⟨_, _, _, rfl, rfl, hf.1, hf.2, hi.2.1, hi.2.2.1, hi.2.2.2.1, hi.2.2.2.2⟩

theorem SearchResult.NextSwitch_ok_sameFrame {env : Env} {r : SearchResult} {t : JsonToken}
    {dec : List JsonToken} {row : SearchResultRow} {r1 : SearchResult} {dec1 : List JsonToken}
    {row1 : SearchResultRow} (h : SearchResult.NextSwitch env r t dec row = .ok (r1, dec1, row1)) :
    r.SameFrame r1 := by
  unfold SearchResult.NextSwitch at h
  split_ifs at h <;> split at h <;> simp at h <;>
    (obtain ⟨h1, -, -⟩ := h; subst h1; exact ⟨rfl, rfl, rfl, rfl, rfl⟩)

theorem SearchResult.NextSwitch_error_sameFrame {env : Env} {r : SearchResult} {t : JsonToken}
    {dec : List JsonToken} {row : SearchResultRow} {r1 : SearchResult}
    {row1 : SearchResultRow} (h : SearchResult.NextSwitch env r t dec row = .error (r1, row1)) :
    r.SameFrame r1 := by
  unfold SearchResult.NextSwitch at h
  split_ifs at h <;> split at h <;> simp at h <;>
    (obtain ⟨h1, -⟩ := h; subst h1; exact ⟨rfl, rfl, rfl, rfl, rfl⟩)

theorem SearchResult.NextLoop_sameFrame (env : Env) (fuel : Nat) (r : SearchResult)
    (dec : List JsonToken) (row : SearchResultRow) :
    r.SameFrame (SearchResult.NextLoop env fuel r dec row).1 := by
  induction fuel generalizing r dec row with
  | zero => exact SearchResult.SameFrame.refl r
  | succ n ih =>
    unfold SearchResult.NextLoop
    split
    · exact SearchResult.SameFrame.refl r
    · split
      · exact ⟨rfl, rfl, rfl, rfl, rfl⟩
      · split
        · exact ih _ _ _
        · split
          · rename_i heq; exact SearchResult.NextSwitch_error_sameFrame heq
          · rename_i heq; exact (SearchResult.NextSwitch_ok_sameFrame heq).trans (ih _ _ _)

/-- The call `Next` never panics on a result with a streaming result, and leaves the
closed flag, the stream, the cancel function and the context as they were. -/
theorem SearchResult.Next_frame (env : Env) (r : SearchResult) (row : SearchResultRow)
    (sr : streamingResult) (h : r.streamResult = some sr) :
    ∃ r1 row1 b sr1, r.Next env row = some (r1, row1, b) ∧ r1.streamResult = some sr1 ∧
      sr1.closed = sr.closed ∧ sr1.stream = sr.stream ∧ r1.cancel = r.cancel ∧ r1.ctx = r.ctx ∧
      r1.httpStatus = r.httpStatus ∧ r1.serializer = r.serializer := by
  unfold SearchResult.Next
  split
  · exact ⟨r, row, false, sr, rfl, h, rfl, rfl, rfl, rfl, rfl, rfl⟩
  · obtain ⟨r1, raw, sr1, h1, h2, h3, h4, h5, h6, h7, h8⟩ := SearchResult.NextBytes_frame env r sr h
    rw [h1]
    cases raw with
    | none => exact ⟨r1, row, false, sr1, rfl, h2, h3, h4, h5, h6, h7, h8⟩
    | some raw =>
      simp only
      have hl := SearchResult.NextLoop_sameFrame env (raw.length + 1) r1 raw row
      obtain ⟨l1, l2, l3, l4, l5⟩ := hl
      refine ⟨_, _, _, sr1, rfl, l1.trans h2, h3, h4, l2.trans h5, l3.trans h6, l4.trans h7, l5.trans h8⟩

theorem consTok_append (t : JsonToken) (o : Option (Raw × List JsonToken)) (rest : List JsonToken) :
    (consTok t o).map (fun p => (p.1, p.2 ++ rest)) =
      consTok t (o.map (fun p => (p.1, p.2 ++ rest))) := by
  cases o with
  | none => rfl
  | some p => rfl

/-- Scanning an open container does not look past its closing delimiter. -/
theorem scanOpen_append (rest : List JsonToken) (ts : List JsonToken) (st : List Frame) :
    ∀ c r, scanOpen st ts = some (c, r) → scanOpen st (ts ++ rest) = some (c, r ++ rest) := by
  induction ts generalizing st with
  | nil => intro c r h; cases st <;> simp [scanOpen] at h
  | cons t ts ih =>
    have step : ∀ (st1 : List Frame) (c : Raw) (r : List JsonToken),
        consTok t (scanOpen st1 ts) = some (c, r) →
        consTok t (scanOpen st1 (ts ++ rest)) = some (c, r ++ rest) := by
      intro st1 c r h
      cases hs : scanOpen st1 ts with
      | none => rw [hs] at h; simp [consTok] at h
      | some p =>
        obtain ⟨c0, r0⟩ := p
        rw [hs] at h
        simp only [consTok, Option.some.injEq, Prod.mk.injEq] at h
        obtain ⟨h1, h2⟩ := h
        subst h1; subst h2
        rw [ih st1 c0 r0 hs]
        rfl
    intro c r h
    cases st with
    | nil => simp [scanOpen] at h
    | cons f st =>
      cases f with
      | arr =>
        simp only [List.cons_append, scanOpen] at h ⊢
        split at h
        · split_ifs at h with hst
          · simp only [Option.some.injEq, Prod.mk.injEq] at h
            obtain ⟨h1, h2⟩ := h
            subst h1; subst h2
            simp [hst]
          · simp only [hst, if_false]
            exact step _ c r h
        · exact step _ c r h
        · exact step _ c r h
        · simp at h
        · exact step _ c r h
      | objKey =>
        simp only [List.cons_append, scanOpen] at h ⊢
        split at h
        · exact step _ c r h
        · split_ifs at h with hst
          · simp only [Option.some.injEq, Prod.mk.injEq] at h
            obtain ⟨h1, h2⟩ := h
            subst h1; subst h2
            simp [hst]
          · simp only [hst, if_false]
            exact step _ c r h
        · simp at h
      | objVal =>
        simp only [List.cons_append, scanOpen] at h ⊢
        split at h
        · exact step _ c r h
        · exact step _ c r h
        · simp at h
        · exact step _ c r h

/-- Splitting one value off the input does not look past the value. -/
theorem scanValue_append (rest : List JsonToken) (ts : List JsonToken) (c : Raw)
    (r : List JsonToken) (h : scanValue ts = some (c, r)) :
    scanValue (ts ++ rest) = some (c, r ++ rest) := by
  cases ts with
  | nil => simp [scanValue] at h
  | cons t ts =>
    have step : ∀ (st1 : List Frame),
        consTok t (scanOpen st1 ts) = some (c, r) →
        consTok t (scanOpen st1 (ts ++ rest)) = some (c, r ++ rest) := by
      intro st1 h
      cases hs : scanOpen st1 ts with
      | none => rw [hs] at h; simp [consTok] at h
      | some p =>
        obtain ⟨c0, r0⟩ := p
        rw [hs] at h
        simp only [consTok, Option.some.injEq, Prod.mk.injEq] at h
        obtain ⟨h1, h2⟩ := h
        subst h1; subst h2
        rw [scanOpen_append rest ts st1 c0 r0 hs]
        rfl
    simp only [List.cons_append, scanValue] at h ⊢
    split at h
    · exact step _ h
    · exact step _ h
    · simp at h
    · rename_i hn1 hn2 hn3
      simp only [Option.some.injEq, Prod.mk.injEq] at h
      obtain ⟨h1, h2⟩ := h
      subst h1; subst h2
      rfl

/-- A value in front of more input is split off whole. -/
theorem IsValue.scan {raw : Raw} (h : IsValue raw) (rest : List JsonToken) :
    scanValue (raw ++ rest) = some (raw, rest) := by
  have := scanValue_append rest raw raw [] h
  simpa using this

/-- A value is not empty and does not start with a closing delimiter. -/
theorem IsValue.more {raw : Raw} (h : IsValue raw) (rest : List JsonToken) :
    Decoder.More (raw ++ rest) = true ∧ 1 ≤ raw.length := by
  unfold IsValue at h
  cases raw with
  | nil => simp [scanValue] at h
  | cons t ts =>
    refine ⟨?_, by simp⟩
    simp only [scanValue] at h
    split at h
    · rfl
    · rfl
    · rename_i d hn1 hn2
      simp at h
    · rename_i hn1 hn2 hn3
      simp only [List.cons_append, Decoder.More]
      split
      · rename_i heq; simp at heq
      · rename_i heq; simp only [List.cons.injEq] at heq; exact absurd heq.1 (hn3 _)
      · rename_i heq; simp only [List.cons.injEq] at heq; exact absurd heq.1 (hn3 _)
      · rfl

/-- A sequence of `Next` and `NextBytes` calls never panics on a result with a
streaming result and leaves its closed flag as it was. -/
theorem SearchResult.run_reads_closed (env : Env) (ops : List Op)
    (hops : ∀ op ∈ ops, op.isRead = true) (r : SearchResult) (sr : streamingResult)
    (h : r.streamResult = some sr) :
    ∃ r1 sr1, r.run env ops = some r1 ∧ r1.streamResult = some sr1 ∧ sr1.closed = sr.closed := by
  induction ops generalizing r sr with
  | nil => exact ⟨r, sr, rfl, h, rfl⟩
  | cons op ops ih =>
    have hop := hops op (List.mem_cons_self _ _)
    have hrest : ∀ o ∈ ops, o.isRead = true := fun o ho => hops o (List.mem_cons_of_mem _ ho)
    cases op with
    | Next rowPtr =>
      obtain ⟨r1, row1, b, sr1, h1, h2, h3, -⟩ := SearchResult.Next_frame env r rowPtr sr h
      obtain ⟨r2, sr2, h4, h5, h6⟩ := ih hrest r1 sr1 h2
      exact ⟨r2, sr2, by simp [SearchResult.run, SearchResult.step, h1, h4], h5, h6.trans h3⟩
    | NextBytes =>
      obtain ⟨r1, raw, sr1, h1, h2, h3, -⟩ := SearchResult.NextBytes_frame env r sr h
      obtain ⟨r2, sr2, h4, h5, h6⟩ := ih hrest r1 sr1 h2
      exact ⟨r2, sr2, by simp [SearchResult.run, SearchResult.step, h1, h4], h5, h6.trans h3⟩
    | One _ _ => simp [Op.isRead] at hop
    | Metadata => simp [Op.isRead] at hop
    | Facets => simp [Op.isRead] at hop
    | Close _ => simp [Op.isRead] at hop

/-- C2: on a result with a streaming result, `Metadata` and `Facets` return nil
with the clientError "result must be closed before accessing meta-data" exactly
when the stream is not closed; when it is closed they return the metadata and
the facet map with a nil error; and after any sequence of `Next` and
`NextBytes` calls on an open result (exhausting the rows included) both still
fail with that clientError. -/
theorem metadata_facets_gate (env : Env) (r : SearchResult) (sr : streamingResult)
    (h : r.streamResult = some sr) :
    (r.Metadata = some (none, some (.clientError "result must be closed before accessing meta-data"))
        ↔ sr.closed = false) ∧
    (r.Facets = some (none, some (.clientError "result must be closed before accessing meta-data"))
        ↔ sr.closed = false) ∧
    (sr.closed = true →
        r.Metadata = some (some r.metadata, none) ∧ r.Facets = some (r.facets, none)) ∧
    (sr.closed = false → ∀ ops : List Op, (∀ op ∈ ops, op.isRead = true) →
        ∃ r1, r.run env ops = some r1 ∧
          r1.Metadata =
            some (none, some (.clientError "result must be closed before accessing meta-data")) ∧
          r1.Facets =
            some (none, some (.clientError "result must be closed before accessing meta-data"))) := by
  refine ⟨?_, ?_, ?_, ?_⟩
  · cases hc : sr.closed <;> simp [SearchResult.Metadata, h, streamingResult.Closed, hc]
  · cases hc : sr.closed <;> simp [SearchResult.Facets, h, streamingResult.Closed, hc]
  · intro hc
    simp [SearchResult.Metadata, SearchResult.Facets, h, streamingResult.Closed, hc]
  · intro hc ops hops
    obtain ⟨r1, sr1, h1, h2, h3⟩ := SearchResult.run_reads_closed env ops hops r sr h
    refine ⟨r1, h1, ?_, ?_⟩
    · simp [SearchResult.Metadata, h2, streamingResult.Closed, h3, hc]
    · simp [SearchResult.Facets, h2, streamingResult.Closed, h3, hc]

/-- The call `Close` on a result whose stream is already closed returns the recorded
error and changes nothing. -/
theorem SearchResult.Close_closed (now : Nat) (r : SearchResult) (sr : streamingResult)
    (h : r.streamResult = some sr) (hc : sr.closed = true) : r.Close now = some (r, r.err) := by
  simp [SearchResult.Close, h, streamingResult.Closed, hc]

/-- The call `Close` on a result whose stream is open: the stream is closed once, the
cancel function, if any, is invoked once, and the error is chosen among the
timeout, the recorded error and the stream's close error. -/
theorem SearchResult.Close_open (now : Nat) (r : SearchResult) (sr : streamingResult)
    (ctx : Context) (h : r.streamResult = some sr) (hc : sr.closed = false)
    (hctx : r.ctx = some ctx) :
    ∃ r1, r.Close now = some (r1,
        if ctx.Err now = some .DeadlineExceeded then some .timeoutError
        else if r.err ≠ none then r.err else sr.stream.closeErr) ∧
      r1.streamResult = some { sr with stream := { sr.stream with closeCalls := sr.stream.closeCalls + 1 },
                                       closed := true } ∧
      r1.cancel = r.cancel.map CancelFunc.invoke ∧ r1.err = r.err ∧ r1.metadata = r.metadata ∧
      r1.facets = r.facets := by
  unfold SearchResult.Close
  rw [h]
  simp only [streamingResult.Closed, hc, streamingResult.Close, Body.Close, hctx]
  cases hcan : r.cancel <;> simp <;> split_ifs <;> simp_all

/-- The purge loop of `One` never panics on a result with a streaming result
and leaves the closed flag, the stream, the cancel function and the context as
they were. -/
theorem SearchResult.purge_frame (env : Env) (fuel : Nat) (r : SearchResult)
    (sr : streamingResult) (h : r.streamResult = some sr) :
    ∃ r1 sr1, SearchResult.purge env fuel r = some r1 ∧ r1.streamResult = some sr1 ∧
      sr1.closed = sr.closed ∧ sr1.stream = sr.stream ∧ r1.cancel = r.cancel ∧ r1.ctx = r.ctx := by
  induction fuel generalizing r sr with
  | zero => exact ⟨r, sr, rfl, h, rfl, rfl, rfl, rfl⟩
  | succ n ih =>
    obtain ⟨r1, raw, sr1, h1, h2, h3, h4, h5, h6, -⟩ := SearchResult.NextBytes_frame env r sr h
    unfold SearchResult.purge
    rw [h1]
    cases raw with
    | none => exact ⟨r1, sr1, rfl, h2, h3, h4, h5, h6⟩
    | some raw =>
      obtain ⟨r2, sr2, k1, k2, k3, k4, k5, k6⟩ := ih r1 sr1 h2
      exact ⟨r2, sr2, k1, k2, k3.trans h3, k4.trans h4, k5.trans h5, k6.trans h6⟩

/-- The call `One` on a result with a streaming result, and with a context when the
stream is open: it never panics, leaves the stream closed, and has invoked the
cancel function once if the stream was open and not at all if it was closed. -/
theorem SearchResult.One_frame (env : Env) (now : Nat) (r : SearchResult) (row : SearchResultRow)
    (sr : streamingResult) (h : r.streamResult = some sr)
    (hctx : sr.closed = false → r.ctx ≠ none) :
    ∃ r1 row1 e sr1, r.One env now row = some (r1, row1, e) ∧ r1.streamResult = some sr1 ∧
      sr1.closed = true ∧
      r1.cancel = (if sr.closed = true then r.cancel else r.cancel.map CancelFunc.invoke) ∧
      sr1.stream.closeCalls = sr.stream.closeCalls + (if sr.closed = true then 0 else 1) := by
  obtain ⟨r1, row1, b, sr1, h1, h2, h3, h4, h5, h6, -⟩ := SearchResult.Next_frame env r row sr h
  -- the state in which `Close` is reached
  have key : ∀ (ra : SearchResult) (sra : streamingResult), ra.streamResult = some sra →
      sra.closed = sr.closed → sra.stream = sr.stream → ra.cancel = r.cancel → ra.ctx = r.ctx →
      ∃ rb e srb, ra.Close now = some (rb, e) ∧ rb.streamResult = some srb ∧ srb.closed = true ∧
        rb.cancel = (if sr.closed = true then r.cancel else r.cancel.map CancelFunc.invoke) ∧
        srb.stream.closeCalls = sr.stream.closeCalls + (if sr.closed = true then 0 else 1) := by
    intro ra sra ha hca hsa hcan hcx
    cases hc : sr.closed with
    | true =>
      rw [hc] at hca
      exact ⟨ra, ra.err, sra, SearchResult.Close_closed now ra sra ha hca, ha, hca,
        by simpa using hcan, by simp [hsa]⟩
    | false =>
      rw [hc] at hca
      have hne := hctx hc
      cases hcx2 : r.ctx with
      | none => exact absurd hcx2 hne
      | some ctx =>
        obtain ⟨rb, k1, k2, k3, -⟩ := SearchResult.Close_open now ra sra ctx ha hca (hcx.trans hcx2)
        exact ⟨rb, _, _, k1, k2, rfl, by simpa [hcan] using k3, by simp [hsa]⟩
  unfold SearchResult.One
  rw [h1]
  cases b with
  | false =>
    obtain ⟨rb, e, srb, k1, k2, k3, k4, k5⟩ := key r1 sr1 h2 h3 h4 h5 h6
    simp only [k1]
    cases e with
    | none => exact ⟨rb, row1, _, srb, rfl, k2, k3, k4, k5⟩
    | some e => exact ⟨rb, row1, _, srb, rfl, k2, k3, k4, k5⟩
  | true =>
    obtain ⟨r2, sr2, p1, p2, p3, p4, p5, p6⟩ :=
      SearchResult.purge_frame env (r1.pending + 1) r1 sr1 h2
    obtain ⟨rb, e, srb, k1, k2, k3, k4, k5⟩ :=
      key r2 sr2 p2 (p3.trans h3) (p4.trans h4) (p5.trans h5) (p6.trans h6)
    simp only [p1, k1]
    cases e with
    | none => exact ⟨rb, row1, _, srb, rfl, k2, k3, k4, k5⟩
    | some e => exact ⟨rb, row1, _, srb, rfl, k2, k3, k4, k5⟩

/-- One call on a result whose stream is closed: no panic, the stream stays
closed and released as it was, the cancel function is not invoked. -/
theorem SearchResult.step_closed (env : Env) (op : Op) (r : SearchResult) (sr : streamingResult)
    (h : r.streamResult = some sr) (hc : sr.closed = true) :
    ∃ r1 sr1, r.step env op = some r1 ∧ r1.streamResult = some sr1 ∧ sr1.closed = true ∧
      r1.cancel = r.cancel ∧ sr1.stream.closeCalls = sr.stream.closeCalls := by
  cases op with
  | Next rowPtr =>
    obtain ⟨r1, row1, b, sr1, h1, h2, h3, h4, h5, -⟩ := SearchResult.Next_frame env r rowPtr sr h
    exact ⟨r1, sr1, by simp [SearchResult.step, h1], h2, h3.trans hc, h5, by rw [h4]⟩
  | NextBytes =>
    obtain ⟨r1, raw, sr1, h1, h2, h3, h4, h5, -⟩ := SearchResult.NextBytes_frame env r sr h
    exact ⟨r1, sr1, by simp [SearchResult.step, h1], h2, h3.trans hc, h5, by rw [h4]⟩
  | One now rowPtr =>
    obtain ⟨r1, row1, e, sr1, h1, h2, h3, h4, h5⟩ :=
      SearchResult.One_frame env now r rowPtr sr h (by simp [hc])
    exact ⟨r1, sr1, by simp [SearchResult.step, h1], h2, h3, by simpa [hc] using h4,
      by simpa [hc] using h5⟩
  | Metadata =>
    exact ⟨r, sr, by simp [SearchResult.step, SearchResult.Metadata, h, streamingResult.Closed, hc], h, hc, rfl, rfl⟩
  | Facets =>
    exact ⟨r, sr, by simp [SearchResult.step, SearchResult.Facets, h, streamingResult.Closed, hc], h, hc, rfl, rfl⟩
  | Close now =>
    exact ⟨r, sr, by simp [SearchResult.step, SearchResult.Close_closed now r sr h hc], h, hc,
      rfl, rfl⟩

/-- A sequence of calls on a result whose stream is closed: no panic, the
stream stays closed and released as it was, the cancel function is not
invoked. -/
theorem SearchResult.run_closed (env : Env) (ops : List Op) (r : SearchResult)
    (sr : streamingResult) (h : r.streamResult = some sr) (hc : sr.closed = true) :
    ∃ r1 sr1, r.run env ops = some r1 ∧ r1.streamResult = some sr1 ∧ sr1.closed = true ∧
      r1.cancel = r.cancel ∧ sr1.stream.closeCalls = sr.stream.closeCalls := by
  induction ops generalizing r sr with
  | nil => exact ⟨r, sr, rfl, h, hc, rfl, rfl⟩
  | cons op ops ih =>
    obtain ⟨r1, sr1, h1, h2, h3, h4, h5⟩ := SearchResult.step_closed env op r sr h hc
    obtain ⟨r2, sr2, k1, k2, k3, k4, k5⟩ := ih r1 sr1 h2 h3
    exact ⟨r2, sr2, by simp [SearchResult.run, h1, k1], k2, k3, k4.trans h4, k5.trans h5⟩

/-- One call other than `Close` and `One` on a result whose stream is open: no
panic, the stream stays open, and the stream, the cancel function and the
context are as they were. -/
theorem SearchResult.step_open (env : Env) (op : Op) (hop : op.isClose = false)
    (hone : op.isOne = false) (r : SearchResult) (sr : streamingResult)
    (h : r.streamResult = some sr) (hc : sr.closed = false) :
    ∃ r1 sr1, r.step env op = some r1 ∧ r1.streamResult = some sr1 ∧ sr1.closed = false ∧
      r1.cancel = r.cancel ∧ r1.ctx = r.ctx ∧ sr1.stream = sr.stream := by
  cases op with
  | Next rowPtr =>
    obtain ⟨r1, row1, b, sr1, h1, h2, h3, h4, h5, h6, -⟩ := SearchResult.Next_frame env r rowPtr sr h
    exact ⟨r1, sr1, by simp [SearchResult.step, h1], h2, h3.trans hc, h5, h6, h4⟩
  | NextBytes =>
    obtain ⟨r1, raw, sr1, h1, h2, h3, h4, h5, h6, -⟩ := SearchResult.NextBytes_frame env r sr h
    exact ⟨r1, sr1, by simp [SearchResult.step, h1], h2, h3.trans hc, h5, h6, h4⟩
  | One now rowPtr => simp [Op.isOne] at hone
  | Metadata =>
    exact ⟨r, sr, by simp [SearchResult.step, SearchResult.Metadata, h, streamingResult.Closed, hc], h, hc, rfl, rfl, rfl⟩
  | Facets =>
    exact ⟨r, sr, by simp [SearchResult.step, SearchResult.Facets, h, streamingResult.Closed, hc], h, hc, rfl, rfl, rfl⟩
  | Close now => simp [Op.isClose] at hop

/-- C9: on a result that carries a cancel function and a context and whose
stream is open, over every sequence of `Next`, `NextBytes`, `Metadata`,
`Facets` and `Close` calls no call panics and the cancel function has been
invoked exactly once if the sequence contains a `Close` and not at all if it
contains none: the first `Close` invokes it, no later `Close` and no other call
does. -/
theorem cancel_invoked_once (env : Env) (ops : List Op) (hops : ∀ op ∈ ops, op.isOne = false)
    (r : SearchResult) (sr : streamingResult) (ctx : Context) (c : CancelFunc)
    (h : r.streamResult = some sr) (hc : sr.closed = false) (hctx : r.ctx = some ctx)
    (hcan : r.cancel = some c) :
    ∃ r1 c1, r.run env ops = some r1 ∧ r1.cancel = some c1 ∧
      c1.calls = c.calls + (if ops.any Op.isClose = true then 1 else 0) := by
  induction ops generalizing r sr ctx with
  | nil => exact ⟨r, c, rfl, hcan, by simp⟩
  | cons op ops ih =>
    have hone := hops op (List.mem_cons_self _ _)
    have hrest : ∀ o ∈ ops, o.isOne = false := fun o ho => hops o (List.mem_cons_of_mem _ ho)
    cases hcl : op.isClose with
    | false =>
      obtain ⟨r1, sr1, h1, h2, h3, h4, h5, -⟩ := SearchResult.step_open env op hcl hone r sr h hc
      obtain ⟨r2, c2, k1, k2, k3⟩ := ih hrest r1 sr1 ctx h2 h3 (h5.trans hctx) (h4.trans hcan)
      exact ⟨r2, c2, by simp [SearchResult.run, h1, k1], k2, by simpa [hcl] using k3⟩
    | true =>
      cases op with
      | Close now =>
        obtain ⟨r1, h1, h2, h3, -⟩ := SearchResult.Close_open now r sr ctx h hc hctx
        obtain ⟨r2, sr2, k1, -, -, k4, -⟩ := SearchResult.run_closed env ops r1 _ h2 rfl
        refine ⟨r2, c.invoke, by simp [SearchResult.run, SearchResult.step, h1, k1], ?_, ?_⟩
        · rw [k4, h3, hcan]; rfl
        · simp [CancelFunc.invoke, Op.isClose]
      | Next _ => simp [Op.isClose] at hcl
      | NextBytes => simp [Op.isClose] at hcl
      | One _ _ => simp [Op.isClose] at hcl
      | Metadata => simp [Op.isClose] at hcl
      | Facets => simp [Op.isClose] at hcl

/-- One call on a safe result does not panic and leaves a safe result. -/
theorem SearchResult.step_safe (env : Env) (op : Op) (r : SearchResult) (h : r.Safe) :
    ∃ r1, r.step env op = some r1 ∧ r1.Safe := by
  obtain ⟨sr, hs, hctx⟩ := h
  cases hc : sr.closed with
  | true =>
    obtain ⟨r1, sr1, h1, h2, h3, -⟩ := SearchResult.step_closed env op r sr hs hc
    exact ⟨r1, h1, sr1, h2, by simp [h3]⟩
  | false =>
    cases hone : op.isOne with
    | true =>
      cases op with
      | One now rowPtr =>
        obtain ⟨r1, row1, e, sr1, h1, h2, h3, -⟩ := SearchResult.One_frame env now r rowPtr sr hs hctx
        exact ⟨r1, by simp [SearchResult.step, h1], sr1, h2, by simp [h3]⟩
      | Next _ => simp [Op.isOne] at hone
      | NextBytes => simp [Op.isOne] at hone
      | Close _ => simp [Op.isOne] at hone
      | Metadata => simp [Op.isOne] at hone
      | Facets => simp [Op.isOne] at hone
    | false =>
      cases hcl : op.isClose with
      | false =>
        obtain ⟨r1, sr1, h1, h2, h3, h4, h5, -⟩ := SearchResult.step_open env op hcl hone r sr hs hc
        exact ⟨r1, h1, sr1, h2, fun _ => by rw [h5]; exact hctx hc⟩
      | true =>
        cases op with
        | Close now =>
          cases hcx : r.ctx with
          | none => exact absurd hcx (hctx hc)
          | some ctx =>
            obtain ⟨r1, h1, h2, -⟩ := SearchResult.Close_open now r sr ctx hs hc hcx
            exact ⟨r1, by simp [SearchResult.step, h1], _, h2, by simp⟩
        | Next _ => simp [Op.isClose] at hcl
        | NextBytes => simp [Op.isClose] at hcl
        | One _ _ => simp [Op.isClose] at hcl
        | Metadata => simp [Op.isClose] at hcl
        | Facets => simp [Op.isClose] at hcl

/-- A sequence of calls on a safe result does not panic and leaves a safe
result. -/
theorem SearchResult.run_safe (env : Env) (ops : List Op) (r : SearchResult) (h : r.Safe) :
    ∃ r1, r.run env ops = some r1 ∧ r1.Safe := by
  induction ops generalizing r with
  | nil => exact ⟨r, rfl, h⟩
  | cons op ops ih =>
    obtain ⟨r1, h1, h2⟩ := SearchResult.step_safe env op r h
    obtain ⟨r2, k1, k2⟩ := ih r1 h2
    exact ⟨r2, by simp [SearchResult.run, h1, k1], k2⟩

/-- C8: `Close` on a result whose stream is still open returns timeoutError when
the context reports DeadlineExceeded, whatever the stream's close returned and
whatever error was recorded; otherwise it returns the recorded error if there
is one, and otherwise the error of the stream's close. -/
theorem close_prefers_timeout (now : Nat) (r : SearchResult) (sr : streamingResult)
    (ctx : Context) (h : r.streamResult = some sr) (hc : sr.closed = false)
    (hctx : r.ctx = some ctx) :
    (ctx.Err now = some .DeadlineExceeded →
        ∃ r1, r.Close now = some (r1, some .timeoutError)) ∧
    (ctx.Err now ≠ some .DeadlineExceeded → ∀ e, r.err = some e →
        ∃ r1, r.Close now = some (r1, some e)) ∧
    (ctx.Err now ≠ some .DeadlineExceeded → r.err = none →
        ∃ r1, r.Close now = some (r1, sr.stream.closeErr)) := by
  obtain ⟨r1, h1, -⟩ := SearchResult.Close_open now r sr ctx h hc hctx
  refine ⟨fun hd => ⟨r1, ?_⟩, fun hd e he => ⟨r1, ?_⟩, fun hd he => ⟨r1, ?_⟩⟩
  · rw [h1, if_pos hd]
  · rw [h1, if_neg hd, he]; simp
  · rw [h1, if_neg hd, he]; simp

/-- C6 (amended): whenever a first `Close` returns, a second `Close` returns the
error recorded on the result and changes nothing; the first `Close` returned
that same error when the stream was already closed, and also when the stream
was open, the context did not report DeadlineExceeded and either an error was
recorded or the stream's close gave no error. -/
theorem close_twice_recorded (t1 t2 : Nat) (r r1 : SearchResult) (e1 : Option GoError)
    (h : r.Close t1 = some (r1, e1)) :
    r1.Close t2 = some (r1, r.err) ∧
    (∀ sr, r.streamResult = some sr → sr.closed = true → e1 = r.err) ∧
    (∀ sr ctx, r.streamResult = some sr → sr.closed = false → r.ctx = some ctx →
        ctx.Err t1 ≠ some .DeadlineExceeded → (r.err ≠ none ∨ sr.stream.closeErr = none) →
        e1 = r.err) := by
  cases hsr : r.streamResult with
  | none => simp [SearchResult.Close, hsr] at h
  | some sr =>
    cases hc : sr.closed with
    | true =>
      rw [SearchResult.Close_closed t1 r sr hsr hc] at h
      simp only [Option.some.injEq, Prod.mk.injEq] at h
      obtain ⟨h1, h2⟩ := h
      subst h1
      refine ⟨SearchResult.Close_closed t2 r sr hsr hc, fun _ _ _ => h2.symm, ?_⟩
      intro sr2 ctx hs2 hc2
      cases hs2
      rw [hc] at hc2
      cases hc2
    | false =>
      cases hctx : r.ctx with
      | none => simp [SearchResult.Close, hsr, streamingResult.Closed, hc, hctx, streamingResult.Close, Body.Close] at h
      | some ctx =>
        obtain ⟨r2, h1, h2, -, h4, -⟩ := SearchResult.Close_open t1 r sr ctx hsr hc hctx
        rw [h1] at h
        simp only [Option.some.injEq, Prod.mk.injEq] at h
        obtain ⟨ha, hb⟩ := h
        subst ha
        refine ⟨?_, ?_, ?_⟩
        · rw [SearchResult.Close_closed t2 r2 _ h2 rfl, h4]
        · intro sr2 hs2 hc2
          cases hs2
          rw [hc] at hc2
          cases hc2
        · intro sr2 ctx2 hs2 _ hctx2 hd hor
          cases hs2
          cases hctx2
          rw [← hb, if_neg hd]
          rcases hor with hne | hce
          · rw [if_pos hne]
          · split_ifs with hne
            · rfl
            · rw [hce]; exact (by simpa using hne : r.err = none).symm

/-- Shape of what the success path returns with a nil error. -/
theorem executeSearchQuery.success_ok (env : Env) (ctx : Context) (cancel : Option CancelFunc)
    (serializer : Option JSONSerializer) (resp : HttpResponse) (host : String) (now1 : Nat)
    (herr : (executeSearchQuery.success env ctx cancel serializer resp host now1).err = none) :
    ∃ res sr,
      (executeSearchQuery.success env ctx cancel serializer resp host now1).result = some res ∧
      res.streamResult = some sr ∧
      ((sr.hasRows = true ∧ sr.closed = false ∧ res.ctx = some ctx ∧ res.cancel = cancel) ∨
       (sr.hasRows = false ∧ sr.closed = true ∧ res.ctx = none ∧ res.cancel = none ∧
          res.err = none)) := by
  generalize hout : executeSearchQuery.success env ctx cancel serializer resp host now1 = out
    at herr ⊢
  unfold executeSearchQuery.success at hout
  simp only [newStreamingResults] at hout
  split at hout
  · subst hout; simp at herr
  · rename_i s1 q1 heq
    have hf := readAttributes_fields (SearchResult.readAttribute env)
      { decoder := resp.Body.tokens, stream := resp.Body, closed := false, hasRows := false,
        ended := false }
      { metadata := { status := { Total := 0, Failed := 0, Successful := 0 }, totalHits := 0,
                      took := 0, maxScore := .int 0, sourceAddr := host },
        err := none, facets := none, httpStatus := resp.StatusCode, streamResult := none,
        cancel := none, ctx := none, serializer := serializer }
    have hi := readAttributes_inv (SearchResult.readAttribute env)
      (fun x : SearchResult => x.cancel = none ∧ x.ctx = none)
      (fun st dec t hst => by
        obtain ⟨-, h2, h3, -⟩ := readAttribute_sameFrame env st dec t
        exact ⟨h2.trans hst.1, h3.trans hst.2⟩)
      { decoder := resp.Body.tokens, stream := resp.Body, closed := false, hasRows := false,
        ended := false }
      { metadata := { status := { Total := 0, Failed := 0, Successful := 0 }, totalHits := 0,
                      took := 0, maxScore := .int 0, sourceAddr := host },
        err := none, facets := none, httpStatus := resp.StatusCode, streamResult := none,
        cancel := none, ctx := none, serializer := serializer } ⟨rfl, rfl⟩
    rw [heq] at hf hi
    simp only at hf hi
    split_ifs at hout with hrows herr2
    · subst hout
      exact ⟨_, s1, rfl, rfl, Or.inl ⟨hrows, hf.1, rfl, rfl⟩⟩
    · subst hout
      simp only at herr
      exact absurd herr herr2
    · subst hout
      refine ⟨_, s1.Close.1, rfl, rfl, Or.inr ⟨?_, ?_, hi.2, hi.1, by simpa using herr2⟩⟩
      · simpa [streamingResult.Close, hf.1, Body.Close, streamingResult.HasRows] using hrows
      · simp [streamingResult.Close, hf.1, Body.Close]

/-- Shape of what `executeSearchQuery` returns with a nil error: a result whose
streaming result is set and which either has rows, is open and carries the
context and the cancel function, or has no rows, is closed, carries neither
and has no recorded error. -/
theorem executeSearchQuery_ok (env : Env) (now : Nat) (ctx : Context) (query : DelayedObject)
    (qIndexName : String) (provider : httpProvider) (cancel : Option CancelFunc)
    (serializer : Option JSONSerializer)
    (herr : (executeSearchQuery env now ctx query qIndexName provider cancel serializer).err = none) :
    ∃ res sr,
      (executeSearchQuery env now ctx query qIndexName provider cancel serializer).result = some res ∧
      res.streamResult = some sr ∧
      ((sr.hasRows = true ∧ sr.closed = false ∧ res.ctx = some ctx ∧ res.cancel = cancel) ∨
       (sr.hasRows = false ∧ sr.closed = true ∧ res.ctx = none ∧ res.cancel = none ∧
          res.err = none)) := by
  generalize hout : executeSearchQuery env now ctx query qIndexName provider cancel serializer = out
    at herr ⊢
  unfold executeSearchQuery at hout
  split at hout
  · subst hout; simp at herr
  · split at hout
    · split_ifs at hout <;> (subst hout; simp at herr)
    · rename_i resp now1 _
      unfold executeSearchQuery.respond at hout
      simp only [] at hout
      split_ifs at hout with h400 h401 h200
      · split at hout <;> (subst hout; simp at herr)
      · subst hout; simp at herr
      · subst hout; simp at herr
      · subst hout
        exact executeSearchQuery.success_ok env ctx cancel serializer resp _ now1 herr

/-- The sample result is what `executeSearchQuery` returns for the sample
response. -/
theorem sampleExec_result :
    (sampleExec (sampleBody sampleTokens "" none)).result = some sampleResult ∧
    (sampleExec (sampleBody sampleTokens "" none)).err = none := by
  decide

/-- Witness of C2 on the sample result, whose stream is open. -/
theorem metadata_facets_gate_witness :
    sampleResult.streamResult = some sampleStream ∧
    (sampleResult.Metadata =
        some (none, some (.clientError "result must be closed before accessing meta-data"))
      ↔ sampleStream.closed = false) :=
  ⟨rfl, (metadata_facets_gate sampleEnv sampleResult sampleStream rfl).1⟩

/-- Witness of C8 on the sample result, closed at the instant 200, after its
deadline. -/
theorem close_prefers_timeout_witness :
    sampleResult.streamResult = some sampleStream ∧ sampleStream.closed = false ∧
    sampleResult.ctx = some sampleCtx ∧
    (sampleCtx.Err 200 = some .DeadlineExceeded →
      ∃ r1, sampleResult.Close 200 = some (r1, some .timeoutError)) :=
  ⟨rfl, rfl, rfl, (close_prefers_timeout 200 sampleResult sampleStream sampleCtx rfl rfl rfl).1⟩

/-- C6 (counterexample): on the sample result, closed twice at the instant 200
(after the deadline), the first `Close` returns timeoutError and the second
returns nil. -/
theorem close_twice_differs :
    (sampleResult.Close 200).bind (fun p => (p.1.Close 200).map (fun q => (p.2, q.2))) =
      some (some .timeoutError, none) := by
  decide

/-- Witness of C6 (amended) on the sample result, closed at the instant 5. -/
theorem close_twice_recorded_witness :
    sampleResult.Close 5 = some (sampleClosed, none) ∧
    sampleClosed.Close 6 = some (sampleClosed, sampleResult.err) :=
  ⟨by decide, (close_twice_recorded 5 6 sampleResult sampleClosed none (by decide)).1⟩

/-- Witness of C9: read a row, close, read, close again on the sample result. -/
theorem cancel_invoked_once_witness :
    ∃ r1 c1, sampleResult.run sampleEnv
        [.Next SearchResultRow.zero, .Close 5, .NextBytes, .Metadata, .Close 6] = some r1 ∧
      r1.cancel = some c1 ∧ c1.calls = 0 + 1 :=
  cancel_invoked_once sampleEnv
    [.Next SearchResultRow.zero, .Close 5, .NextBytes, .Metadata, .Close 6] (by decide)
    sampleResult sampleStream sampleCtx { calls := 0 } rfl rfl rfl rfl

/-- C7: a result that `executeSearchQuery` returns with a nil error has its
streaming result set; over every sequence of `Next`, `NextBytes`, `One`,
`Metadata`, `Facets` and `Close` calls no call dereferences nil, the streaming
result stays set and the context is set whenever the stream is not closed; and
a result without rows is returned closed, with context and cancel function
unset, and `Close` on it returns the recorded error and changes nothing. -/
theorem close_never_nil_deref (env : Env) (now : Nat) (ctx : Context) (query : DelayedObject)
    (qIndexName : String) (provider : httpProvider) (cancel : Option CancelFunc)
    (serializer : Option JSONSerializer)
    (herr : (executeSearchQuery env now ctx query qIndexName provider cancel serializer).err = none) :
    ∃ res,
      (executeSearchQuery env now ctx query qIndexName provider cancel serializer).result = some res ∧
      (∀ ops : List Op, ∃ r1 sr1, res.run env ops = some r1 ∧ r1.streamResult = some sr1 ∧
          (sr1.closed = false → r1.ctx ≠ none)) ∧
      (∀ sr, res.streamResult = some sr → sr.hasRows = false →
          sr.closed = true ∧ res.ctx = none ∧ res.cancel = none ∧
          ∀ t, res.Close t = some (res, res.err)) := by
  obtain ⟨res, sr, h1, h2, h3⟩ :=
    executeSearchQuery_ok env now ctx query qIndexName provider cancel serializer herr
  refine ⟨res, h1, ?_, ?_⟩
  · intro ops
    have hsafe : res.Safe := by
      refine ⟨sr, h2, fun _ => ?_⟩
      rcases h3 with ⟨-, -, hc, -⟩ | ⟨-, hcl, -⟩
      · rw [hc]; simp
      · simp_all
    obtain ⟨r1, k1, sr1, k2, k3⟩ := SearchResult.run_safe env ops res hsafe
    exact ⟨r1, sr1, k1, k2, k3⟩
  · intro sr2 hs2 hrows
    rw [h2] at hs2
    cases hs2
    rcases h3 with ⟨hr, -⟩ | ⟨-, hcl, hc, hcan, -⟩
    · rw [hr] at hrows; cases hrows
    · exact ⟨hcl, hc, hcan, fun t => SearchResult.Close_closed t res sr h2 hcl⟩

/-- Witness of C7 on the sample response. -/
theorem close_never_nil_deref_witness :
    (sampleExec (sampleBody sampleTokens "" none)).err = none ∧
    ∃ res, (sampleExec (sampleBody sampleTokens "" none)).result = some res ∧
      ∀ ops : List Op, ∃ r1 sr1, res.run sampleEnv ops = some r1 ∧ r1.streamResult = some sr1 ∧
        (sr1.closed = false → r1.ctx ≠ none) :=
  ⟨by decide,
    (close_never_nil_deref sampleEnv 0 sampleCtx [] "idx"
      (sampleProvider 200 (sampleBody sampleTokens "" none)) (some { calls := 0 })
      (some .DefaultJSONSerializer) (by decide)).imp fun _ h => ⟨h.1, h.2.1⟩⟩

/-- C10 (failing input): for a response with status 401 `executeSearchQuery`
returns an error and no result, and the response body has never been closed. -/
theorem body_left_open_on_401 :
    (executeSearchQuery sampleEnv 0 sampleCtx [] "idx"
        (sampleProvider 401 (sampleBody [] "unauthorized" none)) (some { calls := 0 })
        (some .DefaultJSONSerializer)).result = none ∧
    (executeSearchQuery sampleEnv 0 sampleCtx [] "idx"
        (sampleProvider 401 (sampleBody [] "unauthorized" none)) (some { calls := 0 })
        (some .DefaultJSONSerializer)).err = some (.searchMultiError
          [{ message := "The requested consistency level could not be satisfied before the timeout was reached" }]
          "10.0.0.1:8094" 401) ∧
    (executeSearchQuery sampleEnv 0 sampleCtx [] "idx"
        (sampleProvider 401 (sampleBody [] "unauthorized" none)) (some { calls := 0 })
        (some .DefaultJSONSerializer)).body.map (fun b => b.closeCalls) = some 0 := by
  decide

/-- The attribute handler passes the streaming result of the result through:
replacing it before the call is the same as replacing it after the call. -/
theorem readAttribute_setStream (env : Env) (r : SearchResult) (x : Option streamingResult)
    (dec : List JsonToken) (t : JsonToken) :
    SearchResult.readAttribute env { r with streamResult := x } dec t =
      ({ (r.readAttribute env dec t).1 with streamResult := x }, (r.readAttribute env dec t).2) := by
  unfold SearchResult.readAttribute
  simp only []
  split_ifs <;> (repeat' split) <;> rfl

/-- The attribute loop passes the streaming result of the result through. -/
theorem readAttributesLoop_setStream (env : Env) (x : Option streamingResult) (fuel : Nat)
    (s : streamingResult) (r : SearchResult) :
    streamingResult.readAttributesLoop (SearchResult.readAttribute env) fuel s
        { r with streamResult := x } =
      ((streamingResult.readAttributesLoop (SearchResult.readAttribute env) fuel s r).1,
       { (streamingResult.readAttributesLoop (SearchResult.readAttribute env) fuel s r).2.1 with
            streamResult := x },
       (streamingResult.readAttributesLoop (SearchResult.readAttribute env) fuel s r).2.2) := by
  induction fuel generalizing s r with
  | zero => rfl
  | succ n ih =>
    unfold streamingResult.readAttributesLoop
    split
    · rfl
    · split
      · rfl
      · split
        · exact ih _ _
        · rename_i t dec _ _
          rw [readAttribute_setStream]
          rcases hcb : r.readAttribute env dec t with ⟨r1, dec1, b, e⟩
          cases e with
          | some e => cases b <;> rfl
          | none =>
            cases b with
            | true => rfl
            | false => exact ih _ _

/-- The call `readAttributes` passes the streaming result of the result through. -/
theorem readAttributes_setStream (env : Env) (x : Option streamingResult)
    (s : streamingResult) (r : SearchResult) (s1 : streamingResult) (rT : SearchResult)
    (e : Option GoError)
    (h : s.readAttributes (SearchResult.readAttribute env) r = (s1, rT, e)) :
    s.readAttributes (SearchResult.readAttribute env) { r with streamResult := x } =
      (s1, { rT with streamResult := x }, e) := by
  unfold streamingResult.readAttributes at h ⊢
  rw [readAttributesLoop_setStream, h]

/-- On the row array the streaming result hands out the next element. -/
theorem streamNextBytes_row {σ : Type}
    (cb : σ → List JsonToken → JsonToken → σ × List JsonToken × Bool × Option GoError)
    (s : streamingResult) (st : σ) (raw : Raw) (rest : List JsonToken)
    (hc : s.closed = false) (he : s.ended = false) (hd : s.decoder = raw ++ rest)
    (hv : IsValue raw) :
    s.NextBytes cb st = ({ s with decoder := rest }, st, some raw, none) := by
  unfold streamingResult.NextBytes
  simp [hc, he, hd, (hv.more rest).1, Decoder.DecodeRaw, hv.scan rest]

/-- At the closing bracket the streaming result reads the trailing attributes
and signals the end. -/
theorem streamNextBytes_end {σ : Type}
    (cb : σ → List JsonToken → JsonToken → σ × List JsonToken × Bool × Option GoError)
    (s : streamingResult) (st : σ) (post : List JsonToken)
    (hc : s.closed = false) (he : s.ended = false) (hd : s.decoder = .delim .rbrack :: post) :
    s.NextBytes cb st =
      ({ (streamingResult.readAttributes cb { s with decoder := post } st).1 with ended := true },
       (streamingResult.readAttributes cb { s with decoder := post } st).2.1, none,
       (streamingResult.readAttributes cb { s with decoder := post } st).2.2) := by
  unfold streamingResult.NextBytes
  simp [hc, he, hd, Decoder.More, Decoder.Token]

/-- The call `NextBytes` on a result positioned on a row returns the row and advances. -/
theorem SearchResult.NextBytes_row (env : Env) (r : SearchResult) (s : streamingResult)
    (raw : Raw) (rest : List JsonToken) (h : r.streamResult = some s)
    (hc : s.closed = false) (he : s.ended = false) (hd : s.decoder = raw ++ rest)
    (hv : IsValue raw) :
    r.NextBytes env = some ({ r with streamResult := some { s with decoder := rest } }, some raw) := by
  unfold SearchResult.NextBytes
  rw [h]
  simp only [streamingResult.Closed, hc]
  rw [streamNextBytes_row _ s r raw rest hc he hd hv]
  simp [hc]

/-- The call `NextBytes` on a result positioned at the end of the row array reads the
trailing attributes, records their error if any, and returns nil. -/
theorem SearchResult.NextBytes_end (env : Env) (r : SearchResult) (s : streamingResult)
    (post : List JsonToken) (s1 : streamingResult) (rT : SearchResult) (eT : Option GoError)
    (h : r.streamResult = some s) (hc : s.closed = false) (he : s.ended = false)
    (hd : s.decoder = .delim .rbrack :: post)
    (htrail : streamingResult.readAttributes (SearchResult.readAttribute env)
        { s with decoder := post } r = (s1, rT, eT)) :
    r.NextBytes env =
      some ({ rT with streamResult := some { s1 with ended := true }, err := eT.or rT.err },
        none) := by
  unfold SearchResult.NextBytes
  rw [h]
  simp only [streamingResult.Closed, hc]
  rw [streamNextBytes_end _ s r post hc he hd]
  simp only [htrail]
  cases eT <;> simp

/-- The call `NextBytes` on a result whose stream has signalled the end returns nil and
changes nothing. -/
theorem SearchResult.NextBytes_ended (env : Env) (r : SearchResult) (s : streamingResult)
    (h : r.streamResult = some s) (he : s.ended = true) :
    r.NextBytes env = some (r, none) := by
  unfold SearchResult.NextBytes
  rw [h]
  simp only [streamingResult.Closed]
  split_ifs with hc
  · rfl
  · have hn : s.NextBytes (SearchResult.readAttribute env) r = (s, r, none, none) := by
      simp [streamingResult.NextBytes, he]
    rw [hn]
    simp only [Option.some.injEq, Prod.mk.injEq, and_true]
    cases r
    simp_all

/-- A step of the row loop that goes on leaves a result without recorded error
as it was. -/
theorem SearchResult.NextSwitch_ok_eq {env : Env} {r : SearchResult} {t : JsonToken}
    {dec : List JsonToken} {row : SearchResultRow} {r1 : SearchResult} {dec1 : List JsonToken}
    {row1 : SearchResultRow} (h : SearchResult.NextSwitch env r t dec row = .ok (r1, dec1, row1))
    (herr : r.err = none) : r1 = r := by
  unfold SearchResult.NextSwitch at h
  split_ifs at h <;> split at h <;> simp at h <;>
    (obtain ⟨h1, -, -⟩ := h; subst h1; cases r; simp_all)

/-- What a step of the row loop does to the row target and to the decoder
depends on the result only through its serializer. -/
theorem SearchResult.NextSwitch_congr (env : Env) (r r' : SearchResult) (t : JsonToken)
    (dec : List JsonToken) (row : SearchResultRow) (hser : r.serializer = r'.serializer) :
    ((SearchResult.NextSwitch env r t dec row).map
        (fun p => (p.2.1, p.2.2, p.1.serializer))).mapError (fun p => p.2) =
    ((SearchResult.NextSwitch env r' t dec row).map
        (fun p => (p.2.1, p.2.2, p.1.serializer))).mapError (fun p => p.2) := by
  unfold SearchResult.NextSwitch
  split_ifs <;> split <;> simp [Except.map, Except.mapError, hser]

/-- The row target and the flag the row loop returns depend on the result only
through its serializer. -/
theorem SearchResult.NextLoop_congr (env : Env) (fuel : Nat) (r r' : SearchResult)
    (dec : List JsonToken) (row : SearchResultRow) (hser : r.serializer = r'.serializer) :
    (SearchResult.NextLoop env fuel r dec row).2 = (SearchResult.NextLoop env fuel r' dec row).2 := by
  induction fuel generalizing r r' dec row with
  | zero => rfl
  | succ n ih =>
    unfold SearchResult.NextLoop
    split
    · rfl
    · split
      · rfl
      · split
        · exact ih _ _ _ _ hser
        · rename_i t dec1 _ _
          have hcg := SearchResult.NextSwitch_congr env r r' t dec1 row hser
          cases hs : SearchResult.NextSwitch env r t dec1 row with
          | error p =>
            cases hs' : SearchResult.NextSwitch env r' t dec1 row with
            | error p' =>
              rw [hs, hs'] at hcg
              simp only [Except.map, Except.mapError, Except.error.injEq] at hcg
              simp [hcg]
            | ok p' =>
              rw [hs, hs'] at hcg
              simp [Except.map, Except.mapError] at hcg
          | ok p =>
            cases hs' : SearchResult.NextSwitch env r' t dec1 row with
            | error p' =>
              rw [hs, hs'] at hcg
              simp [Except.map, Except.mapError] at hcg
            | ok p' =>
              rw [hs, hs'] at hcg
              simp only [Except.map, Except.mapError, Except.ok.injEq, Prod.mk.injEq] at hcg
              obtain ⟨h1, h2, h3⟩ := hcg
              obtain ⟨r1, dec2, row1⟩ := p
              obtain ⟨r1', dec2', row1'⟩ := p'
              simp only at h1 h2 h3 ⊢
              subst h1; subst h2
              exact ih _ _ _ _ h3

/-- A row loop that returns true leaves a result without recorded error as it
was. -/
theorem SearchResult.NextLoop_true_eq (env : Env) (fuel : Nat) (r : SearchResult)
    (dec : List JsonToken) (row : SearchResultRow) (herr : r.err = none)
    (h : (SearchResult.NextLoop env fuel r dec row).2.2 = true) :
    (SearchResult.NextLoop env fuel r dec row).1 = r := by
  induction fuel generalizing r dec row with
  | zero => rfl
  | succ n ih =>
    unfold SearchResult.NextLoop at h ⊢
    split
    · rfl
    · rename_i hmore
      rw [if_neg hmore] at h
      split
      · rename_i heq
        rw [heq] at h
        simp at h
      · rename_i t dec1 heq
        rw [heq] at h
        simp only at h
        split
        · rename_i hd
          rw [if_pos hd] at h
          exact ih _ _ _ herr h
        · rename_i hd
          rw [if_neg hd] at h
          split
          · rename_i hs
            rw [hs] at h
            simp at h
          · rename_i r1 dec2 row1 hs
            rw [hs] at h
            simp only at h
            have hr := SearchResult.NextSwitch_ok_eq hs herr
            subst hr
            exact ih _ _ _ herr h

/-- The call `Next` on a result without recorded error positioned on a row that the row
loop accepts: the row is decoded into the target and the stream advances. -/
theorem SearchResult.Next_row (env : Env) (r : SearchResult) (s : streamingResult)
    (raw : Raw) (rest : List JsonToken) (row : SearchResultRow) (h : r.streamResult = some s)
    (herr : r.err = none) (hc : s.closed = false) (he : s.ended = false)
    (hd : s.decoder = raw ++ rest) (hv : IsValue raw)
    (hdec : r.rowDecodes env raw row = true) :
    r.Next env row =
      some ({ r with streamResult := some { s with decoder := rest } },
        r.decodeRow env raw row, true) := by
  unfold SearchResult.Next
  rw [if_neg (by simp [herr]), SearchResult.NextBytes_row env r s raw rest h hc he hd hv]
  simp only
  have hcg := SearchResult.NextLoop_congr env (raw.length + 1)
    { r with streamResult := some { s with decoder := rest } } r raw row rfl
  have hflag : (SearchResult.NextLoop env (raw.length + 1)
      { r with streamResult := some { s with decoder := rest } } raw row).2.2 = true := by
    rw [hcg]; exact hdec
  have hst := SearchResult.NextLoop_true_eq env (raw.length + 1)
    { r with streamResult := some { s with decoder := rest } } raw row herr hflag
  rw [Option.some.injEq]
  refine Prod.ext hst (Prod.ext ?_ ?_)
  · show _ = r.decodeRow env raw row
    unfold SearchResult.decodeRow
    rw [← hcg]
  · exact hflag

/-- The call `Next` on a result without recorded error positioned at the end of the row
array: the trailing attributes are read and `Next` returns false. -/
theorem SearchResult.Next_end (env : Env) (r : SearchResult) (s : streamingResult)
    (post : List JsonToken) (s1 : streamingResult) (rT : SearchResult) (eT : Option GoError)
    (row : SearchResultRow)
    (h : r.streamResult = some s) (herr : r.err = none) (hc : s.closed = false)
    (he : s.ended = false) (hd : s.decoder = .delim .rbrack :: post)
    (htrail : streamingResult.readAttributes (SearchResult.readAttribute env)
        { s with decoder := post } r = (s1, rT, eT)) :
    r.Next env row =
      some ({ rT with streamResult := some { s1 with ended := true }, err := eT.or rT.err },
        row, false) := by
  unfold SearchResult.Next
  rw [if_neg (by simp [herr]), SearchResult.NextBytes_end env r s post s1 rT eT h hc he hd htrail]

/-- Decoding a row depends on the result only through its serializer. -/
theorem SearchResult.decodeRow_congr (env : Env) (r r' : SearchResult) (raw : Raw)
    (row : SearchResultRow) (hser : r.serializer = r'.serializer) :
    r.decodeRow env raw row = r'.decodeRow env raw row ∧
    r.rowDecodes env raw row = r'.rowDecodes env raw row := by
  unfold SearchResult.decodeRow SearchResult.rowDecodes
  rw [SearchResult.NextLoop_congr env _ r r' raw row hser]
  exact ⟨rfl, rfl⟩

/-- Decoding a sequence of rows depends on the result only through its
serializer. -/
theorem SearchResult.decodeRows_congr (env : Env) (r r' : SearchResult) (rows : List Raw)
    (row : SearchResultRow) (hser : r.serializer = r'.serializer) :
    r.decodeRows env rows row = r'.decodeRows env rows row ∧
    r.rowsDecode env rows row = r'.rowsDecode env rows row := by
  induction rows generalizing row with
  | nil => exact ⟨rfl, rfl⟩
  | cons raw rows ih =>
    obtain ⟨h1, h2⟩ := SearchResult.decodeRow_congr env r r' raw row hser
    simp only [SearchResult.decodeRows, SearchResult.rowsDecode, h1, h2, (ih _).1, (ih _).2,
      and_self]

/-- One target content is produced per row. -/
theorem SearchResult.decodeRows_length (env : Env) (r : SearchResult) (rows : List Raw)
    (row : SearchResultRow) : (r.decodeRows env rows row).length = rows.length := by
  induction rows generalizing row with
  | nil => rfl
  | cons raw rows ih => simp [SearchResult.decodeRows, ih]

/-- Iterating `Next` over a row array: one true per row, in wire order, then
false, with the trailing attributes read. -/
theorem SearchResult.iterate_rows (env : Env) (rows : List Raw) (post : List JsonToken)
    (s1 : streamingResult) (r : SearchResult) (sr : streamingResult) (rT : SearchResult)
    (eT : Option GoError) (row0 : SearchResultRow)
    (h : r.streamResult = some sr) (herr : r.err = none) (hc : sr.closed = false)
    (he : sr.ended = false) (hd : sr.decoder = rows.flatten ++ .delim .rbrack :: post)
    (hv : ∀ raw ∈ rows, IsValue raw) (hdec : r.rowsDecode env rows row0 = true)
    (htrail : streamingResult.readAttributes (SearchResult.readAttribute env)
        { sr with decoder := post } r = (s1, rT, eT)) :
    r.iterate env (rows.length + 1) row0 =
      some ({ rT with streamResult := some { s1 with ended := true }, err := eT.or rT.err },
        r.decodeRows env rows row0, true) := by
  induction rows generalizing r sr rT row0 with
  | nil =>
    simp only [List.flatten_nil, List.nil_append] at hd
    simp only [List.length_nil, Nat.zero_add, SearchResult.iterate, SearchResult.decodeRows]
    rw [SearchResult.Next_end env r sr post s1 rT eT row0 h herr hc he hd htrail]
  | cons raw rows ih =>
    simp only [List.flatten_cons, List.append_assoc] at hd
    simp only [SearchResult.rowsDecode, Bool.and_eq_true] at hdec
    obtain ⟨hdec1, hdec2⟩ := hdec
    have hv1 : IsValue raw := hv raw (List.mem_cons_self _ _)
    generalize htail : rows.flatten ++ JsonToken.delim Delim.rbrack :: post = tail at hd
    have hnext := SearchResult.Next_row env r sr raw tail row0 h herr hc he hd hv1 hdec1
    have hcg := SearchResult.decodeRows_congr env
      { r with streamResult := some { sr with decoder := tail } } r rows
      (r.decodeRow env raw row0) rfl
    have htrail' := readAttributes_setStream env (some { sr with decoder := tail })
      { sr with decoder := post } r s1 rT eT htrail
    have := ih { r with streamResult := some { sr with decoder := tail } }
      { sr with decoder := tail } { rT with streamResult := some { sr with decoder := tail } }
      (r.decodeRow env raw row0) rfl herr hc he htail.symm
      (fun x hx => hv x (List.mem_cons_of_mem _ hx)) (by rw [hcg.2]; exact hdec2) htrail'
    rw [List.length_cons, SearchResult.iterate, hnext]
    simp only [this, SearchResult.decodeRows, hcg.1]

/-- The purge loop of `One` over the rest of a row array: every row is
consumed, the trailing attributes are read, and the loop stops. -/
theorem SearchResult.purge_rows (env : Env) (rows : List Raw) (post : List JsonToken)
    (s1 : streamingResult) (eT : Option GoError) (fuel : Nat) (r : SearchResult)
    (sr : streamingResult) (rT : SearchResult)
    (hfuel : rows.length + 1 ≤ fuel)
    (h : r.streamResult = some sr) (hc : sr.closed = false)
    (he : sr.ended = false) (hd : sr.decoder = rows.flatten ++ .delim .rbrack :: post)
    (hv : ∀ raw ∈ rows, IsValue raw)
    (htrail : streamingResult.readAttributes (SearchResult.readAttribute env)
        { sr with decoder := post } r = (s1, rT, eT)) :
    SearchResult.purge env fuel r =
      some { rT with streamResult := some { s1 with ended := true }, err := eT.or rT.err } := by
  induction rows generalizing r sr rT fuel with
  | nil =>
    simp only [List.flatten_nil, List.nil_append] at hd
    obtain ⟨n, rfl⟩ : ∃ n, fuel = n + 1 := ⟨fuel - 1, by simp at hfuel; omega⟩
    rw [SearchResult.purge, SearchResult.NextBytes_end env r sr post s1 rT eT h hc he hd htrail]
  | cons raw rows ih =>
    simp only [List.flatten_cons, List.append_assoc] at hd
    obtain ⟨n, rfl⟩ : ∃ n, fuel = n + 1 := ⟨fuel - 1, by simp at hfuel; omega⟩
    have hv1 : IsValue raw := hv raw (List.mem_cons_self _ _)
    generalize htail : rows.flatten ++ JsonToken.delim Delim.rbrack :: post = tail at hd
    have hnext := SearchResult.NextBytes_row env r sr raw tail h hc he hd hv1
    have htrail' := readAttributes_setStream env (some { sr with decoder := tail })
      { sr with decoder := post } r s1 rT eT htrail
    have := ih n { r with streamResult := some { sr with decoder := tail } }
      { sr with decoder := tail } { rT with streamResult := some { sr with decoder := tail } }
      (by simp at hfuel; omega) rfl hc he htail.symm
      (fun x hx => hv x (List.mem_cons_of_mem _ hx)) htrail'
    rw [SearchResult.purge, hnext]
    simp only [this]

/-- A row array has at least as many tokens as rows. -/
theorem rows_length_le_flatten (rows : List Raw) (hv : ∀ raw ∈ rows, IsValue raw) :
    rows.length ≤ rows.flatten.length := by
  induction rows with
  | nil => simp
  | cons raw rows ih =>
    have h1 := ((hv raw (List.mem_cons_self _ _)).more []).2
    have h2 := ih (fun x hx => hv x (List.mem_cons_of_mem _ hx))
    simp only [List.length_cons, List.flatten_cons, List.length_append]
    omega

/-- Reading the trailing attributes leaves the stream open or closed as it was
and does not touch the stream, the context and the cancel function. -/
theorem trail_frame (env : Env) (s : streamingResult) (r : SearchResult) (s1 : streamingResult)
    (rT : SearchResult) (eT : Option GoError)
    (htrail : s.readAttributes (SearchResult.readAttribute env) r = (s1, rT, eT)) :
    s1.closed = s.closed ∧ s1.stream = s.stream ∧ rT.ctx = r.ctx ∧ rT.cancel = r.cancel := by
  have hf := readAttributes_fields (SearchResult.readAttribute env) s r
  have hi := readAttributes_inv (SearchResult.readAttribute env) (fun x => r.SameFrame x)
    (fun st dec t hst => hst.trans (readAttribute_sameFrame env st dec t)) s r
    (SearchResult.SameFrame.refl r)
  rw [htrail] at hf hi
  exact ⟨hf.1, hf.2.1, hi.2.2.1, hi.2.1⟩

/-- C4 (amended): on a result without recorded error whose open stream is
positioned on a first row that the row loop accepts, followed by further rows
and trailing attributes, `One` stores the first row in the row target,
consumes every remaining row and the trailing attributes, then closes the
result. It returns what `Close` returns there: timeoutError if the context
reports DeadlineExceeded, otherwise the error recorded while the trailing
attributes were read if there is one, otherwise the error of the stream's
close, hence nil when no error was recorded, the context has not expired and
the stream closes without error. The stream is left closed, and `Metadata` and
`Facets` succeed afterwards with what the trailing attributes gave. -/
theorem one_drains_then_closes (env : Env) (now : Nat) (raw : Raw) (rows : List Raw)
    (post : List JsonToken) (r : SearchResult) (sr : streamingResult) (ctx : Context)
    (s1 : streamingResult) (rT : SearchResult) (eT : Option GoError) (row0 : SearchResultRow)
    (h : r.streamResult = some sr) (herr : r.err = none) (hc : sr.closed = false)
    (he : sr.ended = false) (hctx : r.ctx = some ctx)
    (hd : sr.decoder = raw ++ (rows.flatten ++ .delim .rbrack :: post))
    (hv1 : IsValue raw) (hv : ∀ x ∈ rows, IsValue x)
    (hdec : r.rowDecodes env raw row0 = true)
    (htrail : streamingResult.readAttributes (SearchResult.readAttribute env)
        { sr with decoder := post } r = (s1, rT, eT)) :
    ∃ rF srF, r.One env now row0 = some (rF, r.decodeRow env raw row0,
        if ctx.Err now = some .DeadlineExceeded then some .timeoutError
        else if eT.or rT.err ≠ none then eT.or rT.err else sr.stream.closeErr) ∧
      rF.streamResult = some srF ∧ srF.closed = true ∧ srF.decoder = s1.decoder ∧
      srF.stream.closeCalls = sr.stream.closeCalls + 1 ∧
      rF.Metadata = some (some rT.metadata, none) ∧ rF.Facets = some (rT.facets, none) := by
  generalize htail : rows.flatten ++ JsonToken.delim Delim.rbrack :: post = tail at hd
  have hnext := SearchResult.Next_row env r sr raw tail row0 h herr hc he hd hv1 hdec
  have htrail' := readAttributes_setStream env (some { sr with decoder := tail })
    { sr with decoder := post } r s1 rT eT htrail
  have hlen : rows.length + 1 ≤
      (({ r with streamResult := some { sr with decoder := tail } } : SearchResult)).pending + 1 := by
    have := rows_length_le_flatten rows hv
    simp only [SearchResult.pending, ← htail, List.length_append, List.length_cons]
    omega
  have hpurge := SearchResult.purge_rows env rows post s1 eT _
    { r with streamResult := some { sr with decoder := tail } } { sr with decoder := tail }
    { rT with streamResult := some { sr with decoder := tail } } hlen rfl hc he htail.symm hv
    htrail'
  obtain ⟨t1, t2, t3, -⟩ := trail_frame env _ r s1 rT eT htrail
  simp only at t1 t2
  obtain ⟨rC, k1, k2, -, -, k5, k6⟩ := SearchResult.Close_open now
    { rT with streamResult := some { s1 with ended := true }, err := eT.or rT.err }
    { s1 with ended := true } ctx rfl (by simp [t1, hc]) (by simp [t3, hctx])
  simp only [t2] at k1 k2
  refine ⟨rC, _, ?_, k2, rfl, rfl, rfl, ?_, ?_⟩
  · unfold SearchResult.One
    rw [hnext]
    simp only [hpurge, k1]
    split <;> simp_all
  · simp [SearchResult.Metadata, k2, streamingResult.Closed, k5]
  · simp [SearchResult.Facets, k2, streamingResult.Closed, k6]

/-- C4 (counterexample): `One` on the sample result at the instant 200, after
the deadline of its context, returns timeoutError although no error is
recorded on the result. -/
theorem one_returns_timeout_without_recorded_error :
    (sampleResult.One sampleEnv 200 SearchResultRow.zero).map (fun p => (p.1.err, p.2.2)) =
      some (none, some .timeoutError) := by
  decide

/-- Witness of C4 (amended) on the sample result at the instant 5. -/
theorem one_drains_then_closes_witness :
    sampleResult.rowDecodes sampleEnv [.delim .lbrace, .str "id", .str "a", .delim .rbrace]
      SearchResultRow.zero = true ∧
    ∃ rF srF, sampleResult.One sampleEnv 5 SearchResultRow.zero =
        some (rF, sampleResult.decodeRow sampleEnv
          [.delim .lbrace, .str "id", .str "a", .delim .rbrace] SearchResultRow.zero, none) ∧
      rF.streamResult = some srF ∧ srF.closed = true :=
  ⟨by decide,
    (one_drains_then_closes sampleEnv 5 [.delim .lbrace, .str "id", .str "a", .delim .rbrace]
      [[.delim .lbrace, .str "id", .str "b", .delim .rbrace]] samplePost sampleResult sampleStream
      sampleCtx sampleTrailStream sampleTrailResult none SearchResultRow.zero rfl rfl rfl rfl rfl
      rfl (by decide) (by decide) (by decide) (by decide)).imp
      fun _ h => h.imp fun _ h => ⟨h.1, h.2.1, h.2.2.1⟩⟩

/-- C5 (amended): `One` on a result without rows and without recorded error
returns noResultsError and leaves the stream closed, so that `Metadata`
succeeds afterwards: when the stream is already closed (no row array was
located), and when the stream is open at the closing bracket of an empty row
array provided the trailing attributes are read without an error being
returned or recorded, the context does not report DeadlineExceeded and the
stream's close gives no error. And whenever `One` returns, the stream is
closed. -/
theorem one_without_rows (env : Env) (now : Nat) (r : SearchResult) (sr : streamingResult)
    (row0 : SearchResultRow) (h : r.streamResult = some sr) (herr : r.err = none) :
    (sr.closed = true →
        r.One env now row0 = some (r, row0, some .noResultsError) ∧
        r.Metadata = some (some r.metadata, none)) ∧
    (∀ (ctx : Context) (post : List JsonToken) (s1 : streamingResult) (rT : SearchResult),
        sr.closed = false → sr.ended = false → r.ctx = some ctx →
        sr.decoder = .delim .rbrack :: post →
        streamingResult.readAttributes (SearchResult.readAttribute env)
          { sr with decoder := post } r = (s1, rT, none) →
        rT.err = none → ctx.Err now ≠ some .DeadlineExceeded → sr.stream.closeErr = none →
        ∃ rF srF, r.One env now row0 = some (rF, row0, some .noResultsError) ∧
          rF.streamResult = some srF ∧ srF.closed = true ∧
          rF.Metadata = some (some rT.metadata, none)) ∧
    (∀ rF rowF e, r.One env now row0 = some (rF, rowF, e) →
        ∃ srF, rF.streamResult = some srF ∧ srF.closed = true) := by
  refine ⟨?_, ?_, ?_⟩
  · intro hc
    refine ⟨?_, by simp [SearchResult.Metadata, h, streamingResult.Closed, hc]⟩
    have hnb : r.NextBytes env = some (r, none) := by
      simp [SearchResult.NextBytes, h, streamingResult.Closed, hc]
    unfold SearchResult.One SearchResult.Next
    rw [if_neg (by simp [herr]), hnb]
    simp only [SearchResult.Close_closed now r sr h hc, herr]
  · intro ctx post s1 rT hc he hctx hd htrail hTerr hnd hce
    have hnext := SearchResult.Next_end env r sr post s1 rT none row0 h herr hc he hd htrail
    obtain ⟨t1, t2, t3, -⟩ := trail_frame env _ r s1 rT none htrail
    simp only at t1 t2
    obtain ⟨rC, k1, k2, -, -, k5, -⟩ := SearchResult.Close_open now
      { rT with streamResult := some { s1 with ended := true },
                err := (none : Option GoError).or rT.err }
      { s1 with ended := true } ctx rfl (by simp [t1, hc]) (by simp [t3, hctx])
    have hret : (if ctx.Err now = some CtxErr.DeadlineExceeded then some GoError.timeoutError
        else if (none : Option GoError).or rT.err ≠ none then (none : Option GoError).or rT.err
        else ({ s1 with ended := true } : streamingResult).stream.closeErr) = none := by
      simp [hnd, hTerr, t2, hce]
    rw [hret] at k1
    refine ⟨rC, _, ?_, k2, rfl, ?_⟩
    · unfold SearchResult.One
      rw [hnext]
      simp only [k1]
    · simp [SearchResult.Metadata, k2, streamingResult.Closed, k5]
  · intro rF rowF e hone
    have hctx : sr.closed = false → r.ctx ≠ none := by
      intro hc hnone
      obtain ⟨r1, row1, b, sr1, h1, h2, h3, -, -, h6, -⟩ := SearchResult.Next_frame env r row0 sr h
      have hcl : ∀ (ra : SearchResult) (sra : streamingResult), ra.streamResult = some sra →
          sra.closed = false → ra.ctx = none → ra.Close now = none := by
        intro ra sra ha hca hcx
        simp [SearchResult.Close, ha, streamingResult.Closed, hca, hcx, streamingResult.Close,
          Body.Close]
      unfold SearchResult.One at hone
      rw [h1] at hone
      cases b with
      | false =>
        simp only [hcl r1 sr1 h2 (h3.trans hc) (h6.trans hnone)] at hone
        cases hone
      | true =>
        obtain ⟨r2, sr2, p1, p2, p3, -, -, p6⟩ :=
          SearchResult.purge_frame env (r1.pending + 1) r1 sr1 h2
        simp only [p1, hcl r2 sr2 p2 (p3.trans (h3.trans hc)) (p6.trans (h6.trans hnone))] at hone
        cases hone
    obtain ⟨r1, row1, e1, sr1, h1, h2, h3, -⟩ := SearchResult.One_frame env now r row0 sr h hctx
    rw [h1] at hone
    simp only [Option.some.injEq, Prod.mk.injEq] at hone
    obtain ⟨ha, -, -⟩ := hone
    subst ha
    exact ⟨sr1, h2, h3⟩

/-- C5 (counterexample): for the response `{"hits":[]}` whose stream fails to
close, `One` on the returned result (no recorded error, context not expired)
returns the stream's close error instead of noResultsError. -/
theorem one_without_rows_returns_close_error :
    ((sampleExec (sampleBody sampleNoRowTokens "" (some (.streamError "broken pipe")))).result.bind
        (fun r => (r.One sampleEnv 5 SearchResultRow.zero).map (fun p => (r.err, p.2.2)))) =
      some (none, some (.streamError "broken pipe")) := by
  decide

/-- Witness of C5 (amended) on a result whose row array is empty. -/
theorem one_without_rows_witness :
    sampleNoRowResult.streamResult =
      some { sampleStream with decoder := [.delim .rbrack, .delim .rbrace],
                               stream := sampleBody sampleNoRowTokens "" none } ∧
    sampleNoRowResult.err = none ∧
    ∃ rF srF, sampleNoRowResult.One sampleEnv 5 SearchResultRow.zero =
        some (rF, SearchResultRow.zero, some .noResultsError) ∧
      rF.streamResult = some srF ∧ srF.closed = true ∧
      rF.Metadata = some (some sampleNoRowResult.metadata, none) :=
  ⟨rfl, rfl,
    (one_without_rows sampleEnv 5 sampleNoRowResult
      { sampleStream with decoder := [.delim .rbrack, .delim .rbrace],
                          stream := sampleBody sampleNoRowTokens "" none }
      SearchResultRow.zero rfl rfl).2.1 sampleCtx [.delim .rbrace]
      { sampleStream with decoder := [.delim .rbrace],
                          stream := sampleBody sampleNoRowTokens "" none }
      sampleNoRowResult rfl rfl rfl rfl (by decide) rfl (by decide) rfl⟩

/-- C3 (failing input): `encoding/json` never stores a `[]string` into the
`interface{}` field that holds the status errors, so the array form is never
recognised: for the status `{"total":1,"failed":1,"errors":["boom"]}` of an
HTTP 200 response `readAttribute` returns the clientError "could not parse
errors" and records no multi error, and `executeSearchQuery` fails with that
clientError, whereas for the object form `{"pindex":"boom"}` a multi error with
the record "pindex-boom" is recorded. -/
theorem status_errors_array_rejected :
    (∀ (raw : Raw) (l : List String), decodeIface raw ≠ .stringSlice l) ∧
    (sampleResult.readAttribute sampleEnv
        [.delim .lbrace, .str "total", .num (.int 1), .str "failed", .num (.int 1),
         .str "errors", .delim .lbrack, .str "boom", .delim .rbrack, .delim .rbrace]
        (.str "status")).2.2 = (false, some (.clientError "could not parse errors")) ∧
    (sampleResult.readAttribute sampleEnv
        [.delim .lbrace, .str "total", .num (.int 1), .str "failed", .num (.int 1),
         .str "errors", .delim .lbrack, .str "boom", .delim .rbrack, .delim .rbrace]
        (.str "status")).1.err = none ∧
    (sampleExec (sampleBody sampleStatusArrayTokens "" none)).err =
      some (.clientError "could not parse errors") ∧
    (sampleExec (sampleBody sampleStatusObjectTokens "" none)).result.map (fun r => r.err) =
      some (some (.searchMultiError [{ message := "pindex-boom" }] "10.0.0.1:8094" 200)) := by
  refine ⟨?_, by decide, by decide, by decide, by decide⟩
  intro raw l
  unfold decodeIface
  split <;> try simp
  split <;> simp

theorem consTok_some {t : JsonToken} {o : Option (Raw × List JsonToken)} {c : Raw}
    {r : List JsonToken} (h : consTok t o = some (c, r)) :
    ∃ c0, o = some (c0, r) ∧ c = t :: c0 := by
  cases o with
  | none => simp [consTok] at h
  | some p =>
    obtain ⟨c0, r0⟩ := p
    simp only [consTok, Option.some.injEq, Prod.mk.injEq] at h
    exact ⟨c0, by rw [h.2], h.1.symm⟩

/-- The tokens a scan consumes and the rest make up the input. -/
theorem scanOpen_split (ts : List JsonToken) (st : List Frame) :
    ∀ c r, scanOpen st ts = some (c, r) → ts = c ++ r := by
  induction ts generalizing st with
  | nil => intro c r h; cases st <;> simp [scanOpen] at h
  | cons t ts ih =>
    have step : ∀ (st1 : List Frame) (c : Raw) (r : List JsonToken),
        consTok t (scanOpen st1 ts) = some (c, r) → t :: ts = c ++ r := by
      intro st1 c r h
      obtain ⟨c0, h1, h2⟩ := consTok_some h
      rw [h2, ih st1 c0 r h1]
      rfl
    intro c r h
    cases st with
    | nil => simp [scanOpen] at h
    | cons f st =>
      cases f with
      | arr =>
        simp only [scanOpen] at h
        split at h
        · split_ifs at h with hst
          · simp only [Option.some.injEq, Prod.mk.injEq] at h
            obtain ⟨h1, h2⟩ := h
            subst h1; subst h2
            rfl
          · exact step _ c r h
        · exact step _ c r h
        · exact step _ c r h
        · simp at h
        · exact step _ c r h
      | objKey =>
        simp only [scanOpen] at h
        split at h
        · exact step _ c r h
        · split_ifs at h with hst
          · simp only [Option.some.injEq, Prod.mk.injEq] at h
            obtain ⟨h1, h2⟩ := h
            subst h1; subst h2
            rfl
          · exact step _ c r h
        · simp at h
      | objVal =>
        simp only [scanOpen] at h
        split at h
        · exact step _ c r h
        · exact step _ c r h
        · simp at h
        · exact step _ c r h

/-- The value split off the input and the rest make up the input, and the
value is not empty. -/
theorem scanValue_split (ts : List JsonToken) (c : Raw) (r : List JsonToken)
    (h : scanValue ts = some (c, r)) : ts = c ++ r ∧ r.length < ts.length := by
  have key : ts = c ++ r ∧ c ≠ [] := by
    cases ts with
    | nil => simp [scanValue] at h
    | cons t ts =>
      have step : ∀ (st1 : List Frame),
          consTok t (scanOpen st1 ts) = some (c, r) → t :: ts = c ++ r ∧ c ≠ [] := by
        intro st1 h
        obtain ⟨c0, h1, h2⟩ := consTok_some h
        rw [h2, scanOpen_split ts st1 c0 r h1]
        exact ⟨rfl, by simp⟩
      simp only [scanValue] at h
      split at h
      · exact step _ h
      · exact step _ h
      · simp at h
      · simp only [Option.some.injEq, Prod.mk.injEq] at h
        obtain ⟨h1, h2⟩ := h
        subst h1; subst h2
        exact ⟨rfl, by simp⟩
  obtain ⟨h1, h2⟩ := key
  refine ⟨h1, ?_⟩
  rw [h1, List.length_append]
  have : 0 < c.length := List.length_pos.mpr h2
  omega

/-- A successful `Decode` consumes at least one token. -/
theorem Decoder.Decode_length {α : Type} (um : Raw → α → Except GoError α) (dec : List JsonToken)
    (old v : α) (rest : List JsonToken) (h : Decoder.Decode um dec old = .ok (v, rest)) :
    rest.length < dec.length := by
  unfold Decoder.Decode Decoder.DecodeRaw at h
  cases hs : scanValue dec with
  | none => simp [hs] at h
  | some p =>
    obtain ⟨raw, rest0⟩ := p
    simp only [hs] at h
    split at h
    · simp at h
    · simp only [Except.ok.injEq, Prod.mk.injEq] at h
      rw [← h.2]
      exact (scanValue_split dec raw rest0 hs).2

/-- A step of the row loop that goes on has consumed at least one token. -/
theorem SearchResult.NextSwitch_length {env : Env} {r : SearchResult} {t : JsonToken}
    {dec : List JsonToken} {row : SearchResultRow} {r1 : SearchResult} {dec1 : List JsonToken}
    {row1 : SearchResultRow} (h : SearchResult.NextSwitch env r t dec row = .ok (r1, dec1, row1)) :
    dec1.length < dec.length := by
  unfold SearchResult.NextSwitch at h
  split_ifs at h <;> split at h <;> simp at h <;>
    (rename_i heq; obtain ⟨-, h2, -⟩ := h; subst h2; exact Decoder.Decode_length _ _ _ _ _ heq)

/-- The row loop never runs out of fuel: with more fuel than tokens the result
does not depend on the fuel. -/
theorem SearchResult.NextLoop_fuel (env : Env) (fuel1 fuel2 : Nat) (r : SearchResult)
    (dec : List JsonToken) (row : SearchResultRow) (h1 : dec.length < fuel1)
    (h2 : dec.length < fuel2) :
    SearchResult.NextLoop env fuel1 r dec row = SearchResult.NextLoop env fuel2 r dec row := by
  induction fuel1 generalizing fuel2 r dec row with
  | zero => omega
  | succ n ih =>
    obtain ⟨m, rfl⟩ : ∃ m, fuel2 = m + 1 := ⟨fuel2 - 1, by omega⟩
    unfold SearchResult.NextLoop
    split
    · rfl
    · cases dec with
      | nil => simp [Decoder.More] at *
      | cons t dec =>
        simp only [Decoder.Token, List.length_cons] at h1 h2 ⊢
        split
        · exact ih m _ _ _ (by omega) (by omega)
        · cases hs : SearchResult.NextSwitch env r t dec row with
          | error p => rfl
          | ok p =>
            obtain ⟨r1, dec1, row1⟩ := p
            have hl := SearchResult.NextSwitch_length hs
            exact ih m _ _ _ (by omega) (by omega)

/-- A successful `Token` consumes one token. -/
theorem Decoder.Token_length (dec : List JsonToken) (t : JsonToken) (rest : List JsonToken)
    (h : Decoder.Token dec = .ok (t, rest)) : rest.length < dec.length := by
  cases dec with
  | nil => simp [Decoder.Token] at h
  | cons t0 ts =>
    simp only [Decoder.Token, Except.ok.injEq, Prod.mk.injEq] at h
    rw [← h.2]
    simp

/-- The attribute handler never hands back more input than it was given. -/
theorem readAttribute_length (env : Env) (r : SearchResult) (dec : List JsonToken)
    (t : JsonToken) : (r.readAttribute env dec t).2.1.length ≤ dec.length := by
  unfold SearchResult.readAttribute
  repeat' split
  all_goals first
    | exact le_refl _
    | exact le_of_lt (Decoder.Decode_length _ _ _ _ _ (by assumption))
    | exact le_of_lt (Decoder.Token_length _ _ _ (by assumption))

/-- The attribute loop never runs out of fuel when the handler hands back no
more input than it was given: with more fuel than tokens the result does not
depend on the fuel. -/
theorem readAttributesLoop_fuel {σ : Type}
    (cb : σ → List JsonToken → JsonToken → σ × List JsonToken × Bool × Option GoError)
    (hcb : ∀ st dec t, (cb st dec t).2.1.length ≤ dec.length)
    (fuel1 fuel2 : Nat) (s : streamingResult) (st : σ)
    (h1 : s.decoder.length < fuel1) (h2 : s.decoder.length < fuel2) :
    streamingResult.readAttributesLoop cb fuel1 s st =
      streamingResult.readAttributesLoop cb fuel2 s st := by
  induction fuel1 generalizing fuel2 s st with
  | zero => omega
  | succ n ih =>
    obtain ⟨m, rfl⟩ : ∃ m, fuel2 = m + 1 := ⟨fuel2 - 1, by omega⟩
    unfold streamingResult.readAttributesLoop
    split
    · rfl
    · cases hd : s.decoder with
      | nil => simp [hd, Decoder.More] at *
      | cons t dec =>
        rw [hd] at h1 h2
        simp only [Decoder.Token, List.length_cons] at h1 h2 ⊢
        split
        · exact ih m _ _ (by simpa using by omega) (by simpa using by omega)
        · have hl := hcb st dec t
          rcases hc : cb st dec t with ⟨st1, dec1, b, e⟩
          rw [hc] at hl
          simp only at hl
          cases e with
          | some e => cases b <;> rfl
          | none =>
            cases b with
            | true => rfl
            | false =>
              exact ih m _ _ (by simpa using by omega) (by simpa using by omega)

/-- A call of `NextBytes` that returns a row has consumed at least one token. -/
theorem SearchResult.NextBytes_pending (env : Env) (r r1 : SearchResult) (raw : Raw)
    (h : r.NextBytes env = some (r1, some raw)) : r1.pending < r.pending := by
  unfold SearchResult.NextBytes at h
  cases hs : r.streamResult with
  | none => simp [hs] at h
  | some sr =>
    simp only [hs] at h
    split_ifs at h with hc
    · simp at h
    · unfold streamingResult.NextBytes at h
      split_ifs at h with h1 h2
      · simp at h
      · cases hd : Decoder.DecodeRaw sr.decoder with
        | error e => simp [hd] at h
        | ok p =>
          obtain ⟨raw0, rest⟩ := p
          simp only [hd, Option.some.injEq, Prod.mk.injEq] at h
          obtain ⟨ha, -⟩ := h
          subst ha
          unfold Decoder.DecodeRaw at hd
          cases hsc : scanValue sr.decoder with
          | none => simp [hsc] at hd
          | some q =>
            simp only [hsc, Except.ok.injEq] at hd
            subst hd
            have := (scanValue_split sr.decoder raw0 rest hsc).2
            simpa [SearchResult.pending, hs] using this
      · split at h
        · simp at h
        · rename_i sr1 r1' raw' heq
          have hnone : raw' = none := by
            have := congrArg (fun p => p.2.2.1) heq
            simp only at this
            rw [← this]
            split
            · rfl
            · split_ifs
              · rfl
              · rfl
          rw [hnone] at h
          simp at h

/-- The purge loop of `One` never runs out of fuel: with more fuel than
pending tokens the result does not depend on the fuel. -/
theorem SearchResult.purge_fuel (env : Env) (fuel1 fuel2 : Nat) (r : SearchResult)
    (h1 : r.pending < fuel1) (h2 : r.pending < fuel2) :
    SearchResult.purge env fuel1 r = SearchResult.purge env fuel2 r := by
  induction fuel1 generalizing fuel2 r with
  | zero => omega
  | succ n ih =>
    obtain ⟨m, rfl⟩ : ∃ m, fuel2 = m + 1 := ⟨fuel2 - 1, by omega⟩
    unfold SearchResult.purge
    cases hn : r.NextBytes env with
    | none => rfl
    | some p =>
      obtain ⟨r1, raw⟩ := p
      cases raw with
      | none => rfl
      | some raw =>
        have := SearchResult.NextBytes_pending env r r1 raw hn
        exact ih m r1 (by omega) (by omega)

/-- C11 (failing input): `readAttribute` on "hits" returns (true, nil) when the
array-open token follows, (false, nil) when null follows and an error when
another delimiter follows (an object, for one); but when a number, a string or
a boolean follows it returns (false, nil) as for null, with no error: for the
response `{"hits":5}` `executeSearchQuery` returns a closed result without rows
and a nil error. -/
theorem hits_scalar_not_rejected :
    (∀ (env : Env) (r : SearchResult) (rest : List JsonToken),
      r.readAttribute env (.delim .lbrack :: rest) (.str "hits") = (r, rest, true, none)) ∧
    (∀ (env : Env) (r : SearchResult) (rest : List JsonToken),
      r.readAttribute env (.null :: rest) (.str "hits") = (r, rest, false, none)) ∧
    (∀ (env : Env) (r : SearchResult) (rest : List JsonToken),
      r.readAttribute env (.delim .lbrace :: rest) (.str "hits") =
        (r, rest, false,
          some (.errorsNew "expected results opening token to be [ but was \x7b"))) ∧
    (∀ (env : Env) (r : SearchResult) (rest : List JsonToken) (n : JNum),
      r.readAttribute env (.num n :: rest) (.str "hits") = (r, rest, false, none)) ∧
    (∀ (env : Env) (r : SearchResult) (rest : List JsonToken) (s : String),
      r.readAttribute env (.str s :: rest) (.str "hits") = (r, rest, false, none)) ∧
    (∀ (env : Env) (r : SearchResult) (rest : List JsonToken) (b : Bool),
      r.readAttribute env (.bool b :: rest) (.str "hits") = (r, rest, false, none)) ∧
    (sampleExec (sampleBody sampleScalarHitsTokens "" none)).err = none ∧
    (sampleExec (sampleBody sampleScalarHitsTokens "" none)).result.map
        (fun r => (r.err, r.streamResult.map (fun sr => (sr.hasRows, sr.closed)))) =
      some (none, some (false, true)) := by
  refine ⟨?_, ?_, ?_, ?_, ?_, ?_, by decide, by decide⟩ <;> intros <;>
    simp [SearchResult.readAttribute, Decoder.Token, Delim.toString]

/-- C13 (failing input): for the response `{"hits":[5,{"id":"b"}]}` the stream
delivers the bytes of the row `5`, `Next` returns false and no error is
recorded on the result; the following `Next` returns true on the second row,
and `Close` afterwards returns nil. The same holds for every row that is a
number. -/
theorem undecodable_row_records_no_error :
    (∀ (env : Env) (r : SearchResult) (n : JNum) (rowPtr : SearchResultRow),
      SearchResult.NextLoop env 2 r [.num n] rowPtr = (r, rowPtr, false)) ∧
    ((sampleExec (sampleBody sampleBadRowTokens "" none)).result.bind
        (fun r => (r.Next sampleEnv SearchResultRow.zero).bind
          (fun p => (p.1.Next sampleEnv p.2.1).bind
            (fun q => (q.1.Close 5).map
              (fun c => (p.2.2, p.1.err, q.2.2, q.2.1.ID, c.2)))))) =
      some (false, none, true, "b", none) := by
  refine ⟨?_, by decide⟩
  intro env r n rowPtr
  simp [SearchResult.NextLoop, Decoder.More, Decoder.Token, SearchResult.NextSwitch,
    Decoder.Decode, Decoder.DecodeRaw, scanValue]

/-- C14: `Fields` returns the error "no fields to scan" without calling the
deserializer exactly when the row holds no stashed fields; otherwise, on a row
that carries its serializer, it calls `Deserialize` once on the stashed bytes
and the caller's target and returns exactly what that call returns. -/
theorem fields_contract {V : Type} (deserialize : JSONSerializer → Raw → V → Option GoError × V)
    (row : SearchResultRow) (valuePtr : V) :
    (row.fields = none →
        row.Fields deserialize valuePtr =
          some { err := some (.errorsNew "no fields to scan"), value := valuePtr,
                 deserializeCalls := 0 }) ∧
    (∀ fields serializer, row.fields = some fields → row.serializer = some serializer →
        row.Fields deserialize valuePtr =
          some { err := (deserialize serializer fields valuePtr).1,
                 value := (deserialize serializer fields valuePtr).2,
                 deserializeCalls := 1 }) ∧
    ((∃ out, row.Fields deserialize valuePtr = some out ∧
          out.err = some (.errorsNew "no fields to scan") ∧ out.deserializeCalls = 0)
        ↔ row.fields = none) := by
  refine ⟨?_, ?_, ?_⟩
  · intro h
    simp [SearchResultRow.Fields, h]
  · intro fields serializer hf hs
    simp [SearchResultRow.Fields, hf, hs]
  · constructor
    · rintro ⟨out, h1, -, h3⟩
      cases hf : row.fields with
      | none => rfl
      | some fields =>
        cases hs : row.serializer with
        | none => simp [SearchResultRow.Fields, hf, hs] at h1
        | some ser =>
          simp only [SearchResultRow.Fields, hf, hs, Option.some.injEq] at h1
          subst h1
          simp at h3
    · intro h
      exact ⟨{ err := some (.errorsNew "no fields to scan"), value := valuePtr,
               deserializeCalls := 0 }, by simp [SearchResultRow.Fields, h], rfl, rfl⟩

/-- Witness of C14 on a row with stashed fields and the default serializer. -/
theorem fields_contract_witness :
    sampleFieldsRow.fields = some [.num (.int 1)] ∧
    sampleFieldsRow.serializer = some .DefaultJSONSerializer ∧
    sampleFieldsRow.Fields sampleDeserialize [] =
      some { err := (sampleDeserialize .DefaultJSONSerializer [.num (.int 1)] []).1,
             value := (sampleDeserialize .DefaultJSONSerializer [.num (.int 1)] []).2,
             deserializeCalls := 1 } :=
  ⟨rfl, rfl, (fields_contract sampleDeserialize sampleFieldsRow []).2.1 _ _ rfl rfl⟩

/-- Decoding a value that stands in front of more input decodes the value and
leaves that input. -/
theorem Decoder.Decode_append {α : Type} (um : Raw → α → Except GoError α) (v : Raw)
    (tail : List JsonToken) (old : α) (hv : IsValue v) :
    Decoder.Decode um (v ++ tail) old =
      match um v old with
      | .error e => .error e
      | .ok x => .ok (x, tail) := by
  simp only [Decoder.Decode, Decoder.DecodeRaw, hv.scan tail]

/-- Decoding a value with nothing behind it. -/
theorem Decoder.Decode_value {α : Type} (um : Raw → α → Except GoError α) (v : Raw)
    (old : α) (hv : IsValue v) :
    Decoder.Decode um v old =
      match um v old with
      | .error e => .error e
      | .ok x => .ok (x, []) := by
  have := Decoder.Decode_append um v [] old hv
  simpa using this

/-- The `switch` of `Next` on a value that stands in front of more input does
what it does on the value alone, and leaves that input. -/
theorem SearchResult.NextSwitch_append (env : Env) (r : SearchResult) (t : JsonToken) (v : Raw)
    (tail : List JsonToken) (row : SearchResultRow) (hv : IsValue v) :
    SearchResult.NextSwitch env r t (v ++ tail) row =
      (SearchResult.NextSwitch env r t v row).map (fun p => (p.1, tail, p.2.2)) := by
  unfold SearchResult.NextSwitch
  simp only [Decoder.Decode_append _ v tail _ hv, Decoder.Decode_value _ v _ hv]
  split_ifs <;> first
    | (cases unmarshalString v row.Index <;> rfl)
    | (cases unmarshalString v row.ID <;> rfl)
    | (cases unmarshalFloat v row.Score <;> rfl)
    | (cases env.unmarshalExplanation v row.Explanation <;> rfl)
    | (cases env.unmarshalLocations v row.Locations <;> rfl)
    | (cases env.unmarshalFragments v row.Fragments <;> rfl)
    | (cases unmarshalIgnore v () <;> rfl)

/-- The tokens of a member list are at least as many as the members. -/
theorem memberTokens_length (ms : List (String × Raw)) : ms.length ≤ (memberTokens ms).length := by
  induction ms with
  | nil => simp [memberTokens]
  | cons kv ms ih =>
    obtain ⟨k, v⟩ := kv
    simp only [memberTokens, List.length_cons, List.length_append]
    omega

/-- The loop of `Next` over the members of an object, up to its closing brace,
is the member by member application of the `switch`. -/
theorem SearchResult.NextLoop_members (env : Env) (ms : List (String × Raw))
    (hv : ∀ kv ∈ ms, IsValue kv.2) (fuel : Nat) (hfuel : ms.length + 1 ≤ fuel)
    (r : SearchResult) (row : SearchResultRow) :
    SearchResult.NextLoop env fuel r (memberTokens ms ++ [.delim .rbrace]) row =
      SearchResult.rowMembers env r ms row := by
  induction ms generalizing fuel r row with
  | nil =>
    obtain ⟨n, rfl⟩ : ∃ n, fuel = n + 1 := ⟨fuel - 1, by simp at hfuel; omega⟩
    simp [memberTokens, SearchResult.NextLoop, Decoder.More, SearchResult.rowMembers]
  | cons kv ms ih =>
    obtain ⟨k, v⟩ := kv
    obtain ⟨n, rfl⟩ : ∃ n, fuel = n + 1 := ⟨fuel - 1, by simp at hfuel; omega⟩
    have hv1 : IsValue v := hv (k, v) (List.mem_cons_self _ _)
    have hrest : ∀ kv ∈ ms, IsValue kv.2 := fun x hx => hv x (List.mem_cons_of_mem _ hx)
    have hsw := SearchResult.NextSwitch_append env r (.str k) v
      (memberTokens ms ++ [.delim .rbrace]) row hv1
    simp only [memberTokens, List.cons_append, List.append_assoc, SearchResult.NextLoop,
      Decoder.More, Decoder.Token, SearchResult.rowMembers]
    simp only [Bool.true_eq_false, if_false, reduceCtorEq, or_self, hsw]
    cases hs : SearchResult.NextSwitch env r (.str k) v row with
    | error p => rfl
    | ok p =>
      obtain ⟨r1, dec1, row1⟩ := p
      simp only [Except.map]
      exact ih hrest n (by simp at hfuel; omega) r1 row1

/-- Decoding a row object with `Next` is the member by member application of
the `switch` to its members. -/
theorem SearchResult.decodeRow_object (env : Env) (r : SearchResult) (ms : List (String × Raw))
    (hv : ∀ kv ∈ ms, IsValue kv.2) (row : SearchResultRow) :
    r.decodeRow env (objectTokens ms) row = (SearchResult.rowMembers env r ms row).2.1 ∧
    r.rowDecodes env (objectTokens ms) row = (SearchResult.rowMembers env r ms row).2.2 := by
  have hl := memberTokens_length ms
  have key : SearchResult.NextLoop env ((objectTokens ms).length + 1) r (objectTokens ms) row =
      SearchResult.rowMembers env r ms row := by
    have h1 : SearchResult.NextLoop env ((objectTokens ms).length + 1) r (objectTokens ms) row =
        SearchResult.NextLoop env (objectTokens ms).length r
          (memberTokens ms ++ [.delim .rbrace]) row := by
      rw [SearchResult.NextLoop]
      simp [objectTokens, Decoder.More, Decoder.Token]
    rw [h1]
    exact SearchResult.NextLoop_members env ms hv _ (by simp [objectTokens]; omega) r row
  simp only [SearchResult.decodeRow, SearchResult.rowDecodes, key, and_self]

/-- The `switch` of `Next` on an attribute other than "fields" leaves the
stashed fields and the serializer of the row target as they were. -/
theorem SearchResult.NextSwitch_other_fields {env : Env} {r : SearchResult} {k : String}
    {dec : List JsonToken} {row : SearchResultRow} {r1 : SearchResult} {dec1 : List JsonToken}
    {row1 : SearchResultRow} (hk : k ≠ "fields")
    (h : SearchResult.NextSwitch env r (.str k) dec row = .ok (r1, dec1, row1)) :
    row1.fields = row.fields ∧ row1.serializer = row.serializer := by
  unfold SearchResult.NextSwitch at h
  have hk' : ¬ (JsonToken.str k = JsonToken.str "fields") := by simpa using hk
  split_ifs at h <;> split at h <;> simp at h <;>
    (obtain ⟨-, -, h3⟩ := h; subst h3; exact ⟨rfl, rfl⟩)

/-- The `switch` of `Next` on the attribute "fields" stashes the bytes of the
value and the serializer of the result. -/
theorem SearchResult.NextSwitch_fields (env : Env) (r : SearchResult) (v : Raw)
    (row : SearchResultRow) (hv : IsValue v) :
    SearchResult.NextSwitch env r (.str "fields") v row =
      .ok ({ r with err := none }, [], { row with serializer := r.serializer, fields := some v }) := by
  unfold SearchResult.NextSwitch
  simp [Decoder.Decode_value _ v _ hv, unmarshalRawMessage]

/-- The member by member loop leaves the serializer of the result as it was. -/
theorem SearchResult.rowMembers_serializer (env : Env) (ms : List (String × Raw))
    (r : SearchResult) (row : SearchResultRow) :
    (SearchResult.rowMembers env r ms row).1.serializer = r.serializer := by
  induction ms generalizing r row with
  | nil => rfl
  | cons kv ms ih =>
    unfold SearchResult.rowMembers
    split
    · rename_i heq
      exact (SearchResult.NextSwitch_error_sameFrame heq).2.2.2.2
    · rename_i heq
      rw [ih]
      exact (SearchResult.NextSwitch_ok_sameFrame heq).2.2.2.2

/-- A successful member by member loop over members none of which is "fields"
leaves the stashed fields and the serializer of the row target as they were. -/
theorem SearchResult.rowMembers_no_fields (env : Env) (ms : List (String × Raw))
    (hk : ∀ kv ∈ ms, kv.1 ≠ "fields") (r : SearchResult) (row : SearchResultRow)
    (hok : (SearchResult.rowMembers env r ms row).2.2 = true) :
    (SearchResult.rowMembers env r ms row).2.1.fields = row.fields ∧
    (SearchResult.rowMembers env r ms row).2.1.serializer = row.serializer := by
  induction ms generalizing r row with
  | nil => exact ⟨rfl, rfl⟩
  | cons kv ms ih =>
    unfold SearchResult.rowMembers at hok ⊢
    cases hs : SearchResult.NextSwitch env r (.str kv.1) kv.2 row with
    | error p => rw [hs] at hok; simp at hok
    | ok p =>
      obtain ⟨r1, dec1, row1⟩ := p
      rw [hs] at hok
      simp only at hok ⊢
      obtain ⟨h1, h2⟩ := SearchResult.NextSwitch_other_fields (hk kv (List.mem_cons_self _ _)) hs
      obtain ⟨h3, h4⟩ := ih (fun x hx => hk x (List.mem_cons_of_mem _ hx)) r1 row1 hok
      exact ⟨h3.trans h1, h4.trans h2⟩

/-- The member by member loop over two lists of members in a row. -/
theorem SearchResult.rowMembers_append (env : Env) (pre post : List (String × Raw))
    (r : SearchResult) (row : SearchResultRow) :
    SearchResult.rowMembers env r (pre ++ post) row =
      if (SearchResult.rowMembers env r pre row).2.2 = true then
        SearchResult.rowMembers env (SearchResult.rowMembers env r pre row).1 post
          (SearchResult.rowMembers env r pre row).2.1
      else SearchResult.rowMembers env r pre row := by
  induction pre generalizing r row with
  | nil => simp [SearchResult.rowMembers]
  | cons kv pre ih =>
    simp only [List.cons_append, SearchResult.rowMembers]
    cases hs : SearchResult.NextSwitch env r (.str kv.1) kv.2 row with
    | error p => simp
    | ok p => exact ih _ _

/-- C15 (amended): for every row object whose members are JSON values and that
`Next` decodes successfully: if it contains no "fields" attribute, the row
target keeps the stashed fields and the serializer it held before the call, so
`Fields` on it returns the error "no fields to scan" when the target held no
fields before (a fresh target, for one) and deserializes the bytes of the
earlier row when it did; if it contains a "fields" attribute, the filled row
holds exactly the raw bytes of the last such attribute and the serializer of
the result. -/
theorem fields_after_next {V : Type} (deserialize : JSONSerializer → Raw → V → Option GoError × V)
    (valuePtr : V) (env : Env) (r : SearchResult) (ms : List (String × Raw))
    (rowPtr : SearchResultRow) (hv : ∀ kv ∈ ms, IsValue kv.2)
    (hdec : r.rowDecodes env (objectTokens ms) rowPtr = true) :
    ((∀ kv ∈ ms, kv.1 ≠ "fields") →
        (r.decodeRow env (objectTokens ms) rowPtr).fields = rowPtr.fields ∧
        (r.decodeRow env (objectTokens ms) rowPtr).serializer = rowPtr.serializer ∧
        (rowPtr.fields = none →
          (r.decodeRow env (objectTokens ms) rowPtr).Fields deserialize valuePtr =
            some { err := some (.errorsNew "no fields to scan"), value := valuePtr,
                   deserializeCalls := 0 })) ∧
    (∀ pre v post, ms = pre ++ ("fields", v) :: post → (∀ kv ∈ post, kv.1 ≠ "fields") →
        (r.decodeRow env (objectTokens ms) rowPtr).fields = some v ∧
        (r.decodeRow env (objectTokens ms) rowPtr).serializer = r.serializer) := by
  obtain ⟨hrow, hflag⟩ := SearchResult.decodeRow_object env r ms hv rowPtr
  rw [hflag] at hdec
  rw [hrow]
  refine ⟨?_, ?_⟩
  · intro hk
    obtain ⟨h1, h2⟩ := SearchResult.rowMembers_no_fields env ms hk r rowPtr hdec
    refine ⟨h1, h2, fun hnone => ?_⟩
    simp [SearchResultRow.Fields, h1, hnone]
  · intro pre v post hms hk
    subst hms
    have hvv : IsValue v := hv ("fields", v) (by simp)
    rw [SearchResult.rowMembers_append] at hdec ⊢
    split_ifs at hdec ⊢ with hpre
    · simp only [SearchResult.rowMembers, SearchResult.NextSwitch_fields env _ v _ hvv] at hdec ⊢
      obtain ⟨h1, h2⟩ := SearchResult.rowMembers_no_fields env post hk _ _ hdec
      rw [h1, h2]
      exact ⟨rfl, SearchResult.rowMembers_serializer env pre r rowPtr⟩
    · exact absurd hdec hpre

/-- C15 (counterexample): for the response
`{"hits":[{"id":"a","fields":{"x":1}},{"id":"b"}]}` read with one row target,
the second `Next` returns true on the row without fields, and `Fields` on the
filled target returns no error but the fields of the first row. -/
theorem fields_of_earlier_row_survive :
    ((sampleExec (sampleBody sampleStaleFieldsTokens "" none)).result.bind
        (fun r => (r.Next sampleEnv SearchResultRow.zero).bind
          (fun p => (p.1.Next sampleEnv p.2.1).bind
            (fun q => (q.2.1.Fields sampleDeserialize []).map
              (fun o => (q.2.2, q.2.1.ID, o.err, o.value)))))) =
      some (true, "b", none,
        [.delim .lbrace, .str "x", .num (.int 1), .delim .rbrace]) := by
  decide

/-- Witness of C15 (amended) on the row `{"id":"b"}` decoded into a fresh
target. -/
theorem fields_after_next_witness :
    sampleResult.rowDecodes sampleEnv (objectTokens [("id", [.str "b"])]) SearchResultRow.zero =
      true ∧
    (sampleResult.decodeRow sampleEnv (objectTokens [("id", [.str "b"])])
        SearchResultRow.zero).fields = SearchResultRow.zero.fields :=
  ⟨by decide,
    ((fields_after_next sampleDeserialize [] sampleEnv sampleResult [("id", [.str "b"])] SearchResultRow.zero
      (by decide) (by decide)).1 (by decide)).1⟩

/-- When the request data marshal and the provider answers with a response,
`executeSearchQuery` does what its response part does with that response. -/
theorem executeSearchQuery_response (env : Env) (now : Nat) (ctx : Context) (query : DelayedObject)
    (qIndexName : String) (provider : httpProvider) (cancel : Option CancelFunc)
    (serializer : Option JSONSerializer) (qBytes : Raw) (resp : HttpResponse) (now1 : Nat)
    (hq : jsonMarshal query = .ok qBytes)
    (hp : provider.DoHttpRequest
        { Service := .FtsService, Path := "/api/index/" ++ qIndexName ++ "/query",
          Method := "POST", Context := ctx, Body := qBytes } now = (.ok resp, now1)) :
    executeSearchQuery env now ctx query qIndexName provider cancel serializer =
      executeSearchQuery.respond env ctx cancel serializer resp now1 := by
  unfold executeSearchQuery
  simp only [hq, hp]

/-- C17: for every response with status 400 whose body can be read,
`executeSearchQuery` returns a nil result and a searchMultiError with exactly
one record, whose message is the text of the response body, whose endpoint is
the host parsed from the response's endpoint (the empty host when it does not
parse) and whose status is 400. -/
theorem bad_request_body_is_the_error (env : Env) (now : Nat) (ctx : Context)
    (query : DelayedObject) (qIndexName : String) (provider : httpProvider)
    (cancel : Option CancelFunc) (serializer : Option JSONSerializer) (qBytes : Raw)
    (resp : HttpResponse) (now1 : Nat)
    (hq : jsonMarshal query = .ok qBytes)
    (hp : provider.DoHttpRequest
        { Service := .FtsService, Path := "/api/index/" ++ qIndexName ++ "/query",
          Method := "POST", Context := ctx, Body := qBytes } now = (.ok resp, now1))
    (hs : resp.StatusCode = 400) (hr : resp.Body.readErr = none) :
    (executeSearchQuery env now ctx query qIndexName provider cancel serializer).result = none ∧
    (executeSearchQuery env now ctx query qIndexName provider cancel serializer).err =
      some (.searchMultiError [{ message := resp.Body.text }]
        ((env.urlParseHost resp.Endpoint).getD "") 400) := by
  rw [executeSearchQuery_response env now ctx query qIndexName provider cancel serializer qBytes
    resp now1 hq hp]
  unfold executeSearchQuery.respond
  simp only [hs, hr, if_true]
  cases env.urlParseHost resp.Endpoint <;> simp

/-- Witness of C17: the body "bad query syntax" under status 400. -/
theorem bad_request_body_is_the_error_witness :
    (executeSearchQuery sampleEnv 0 sampleCtx [] "idx"
        (sampleProvider 400 (sampleBody [] "bad query syntax" none)) none none).err =
      some (.searchMultiError [{ message := "bad query syntax" }]
        ((sampleEnv.urlParseHost "http://10.0.0.1:8094").getD "") 400) :=
  (bad_request_body_is_the_error sampleEnv 0 sampleCtx [] "idx"
    (sampleProvider 400 (sampleBody [] "bad query syntax" none)) none none
    [.delim .lbrace, .delim .rbrace]
    { StatusCode := 400, Endpoint := "http://10.0.0.1:8094",
      Body := sampleBody [] "bad query syntax" none } 1 rfl rfl rfl rfl).2

/-- C18: for every response whose status s is neither 200 nor 400,
`executeSearchQuery` returns a nil result and a searchMultiError with exactly
one record, the host of the response's endpoint (the empty host when it does
not parse) and the status s; the message is the consistency message when s is
401 and "An unknown error occurred" otherwise. -/
theorem other_status_single_record (env : Env) (now : Nat) (ctx : Context)
    (query : DelayedObject) (qIndexName : String) (provider : httpProvider)
    (cancel : Option CancelFunc) (serializer : Option JSONSerializer) (qBytes : Raw)
    (resp : HttpResponse) (now1 : Nat)
    (hq : jsonMarshal query = .ok qBytes)
    (hp : provider.DoHttpRequest
        { Service := .FtsService, Path := "/api/index/" ++ qIndexName ++ "/query",
          Method := "POST", Context := ctx, Body := qBytes } now = (.ok resp, now1))
    (h200 : resp.StatusCode ≠ 200) (h400 : resp.StatusCode ≠ 400) :
    (executeSearchQuery env now ctx query qIndexName provider cancel serializer).result = none ∧
    (executeSearchQuery env now ctx query qIndexName provider cancel serializer).err =
      some (.searchMultiError
        [{ message :=
            if resp.StatusCode = 401 then
              "The requested consistency level could not be satisfied before the timeout was reached"
            else "An unknown error occurred" }]
        ((env.urlParseHost resp.Endpoint).getD "") resp.StatusCode) := by
  rw [executeSearchQuery_response env now ctx query qIndexName provider cancel serializer qBytes
    resp now1 hq hp]
  unfold executeSearchQuery.respond
  simp only [h400, if_false]
  split_ifs with h401
  · cases env.urlParseHost resp.Endpoint <;> exact ⟨rfl, rfl⟩
  · cases env.urlParseHost resp.Endpoint <;> exact ⟨rfl, rfl⟩

/-- Witness of C18: status 503 from an endpoint that does not parse. -/
theorem other_status_single_record_witness :
    (executeSearchQuery sampleEnv 0 sampleCtx [] "idx"
        { DoHttpRequest := fun _ now =>
            (.ok { StatusCode := 503, Endpoint := "::", Body := sampleBody [] "" none }, now) }
        none none).err =
      some (.searchMultiError
        [{ message :=
            if (503 : Int) = 401 then
              "The requested consistency level could not be satisfied before the timeout was reached"
            else "An unknown error occurred" }]
        ((sampleEnv.urlParseHost "::").getD "") 503) :=
  (other_status_single_record sampleEnv 0 sampleCtx [] "idx"
    { DoHttpRequest := fun _ now =>
        (.ok { StatusCode := 503, Endpoint := "::", Body := sampleBody [] "" none }, now) }
    none none [.delim .lbrace, .delim .rbrace]
    { StatusCode := 503, Endpoint := "::", Body := sampleBody [] "" none } 0 rfl rfl
    (by decide) (by decide)).2

/-- C16 (failing input): for the HTTP 200 response
`{"status":{"total":1,"failed":1,"errors":["boom"]},"hits":null}`, in which no
row array is located and the status carries a non-empty error list,
`executeSearchQuery` returns a nil result and has closed the stream once, but
the error is the clientError "could not parse errors", not a searchMultiError.
With the list in object form the searchMultiError is returned and the stream
closed once; and with no error list (hits null or absent) the result is
non-nil, without recorded error, and its stream is closed. -/
theorem fast_fail_misses_error_array :
    ((sampleExec (sampleBody sampleStatusArrayNullHitsTokens "" none)).result,
      (sampleExec (sampleBody sampleStatusArrayNullHitsTokens "" none)).err,
      (sampleExec (sampleBody sampleStatusArrayNullHitsTokens "" none)).body.map
        (fun b => b.closeCalls)) =
      (none, some (.clientError "could not parse errors"), some 1) ∧
    ((sampleExec (sampleBody sampleStatusObjectNullHitsTokens "" none)).result,
      (sampleExec (sampleBody sampleStatusObjectNullHitsTokens "" none)).err,
      (sampleExec (sampleBody sampleStatusObjectNullHitsTokens "" none)).body.map
        (fun b => b.closeCalls)) =
      (none, some (.searchMultiError [{ message := "pindex-boom" }] "10.0.0.1:8094" 200),
        some 1) ∧
    (sampleExec (sampleBody sampleAbsentHitsTokens "" none)).result.map
        (fun r => (r.err, r.streamResult.map (fun s => (s.closed, s.stream.closeCalls)))) =
      some (none, some (true, 1)) := by
  decide

/-- An exact result that fits an `int64` is what the `int64` holds. -/
theorem wrapInt64_of_fits (x : Int) (h1 : -(2 ^ 63) ≤ x) (h2 : x < 2 ^ 63) : wrapInt64 x = x := by
  unfold wrapInt64
  omega

/-- Looking a key up after an assignment. -/
theorem lookup_mapSet (m : List (String × Raw)) (k k' : String) (v : Raw) :
    (mapSet m k v).lookup k' = if k' = k then some v else m.lookup k' := by
  induction m with
  | nil =>
    by_cases h : k' = k
    · simp [mapSet, List.lookup, h]
    · have : (k' == k) = false := by simpa using h
      simp [mapSet, List.lookup, h, this]
  | cons kv m ih =>
    obtain ⟨k0, v0⟩ := kv
    simp only [mapSet]
    by_cases h0 : k0 = k
    · subst h0
      by_cases h : k' = k0
      · subst h; simp [List.lookup]
      · have : (k' == k0) = false := by simpa using h
        simp [List.lookup, h, this]
    · simp only [h0, if_false, List.lookup]
      by_cases h1 : k' = k0
      · subst h1
        simp [h0]
      · have : (k' == k0) = false := by simpa using h1
        simp only [this, ih]

/-- What `executeSearchQuery` returns when the request data marshal and the
provider answers with a transport error. -/
theorem executeSearchQuery_transport (env : Env) (now : Nat) (ctx : Context)
    (query : DelayedObject) (qIndexName : String) (provider : httpProvider)
    (cancel : Option CancelFunc) (serializer : Option JSONSerializer) (qBytes : Raw)
    (e : GoError) (now1 : Nat)
    (hq : jsonMarshal query = .ok qBytes)
    (hp : provider.DoHttpRequest
        { Service := .FtsService, Path := "/api/index/" ++ qIndexName ++ "/query",
          Method := "POST", Context := ctx, Body := qBytes } now = (.error e, now1)) :
    executeSearchQuery env now ctx query qIndexName provider cancel serializer =
      { result := none,
        err := some (if e = .ErrNoFtsService then
            .serviceNotAvailableError env.ErrNoFtsServiceText
          else if ctx.Err now1 = some .DeadlineExceeded then .timeoutError
          else .errorsWrap e "could not complete search http request"),
        body := none, now := now1 } := by
  unfold executeSearchQuery
  simp only [hq, hp]
  split_ifs <;> rfl

/-- A context derived from a parent that was not cancelled reports
`DeadlineExceeded` from its deadline on. -/
theorem Context.WithTimeout_expired (parent : Context) (created : Nat) (dur : Int) (n : Nat)
    (hdone : parent.done = none) (hn : (created : Int) + dur ≤ n) :
    (parent.WithTimeout created dur).Err n = some .DeadlineExceeded := by
  unfold Context.WithTimeout Context.Err
  simp only [hdone]
  cases hd : parent.deadline with
  | none => simp [hn]
  | some d =>
    simp only
    by_cases h1 : d ≤ (created : Int)
    · simp [h1]
    · have h2 : min d ((created : Int) + dur) ≤ (n : Int) := le_trans (min_le_right _ _) hn
      simp [h1, h2]

/-- When every request fails with a transport error other than
`ErrNoFtsService` at an instant at which the operation context reports
`DeadlineExceeded`, every attempt of the retry loop ends with a timeoutError
and a nil result. -/
theorem searchQuery.loop_timeout (env : Env) (c : Cluster) (IsRetryableError : GoError → Bool)
    (p : Prepared) (qIndexName : String) (provider : httpProvider) (qBytes : Raw)
    (hq : jsonMarshal p.queryData = .ok qBytes)
    (hfail : ∀ req now, ∃ e now1, provider.DoHttpRequest req now = (.error e, now1) ∧
      e ≠ .ErrNoFtsService ∧ p.ctx.Err now1 = some .DeadlineExceeded)
    (fuel retries now : Nat) (made : List Attempt) (res : ExecOutcome) (made1 : List Attempt)
    (hmade : ∀ a ∈ made, a.outcome.result = none ∧ a.outcome.err = some .timeoutError)
    (h : searchQuery.loop env c IsRetryableError p qIndexName provider fuel retries now made =
      some (res, made1)) :
    res.result = none ∧ res.err = some .timeoutError ∧ made1 ≠ [] ∧
    ∀ a ∈ made1, a.outcome.result = none ∧ a.outcome.err = some .timeoutError := by
  induction fuel generalizing retries now made with
  | zero => simp [searchQuery.loop] at h
  | succ fuel ih =>
    obtain ⟨e, now1, hp, he, hctx⟩ := hfail
      { Service := .FtsService, Path := "/api/index/" ++ qIndexName ++ "/query",
        Method := "POST", Context := p.ctx, Body := qBytes } now
    have hex := executeSearchQuery_transport env now p.ctx p.queryData qIndexName provider
      (some p.cancel) (some p.Serializer) qBytes e now1 hq hp
    simp only [he, hctx, if_false, if_true] at hex
    have hmade1 : ∀ a ∈ made ++ [({ sentAt := now, outcome :=
        { result := none, err := some .timeoutError, body := none, now := now1 } } : Attempt)],
        a.outcome.result = none ∧ a.outcome.err = some .timeoutError := by
      intro a ha
      rcases List.mem_append.1 ha with ha | ha
      · exact hmade a ha
      · simp only [List.mem_singleton] at ha
        subst ha
        exact ⟨rfl, rfl⟩
    rw [searchQuery.loop] at h
    simp only [hex] at h
    cases hb : c.sb.SearchRetryBehavior with
    | none =>
      simp only [hb, Option.some.injEq, Prod.mk.injEq] at h
      obtain ⟨h1, h2⟩ := h
      subst h1 h2
      exact ⟨rfl, rfl, by simp, hmade1⟩
    | some behavior =>
      simp only [hb] at h
      split_ifs at h with hc
      · simp only [Option.some.injEq, Prod.mk.injEq] at h
        obtain ⟨h1, h2⟩ := h
        subst h1 h2
        exact ⟨rfl, rfl, by simp, hmade1⟩
      · exact ih _ _ _ hmade1 h

/-- C19: when the request data marshal and the provider returns the transport
error e, `executeSearchQuery` returns a nil result and the
serviceNotAvailableError if e is `ErrNoFtsService` (whatever the context
reports), otherwise the timeoutError if the operation context reports
`DeadlineExceeded` when the provider returns, otherwise e wrapped as "could not
complete search http request". And when the caller's context, not cancelled,
has the deadline dl, `searchQuery` gets as far as sending, with an effective
timeout that fits an `int64` as nanoseconds, and every request fails with an
error other than `ErrNoFtsService` no earlier than that timeout after the
derived context was created: every outcome of `searchQuery` is a nil result
with the timeoutError, after at least one attempt, each of which ended so; the
caller's context reports no error at any instant before dl; and without a
retry behaviour, or when the timeoutError is not retryable, the call returns
after one attempt. -/
theorem transport_error_classification (env : Env) (c : Cluster)
    (IsRetryableError : GoError → Bool) :
    (∀ (now : Nat) (ctx : Context) (query : DelayedObject) (qIndexName : String)
        (provider : httpProvider) (cancel : Option CancelFunc)
        (serializer : Option JSONSerializer) (qBytes : Raw) (e : GoError) (now1 : Nat),
      jsonMarshal query = .ok qBytes →
      provider.DoHttpRequest
        { Service := .FtsService, Path := "/api/index/" ++ qIndexName ++ "/query",
          Method := "POST", Context := ctx, Body := qBytes } now = (.error e, now1) →
      (executeSearchQuery env now ctx query qIndexName provider cancel serializer).result = none ∧
      (executeSearchQuery env now ctx query qIndexName provider cancel serializer).err =
        some (if e = .ErrNoFtsService then .serviceNotAvailableError env.ErrNoFtsServiceText
          else if ctx.Err now1 = some .DeadlineExceeded then .timeoutError
          else .errorsWrap e "could not complete search http request")) ∧
    (∀ (created built fuel : Nat) (ctx : Context) (dl : Int) (qIndexName : String)
        (q : SearchQuery) (opts : SearchOptions) (provider : httpProvider) (p : Prepared)
        (qBytes : Raw),
      ctx.done = none → ctx.deadline = some dl →
      searchQuery.prepare c created built ctx q opts = .ready p →
      -(2 ^ 63) ≤ p.timeout * Millisecond → p.timeout * Millisecond < 2 ^ 63 →
      jsonMarshal p.queryData = .ok qBytes →
      (∀ req now, ∃ e now1, provider.DoHttpRequest req now = (.error e, now1) ∧
        e ≠ .ErrNoFtsService ∧ (created : Int) + p.timeout * Millisecond ≤ now1) →
      (∀ out, searchQuery env c IsRetryableError created built fuel ctx qIndexName q opts
            provider = some out →
          out.result = none ∧ out.err = some .timeoutError ∧ out.attempts ≠ [] ∧
          ∀ a ∈ out.attempts, a.outcome.result = none ∧ a.outcome.err = some .timeoutError) ∧
      (∀ n : Nat, (n : Int) < dl → ctx.Err n = none) ∧
      (c.sb.SearchRetryBehavior = none ∨ IsRetryableError .timeoutError = false →
        ∃ out, searchQuery env c IsRetryableError created built (fuel + 1) ctx qIndexName q opts
            provider = some out ∧ out.attempts.length = 1)) := by
  refine ⟨?_, ?_⟩
  · intro now ctx query qIndexName provider cancel serializer qBytes e now1 hq hp
    rw [executeSearchQuery_transport env now ctx query qIndexName provider cancel serializer
      qBytes e now1 hq hp]
    exact ⟨rfl, rfl⟩
  · intro created built fuel ctx dl qIndexName q opts provider p qBytes hdone hdl hprep hlo hhi hq
      hfail
    have hctx : p.ctx = ctx.WithTimeout created (p.timeout * Millisecond) := by
      unfold searchQuery.prepare at hprep
      cases ho : opts.toOptionsData with
      | error e => simp [ho] at hprep
      | ok queryData =>
        cases hc : searchQuery.ctlData queryData with
        | error e => simp [ho, hc] at hprep
        | ok ctlData =>
          cases ht : searchQuery.timeout c ctlData with
          | error e => simp [ho, hc, ht] at hprep
          | ok timeout =>
            simp only [ho, hc, ht] at hprep
            split at hprep
            · simp at hprep
            · split at hprep
              · simp at hprep
              · split at hprep
                · simp at hprep
                · split at hprep
                  · simp at hprep
                  · simp only [PrepareOutcome.ready.injEq] at hprep
                    subst hprep
                    simp only at hlo hhi ⊢
                    rw [wrapInt64_of_fits _ hlo hhi]
    have hfail2 : ∀ req now, ∃ e now1, provider.DoHttpRequest req now = (.error e, now1) ∧
        e ≠ .ErrNoFtsService ∧ p.ctx.Err now1 = some .DeadlineExceeded := by
      intro req now
      obtain ⟨e, now1, h1, h2, h3⟩ := hfail req now
      exact ⟨e, now1, h1, h2, by rw [hctx]; exact Context.WithTimeout_expired ctx created _ now1 hdone h3⟩
    refine ⟨?_, ?_, ?_⟩
    · intro out hout
      unfold searchQuery at hout
      simp only [hprep] at hout
      cases hl : searchQuery.loop env c IsRetryableError p qIndexName provider fuel 0 built [] with
      | none => simp [hl] at hout
      | some rm =>
        obtain ⟨res, made⟩ := rm
        obtain ⟨h1, h2, h3, h4⟩ := searchQuery.loop_timeout env c IsRetryableError p qIndexName
          provider qBytes hq hfail2 fuel 0 built [] res made (by simp) hl
        simp only [hl, h2, Option.some.injEq] at hout
        subst hout
        exact ⟨rfl, rfl, h3, h4⟩
    · intro n hn
      unfold Context.Err
      simp only [hdone, hdl]
      simp [not_le.2 hn]
    · intro hnr
      obtain ⟨e, now1, hp, he, hce⟩ := hfail2
        { Service := .FtsService, Path := "/api/index/" ++ qIndexName ++ "/query",
          Method := "POST", Context := p.ctx, Body := qBytes } built
      have hex := executeSearchQuery_transport env built p.ctx p.queryData qIndexName provider
        (some p.cancel) (some p.Serializer) qBytes e now1 hq hp
      simp only [he, hce, if_false, if_true] at hex
      unfold searchQuery
      simp only [hprep]
      rw [searchQuery.loop]
      simp only [hex]
      rcases hnr with hnr | hnr
      · simp [hnr]
      · cases hb : c.sb.SearchRetryBehavior with
        | none => simp
        | some behavior => simp [hnr]

/-- Witness of C19: the caller allows 200 ms, the "ctl" timeout is 2 ms, and the
provider fails at 3 ms; the call fails with the timeoutError while the caller's
context reports no error. -/
theorem transport_error_classification_witness :
    (∃ out, searchQuery sampleEnv sampleCluster sampleNotRetryable 0 500000 1 sampleCallerCtx "idx"
        sampleQuery sampleOptions sampleFailingProvider = some out ∧
      out.result = none ∧ out.err = some .timeoutError) ∧
    sampleCallerCtx.Err 3000000 = none := by
  have h := (transport_error_classification sampleEnv sampleCluster sampleNotRetryable).2
    0 500000 0 sampleCallerCtx (200 * Millisecond) "idx" sampleQuery sampleOptions
    sampleFailingProvider samplePrepared
    (objectTokens (sortMembers samplePrepared.queryData)) rfl rfl (by decide) (by decide)
    (by decide) rfl
    (fun _ now => ⟨.streamError "context canceled", max now 3000000, rfl, by decide, by
      have : samplePrepared.timeout * Millisecond = 2000000 := by decide
      rw [this]
      have := le_max_right now 3000000
      omega⟩)
  obtain ⟨out, ho, _⟩ := h.2.2 (Or.inl rfl)
  have h1 := (transport_error_classification sampleEnv sampleCluster sampleNotRetryable).2
    0 500000 1 sampleCallerCtx (200 * Millisecond) "idx" sampleQuery sampleOptions
    sampleFailingProvider samplePrepared
    (objectTokens (sortMembers samplePrepared.queryData)) rfl rfl (by decide) (by decide)
    (by decide) rfl
    (fun _ now => ⟨.streamError "context canceled", max now 3000000, rfl, by decide, by
      have : samplePrepared.timeout * Millisecond = 2000000 := by decide
      rw [this]
      have := le_max_right now 3000000
      omega⟩)
  exact ⟨⟨out, ho, (h1.1 out ho).1, (h1.1 out ho).2.1⟩, h.2.1 3000000 (by decide)⟩

/-- The attempts the retry loop makes: the first is sent at the instant the
loop is entered, each is a call of `executeSearchQuery` with the prepared
context and request data, each but the last failed with a retryable error
after which the behaviour allowed a retry and the loop slept the interval it
gave, and the last is the one whose outcome the loop returns, the loop ending
on a success, without retry behaviour, on an error that is not retryable, or
when the behaviour allows no retry. -/
theorem searchQuery.loop_trace (env : Env) (c : Cluster) (IsRetryableError : GoError → Bool)
    (p : Prepared) (qIndexName : String) (provider : httpProvider)
    (fuel retries now : Nat) (made : List Attempt) (res : ExecOutcome) (made1 : List Attempt)
    (h : searchQuery.loop env c IsRetryableError p qIndexName provider fuel retries now made =
      some (res, made1)) :
    ∃ news : List Attempt, made1 = made ++ news ∧ 1 ≤ news.length ∧ news.length ≤ fuel ∧
      news.head?.map (fun a => a.sentAt) = some now ∧
      (∀ a ∈ news, a.outcome = executeSearchQuery env a.sentAt p.ctx p.queryData qIndexName
        provider (some p.cancel) (some p.Serializer)) ∧
      news.getLast?.map (fun a => a.outcome) = some res ∧
      (∀ i a a2, news[i]? = some a → news[i + 1]? = some a2 →
        ∃ e b, a.outcome.err = some e ∧ IsRetryableError e = true ∧
          c.sb.SearchRetryBehavior = some b ∧ b.CanRetry (retries + i + 1) = true ∧
          a2.sentAt = a.outcome.now + (b.NextInterval (retries + i + 1)).toNat) ∧
      (res.err = none ∨ c.sb.SearchRetryBehavior = none ∨
        (∃ e, res.err = some e ∧ IsRetryableError e = false) ∨
        (∃ b, c.sb.SearchRetryBehavior = some b ∧ b.CanRetry (retries + news.length) = false)) := by
  induction fuel generalizing retries now made with
  | zero => simp [searchQuery.loop] at h
  | succ fuel ih =>
    rw [searchQuery.loop] at h
    generalize hres0 : executeSearchQuery env now p.ctx p.queryData qIndexName provider
      (some p.cancel) (some p.Serializer) = res0 at h
    cases herr : res0.err with
    | none =>
      simp only [herr, Option.some.injEq, Prod.mk.injEq] at h
      obtain ⟨h1, h2⟩ := h
      subst h1 h2
      exact ⟨[{ sentAt := now, outcome := res0 }], rfl, by simp, by simp, rfl,
        by intro a ha; simp only [List.mem_singleton] at ha; subst ha; exact hres0.symm,
        rfl, by intro i a a2 h1 h2; simp at h2, Or.inl herr⟩
    | some e =>
      simp only [herr] at h
      cases hb : c.sb.SearchRetryBehavior with
      | none =>
        simp only [hb, Option.some.injEq, Prod.mk.injEq] at h
        obtain ⟨h1, h2⟩ := h
        subst h1 h2
        exact ⟨[{ sentAt := now, outcome := res0 }], rfl, by simp, by simp, rfl,
          by intro a ha; simp only [List.mem_singleton] at ha; subst ha; exact hres0.symm,
          rfl, by intro i a a2 h1 h2; simp at h2, Or.inr (Or.inl rfl)⟩
      | some b =>
        simp only [hb] at h
        split_ifs at h with hc
        · simp only [Option.some.injEq, Prod.mk.injEq] at h
          obtain ⟨h1, h2⟩ := h
          subst h1 h2
          refine ⟨[{ sentAt := now, outcome := res0 }], rfl, by simp, by simp, rfl,
            by intro a ha; simp only [List.mem_singleton] at ha; subst ha; exact hres0.symm,
            rfl, by intro i a a2 h1 h2; simp at h2, ?_⟩
          rcases hc with hc | hc
          · exact Or.inr (Or.inr (Or.inl ⟨e, herr, hc⟩))
          · exact Or.inr (Or.inr (Or.inr ⟨b, rfl, by simpa using hc⟩))
        · obtain ⟨news, h1, h2, h3, h4, h5, h6, h7, h8⟩ := ih _ _ _ h
          have hc1 : IsRetryableError e = true := by
            by_contra hx
            exact hc (Or.inl (by simpa using hx))
          have hc2 : b.CanRetry (retries + 1) = true := by
            by_contra hx
            exact hc (Or.inr (by simpa using hx))
          refine ⟨{ sentAt := now, outcome := res0 } :: news, by simp [h1], by simp,
            by simp; omega, rfl, ?_, ?_, ?_, ?_⟩
          · intro a ha
            rcases List.mem_cons.1 ha with ha | ha
            · subst ha; exact hres0.symm
            · exact h5 a ha
          · cases news with
            | nil => simp at h2
            | cons x xs => simpa using h6
          · intro i a a2 hi hi2
            cases i with
            | zero =>
              simp only [List.getElem?_cons_zero, Option.some.injEq] at hi
              subst hi
              simp only [zero_add, List.getElem?_cons_succ] at hi2
              refine ⟨e, b, herr, hc1, rfl, hc2, ?_⟩
              cases news with
              | nil => simp at hi2
              | cons x xs =>
                simp only [List.getElem?_cons_zero, Option.some.injEq] at hi2
                subst hi2
                simp only [List.head?_cons, Option.map_some', Option.some.injEq] at h4
                exact h4
            | succ i =>
              simp only [List.getElem?_cons_succ] at hi hi2
              obtain ⟨e2, b2, g1, g2, g3, g4, g5⟩ := h7 i a a2 hi hi2
              have e1 : retries + 1 + i + 1 = retries + (i + 1) + 1 := by omega
              rw [e1] at g4 g5
              exact ⟨e2, b2, g1, g2, hb.symm.trans g3, g4, g5⟩
          · rcases h8 with h8 | h8 | h8 | ⟨b2, g1, g2⟩
            · exact Or.inl h8
            · exact Or.inr (Or.inl (hb.symm.trans h8))
            · exact Or.inr (Or.inr (Or.inl h8))
            · refine Or.inr (Or.inr (Or.inr ⟨b2, hb.symm.trans g1, ?_⟩))
              have e1 : retries + 1 + news.length = retries + (news.length + 1) := by omega
              rw [e1] at g2
              simpa using g2

/-- The members of an object are read back from its tokens. -/
theorem objectMembers_memberTokens (ms : List (String × Raw)) (hv : ∀ kv ∈ ms, IsValue kv.2)
    (fuel : Nat) (hfuel : ms.length + 1 ≤ fuel) :
    objectMembers fuel (memberTokens ms ++ [.delim .rbrace]) = some ms := by
  induction ms generalizing fuel with
  | nil =>
    obtain ⟨n, rfl⟩ : ∃ n, fuel = n + 1 := ⟨fuel - 1, by simp at hfuel; omega⟩
    simp [memberTokens, objectMembers]
  | cons kv ms ih =>
    obtain ⟨k, v⟩ := kv
    obtain ⟨n, rfl⟩ : ∃ n, fuel = n + 1 := ⟨fuel - 1, by simp at hfuel; omega⟩
    have hvv : IsValue v := hv (k, v) (by simp)
    have hrest := ih (fun kv hkv => hv kv (List.mem_cons_of_mem _ hkv)) n
      (by simp at hfuel; omega)
    have hsc := hvv.scan (memberTokens ms ++ [.delim .rbrace])
    simp only [memberTokens, List.cons_append, objectMembers]
    have e : (List.append v (memberTokens ms)).append [JsonToken.delim Delim.rbrace] =
        v ++ (memberTokens ms ++ [.delim .rbrace]) := by
      show (v ++ memberTokens ms) ++ [JsonToken.delim Delim.rbrace] = _
      rw [List.append_assoc]
    rw [e, hsc]
    simp only [hrest]

/-- What `encoding/json` stores into an `interface{}` for a JSON object: the
map of its members. -/
theorem decodeIface_object (ms : List (String × Raw)) (hv : ∀ kv ∈ ms, IsValue kv.2) :
    decodeIface (objectTokens ms) = .map (mapOfMembers ms) := by
  have hm := objectMembers_memberTokens ms hv (objectTokens ms).length
    (by have := memberTokens_length ms; simp [objectTokens]; omega)
  cases ms with
  | nil => simp [objectTokens, memberTokens, decodeIface, objectMembers, mapOfMembers]
  | cons kv ms =>
    obtain ⟨k, v⟩ := kv
    unfold decodeIface
    simp only [objectTokens, memberTokens, List.cons_append] at hm ⊢
    rw [hm]

/-- Unmarshalling a JSON object into an empty delayed object gives the map of
its members. -/
theorem unmarshalDelayedObject_object (ms : List (String × Raw))
    (hv : ∀ kv ∈ ms, IsValue kv.2) :
    unmarshalDelayedObject (objectTokens ms) [] = .ok (mapOfMembers ms) := by
  have hm := objectMembers_memberTokens ms hv (objectTokens ms).length
    (by have := memberTokens_length ms; simp [objectTokens]; omega)
  cases ms with
  | nil => simp [objectTokens, memberTokens, unmarshalDelayedObject, objectMembers, mapOfMembers]
  | cons kv ms =>
    obtain ⟨k, v⟩ := kv
    unfold unmarshalDelayedObject
    simp only [objectTokens, memberTokens, List.cons_append] at hm ⊢
    rw [hm]
    rfl

/-- Completing a value inside a container that is itself inside others. -/
theorem afterValue_append (st outer : List Frame) (h : st ≠ []) :
    afterValue (st ++ outer) = afterValue st ++ outer := by
  cases st with
  | nil => exact absurd rfl h
  | cons f st => cases f <;> rfl

/-- Prefixing a token commutes with prefixing the tokens consumed before. -/
theorem consTok_map (t : JsonToken) (c0 : Raw) (o : Option (Raw × List JsonToken)) :
    consTok t (o.map (fun p => (c0 ++ p.1, p.2))) = o.map (fun p => (t :: c0 ++ p.1, p.2)) := by
  cases o with
  | none => rfl
  | some p => rfl

/-- Scanning a container that stands inside other open containers: once it is
closed, the scan goes on in the enclosing container. -/
theorem scanOpen_nest (outer : List Frame) (houter : outer ≠ []) (ts : List JsonToken)
    (inner : List Frame) :
    ∀ c r, scanOpen inner ts = some (c, r) →
      scanOpen (inner ++ outer) ts =
        (scanOpen (afterValue outer) r).map (fun p => (c ++ p.1, p.2)) := by
  induction ts generalizing inner with
  | nil => intro c r h; cases inner <;> simp [scanOpen] at h
  | cons t ts ih =>
    have step : ∀ (st1 : List Frame) (c : Raw) (r : List JsonToken),
        consTok t (scanOpen st1 ts) = some (c, r) →
        consTok t (scanOpen (st1 ++ outer) ts) =
          (scanOpen (afterValue outer) r).map (fun p => (c ++ p.1, p.2)) := by
      intro st1 c r h
      obtain ⟨c0, h1, h2⟩ := consTok_some h
      rw [ih st1 c0 r h1, consTok_map, h2]
    have last : ∀ (c : Raw) (r : List JsonToken), some ([t], ts) = some (c, r) →
        consTok t (scanOpen (afterValue outer) ts) =
          (scanOpen (afterValue outer) r).map (fun p => (c ++ p.1, p.2)) := by
      intro c r h
      simp only [Option.some.injEq, Prod.mk.injEq] at h
      obtain ⟨h1, h2⟩ := h
      subst h1; subst h2
      cases scanOpen (afterValue outer) ts with
      | none => rfl
      | some p => rfl
    obtain ⟨fo, outer1, rfl⟩ : ∃ fo outer1, outer = fo :: outer1 := by
      cases outer with
      | nil => exact absurd rfl houter
      | cons fo outer1 => exact ⟨fo, outer1, rfl⟩
    intro c r h
    cases inner with
    | nil => simp [scanOpen] at h
    | cons f st =>
      cases f with
      | arr =>
        simp only [List.cons_append, scanOpen] at h ⊢
        split at h
        · split_ifs at h with hst
          · subst hst
            simp only [List.append_eq, List.nil_append, List.cons_ne_nil, if_false]
            exact last c r h
          · have hne : st ++ fo :: outer1 ≠ [] := by simp
            simp only [List.append_eq, hne, if_false]
            rw [afterValue_append st _ hst]
            exact step _ c r h
        · exact step (.arr :: .arr :: st) c r h
        · exact step (.objKey :: .arr :: st) c r h
        · simp at h
        · exact step (.arr :: st) c r h
      | objKey =>
        simp only [List.cons_append, scanOpen] at h ⊢
        split at h
        · exact step (.objVal :: st) c r h
        · split_ifs at h with hst
          · subst hst
            simp only [List.append_eq, List.nil_append, List.cons_ne_nil, if_false]
            exact last c r h
          · have hne : st ++ fo :: outer1 ≠ [] := by simp
            simp only [List.append_eq, hne, if_false]
            rw [afterValue_append st _ hst]
            exact step _ c r h
        · simp at h
      | objVal =>
        simp only [List.cons_append, scanOpen] at h ⊢
        split at h
        · exact step (.arr :: .objVal :: st) c r h
        · exact step (.objKey :: .objVal :: st) c r h
        · simp at h
        · exact step (.objKey :: st) c r h

/-- Scanning a value in the value position of an object: the scan goes on at
the next key. -/
theorem scanOpen_objVal (v : Raw) (hv : IsValue v) (st : List Frame) (tail : List JsonToken) :
    scanOpen (.objVal :: st) (v ++ tail) =
      (scanOpen (.objKey :: st) tail).map (fun p => (v ++ p.1, p.2)) := by
  unfold IsValue at hv
  cases v with
  | nil => simp [scanValue] at hv
  | cons t ts =>
    have nested : ∀ (f : Frame), consTok t (scanOpen [f] ts) = some (t :: ts, []) →
        consTok t (scanOpen (f :: .objVal :: st) (ts ++ tail)) =
          (scanOpen (.objKey :: st) tail).map (fun p => (t :: ts ++ p.1, p.2)) := by
      intro f h
      obtain ⟨c0, h1, h2⟩ := consTok_some h
      have hc : c0 = ts := by simpa using h2.symm
      subst hc
      have h3 := scanOpen_append tail c0 [f] c0 [] h1
      have h4 := scanOpen_nest (.objVal :: st) (by simp) (c0 ++ tail) [f] c0 ([] ++ tail) h3
      simp only [List.nil_append, List.singleton_append, afterValue] at h4
      rw [h4, consTok_map]
    simp only [scanValue] at hv
    split at hv
    · simp only [List.cons_append, scanOpen]
      exact nested .arr hv
    · simp only [List.cons_append, scanOpen]
      exact nested .objKey hv
    · simp at hv
    · rename_i hn1 hn2 hn3
      simp only [Option.some.injEq, Prod.mk.injEq, List.cons.injEq, true_and] at hv
      obtain ⟨h1, -⟩ := hv
      subst h1
      simp only [List.cons_append, List.nil_append]
      have : scanOpen (.objVal :: st) (t :: tail) = consTok t (scanOpen (.objKey :: st) tail) := by
        cases t with
        | delim d => exact absurd rfl (hn3 d)
        | str s => rfl
        | num n => rfl
        | bool b => rfl
        | null => rfl
      rw [this]
      cases scanOpen (.objKey :: st) tail with
      | none => rfl
      | some p => rfl

/-- Scanning the members of an object up to its closing brace. -/
theorem scanOpen_memberTokens (ms : List (String × Raw)) (hv : ∀ kv ∈ ms, IsValue kv.2) :
    scanOpen [.objKey] (memberTokens ms ++ [.delim .rbrace]) =
      some (memberTokens ms ++ [.delim .rbrace], []) := by
  induction ms with
  | nil => simp [memberTokens, scanOpen]
  | cons kv ms ih =>
    obtain ⟨k, v⟩ := kv
    have hvv : IsValue v := hv (k, v) (by simp)
    have hrest := ih (fun kv hkv => hv kv (List.mem_cons_of_mem _ hkv))
    have h1 := scanOpen_objVal v hvv [] (memberTokens ms ++ [.delim .rbrace])
    rw [hrest] at h1
    show scanOpen [.objKey] (.str k :: ((v ++ memberTokens ms) ++ [.delim .rbrace])) = _
    rw [List.append_assoc]
    simp only [scanOpen, h1, Option.map_some', consTok]
    simp [memberTokens]

/-- The tokens of an object whose members are JSON values are a JSON value. -/
theorem IsValue_objectTokens (ms : List (String × Raw)) (hv : ∀ kv ∈ ms, IsValue kv.2) :
    IsValue (objectTokens ms) := by
  unfold IsValue objectTokens
  simp only [scanValue, scanOpen_memberTokens ms hv, consTok]

/-- Storing the members of a status object one list after the other. -/
theorem unmarshalStatusFields_append (pre post : List (String × Raw)) (st : searchResponseStatus) :
    unmarshalStatusFields st (pre ++ post) =
      match unmarshalStatusFields st pre with
      | .ok st1 => unmarshalStatusFields st1 post
      | .error e => .error e := by
  induction pre generalizing st with
  | nil => rfl
  | cons kv pre ih =>
    simp only [List.cons_append, unmarshalStatusFields]
    cases unmarshalStatusField st kv with
    | error e => rfl
    | ok st1 => exact ih st1

/-- A member whose key is not "errors" leaves the errors of the status as they
were. -/
theorem unmarshalStatusField_errors (st st1 : searchResponseStatus) (kv : String × Raw)
    (hk : foldEq "errors" kv.1 = false) (h : unmarshalStatusField st kv = .ok st1) :
    st1.Errors = st.Errors := by
  unfold unmarshalStatusField at h
  split_ifs at h with h1 h2 h3 h4
  · split at h
    · cases h; rfl
    · cases h
  · split at h
    · cases h; rfl
    · cases h
  · split at h
    · cases h; rfl
    · cases h
  · rw [hk] at h4; cases h4
  · cases h; rfl

/-- Members none of whose keys is "errors" leave the errors of the status as
they were. -/
theorem unmarshalStatusFields_errors (ms : List (String × Raw)) (st st1 : searchResponseStatus)
    (hk : ∀ kv ∈ ms, foldEq "errors" kv.1 = false) (h : unmarshalStatusFields st ms = .ok st1) :
    st1.Errors = st.Errors := by
  induction ms generalizing st with
  | nil =>
    simp only [unmarshalStatusFields, Except.ok.injEq] at h
    rw [h]
  | cons kv ms ih =>
    simp only [unmarshalStatusFields] at h
    cases hf : unmarshalStatusField st kv with
    | error e => rw [hf] at h; cases h
    | ok st2 =>
      rw [hf] at h
      rw [ih st2 (fun kv hkv => hk kv (List.mem_cons_of_mem _ hkv)) h]
      exact unmarshalStatusField_errors st st2 kv (hk kv (by simp)) hf

/-- The loop over a map of status errors all of whose values are strings. -/
theorem statusErrorsOfMap_strings (l : List (String × Raw))
    (h : ∀ kv ∈ l, ∃ s, kv.2 = [.str s]) :
    ∃ msgs, statusErrorsOfMap l = some msgs ∧ msgs.length = l.length ∧
      ∀ msg, msg ∈ msgs ↔ ∃ k s, (k, [JsonToken.str s]) ∈ l ∧ msg = k ++ "-" ++ s := by
  induction l with
  | nil => exact ⟨[], rfl, rfl, by simp⟩
  | cons kv l ih =>
    obtain ⟨k, v⟩ := kv
    obtain ⟨s, hs⟩ := h (k, v) (by simp)
    simp only at hs
    subst hs
    obtain ⟨msgs, h1, h2, h3⟩ := ih (fun kv hkv => h kv (List.mem_cons_of_mem _ hkv))
    refine ⟨(k ++ "-" ++ s) :: msgs, by simp [statusErrorsOfMap, h1], by simp [h2], ?_⟩
    intro msg
    simp only [List.mem_cons, h3, Prod.mk.injEq, List.cons.injEq, JsonToken.str.injEq, and_true]
    constructor
    · rintro (h | ⟨k1, s1, h4, h5⟩)
      · exact ⟨k, s, Or.inl ⟨rfl, rfl⟩, h⟩
      · exact ⟨k1, s1, Or.inr h4, h5⟩
    · rintro ⟨k1, s1, (⟨h4, h5⟩ | h4), h6⟩
      · subst h4 h5; exact Or.inl h6
      · exact Or.inr ⟨k1, s1, h4, h6⟩

/-- The loop over a map of status errors one of whose values is not a string. -/
theorem statusErrorsOfMap_other (l : List (String × Raw))
    (h : ∃ kv ∈ l, ∀ s, kv.2 ≠ [.str s]) : statusErrorsOfMap l = none := by
  induction l with
  | nil => simp at h
  | cons kv l ih =>
    obtain ⟨k, v⟩ := kv
    obtain ⟨kv1, hm, hn⟩ := h
    rcases List.mem_cons.1 hm with hm | hm
    · subst hm
      simp only at hn
      simp only [statusErrorsOfMap]
    · have := ih ⟨kv1, hm, hn⟩
      simp only [statusErrorsOfMap]
      split
      · rw [this]
      · rfl

/-- What `readAttribute` does on "status" for a result with HTTP status 200 once
the status has been decoded: the counts are stored, and the errors decide the
rest. -/
theorem readAttribute_status (env : Env) (r : SearchResult) (decoder dec : List JsonToken)
    (status : searchResponseStatus) (h200 : r.httpStatus = 200)
    (hdec : Decoder.Decode unmarshalStatus decoder
      (searchResponseStatus.mk 0 0 0 Iface.nil) = .ok (status, dec)) :
    (r.readAttribute env decoder (.str "status")).1.metadata.status =
      SearchStatus.mk status.Total status.Failed status.Successful ∧
    (r.readAttribute env decoder (.str "status")).2.1 = dec ∧
    (r.readAttribute env decoder (.str "status")).2.2.1 = false ∧
    (status.Errors = .nil →
      (r.readAttribute env decoder (.str "status")).1.err = r.err ∧
      (r.readAttribute env decoder (.str "status")).2.2.2 = none) ∧
    (∀ m, status.Errors = .map m →
      (statusErrorsOfMap (env.rangeOrder m) = none →
        (r.readAttribute env decoder (.str "status")).1.err = r.err ∧
        (r.readAttribute env decoder (.str "status")).2.2.2 =
          some (.clientError "could not parse errors")) ∧
      (statusErrorsOfMap (env.rangeOrder m) = some [] →
        (r.readAttribute env decoder (.str "status")).1.err = r.err ∧
        (r.readAttribute env decoder (.str "status")).2.2.2 = none) ∧
      (∀ msgs, statusErrorsOfMap (env.rangeOrder m) = some msgs → msgs ≠ [] →
        (r.readAttribute env decoder (.str "status")).1.err =
          some (.searchMultiError (msgs.map searchError.mk) r.metadata.sourceAddr
            r.httpStatus) ∧
        (r.readAttribute env decoder (.str "status")).2.2.2 = none)) := by
  have hd : Decoder.Decode unmarshalStatus decoder
      { Total := 0, Failed := 0, Successful := 0, Errors := .nil } = .ok (status, dec) := hdec
  unfold SearchResult.readAttribute
  simp only [if_true, h200, ne_eq, not_true_eq_false, if_false, hd]
  refine ⟨?_, ?_, ?_, ?_, ?_⟩
  · cases hE : status.Errors with
    | map m =>
      simp only
      cases statusErrorsOfMap (env.rangeOrder m) with
      | none => rfl
      | some l => simp only; split_ifs <;> rfl
    | stringSlice l => simp only; split_ifs <;> rfl
    | _ => rfl
  · cases hE : status.Errors with
    | map m =>
      simp only
      cases statusErrorsOfMap (env.rangeOrder m) with
      | none => rfl
      | some l => simp only; split_ifs <;> rfl
    | stringSlice l => simp only; split_ifs <;> rfl
    | _ => rfl
  · cases hE : status.Errors with
    | map m =>
      simp only
      cases statusErrorsOfMap (env.rangeOrder m) with
      | none => rfl
      | some l => simp only; split_ifs <;> rfl
    | stringSlice l => simp only; split_ifs <;> rfl
    | _ => rfl
  · intro hE
    simp [hE]
  · intro m hE
    simp only [hE]
    refine ⟨?_, ?_, ?_⟩
    · intro h; simp [h]
    · intro h; simp [h]
    · intro msgs h hne
      have hl : msgs.length > 0 := List.length_pos.2 hne
      simp [h, hl]

/-- What `searchQuery` has built when it gets as far as sending. -/
theorem searchQuery.prepare_ready (c : Cluster) (created built : Nat) (ctx : Context)
    (q : SearchQuery) (opts : SearchOptions) (p : Prepared)
    (hprep : searchQuery.prepare c created built ctx q opts = .ready p) :
    ∃ qd ctl0 payload ctlRaw,
      opts.toOptionsData = .ok qd ∧ searchQuery.ctlData qd = .ok ctl0 ∧
      searchQuery.timeout c ctl0 = .ok p.timeout ∧
      q.toSearchQueryData = .ok (.ok payload) ∧
      p.ctx = ctx.WithTimeout created (wrapInt64 (p.timeout * Millisecond)) ∧
      p.opTimeout = p.ctx.deadline.getD 0 - built ∧
      p.ctlData = mapSet ctl0 "timeout" [.num (.int (p.opTimeout.tdiv Millisecond))] ∧
      jsonMarshal p.ctlData = .ok ctlRaw ∧
      p.queryData = mapSet (mapSet qd "ctl" ctlRaw) "query" payload ∧
      p.cancel = { calls := 0 } ∧
      p.Serializer = opts.Serializer.getD .DefaultJSONSerializer := by
  unfold searchQuery.prepare at hprep
  cases ho : opts.toOptionsData with
  | error e => simp [ho] at hprep
  | ok queryData =>
    cases hc : searchQuery.ctlData queryData with
    | error e => simp [ho, hc] at hprep
    | ok ctlData =>
      cases ht : searchQuery.timeout c ctlData with
      | error e => simp [ho, hc, ht] at hprep
      | ok timeout =>
        simp only [ho, hc, ht, DelayedObject.Set, jsonMillisecondDuration.MarshalJSON] at hprep
        cases hm : jsonMarshal (mapSet ctlData "timeout"
            [.num (.int (((ctx.WithTimeout created (wrapInt64 (timeout * Millisecond))).deadline.getD 0
              - (built : Int)).tdiv Millisecond))]) with
        | error e => simp [hm] at hprep
        | ok ctlRaw =>
          simp only [hm] at hprep
          cases hq : q.toSearchQueryData with
          | error e => simp [hq] at hprep
          | ok dq =>
            cases dq with
            | error e => simp [hq] at hprep
            | ok payload =>
              simp only [hq, PrepareOutcome.ready.injEq] at hprep
              subst hprep
              exact ⟨queryData, ctlData, payload, ctlRaw, rfl, hc, ht, rfl, rfl, rfl, rfl, hm,
                rfl, rfl, rfl⟩

/-- What `searchQuery` returns once it has got as far as sending: the outcome
of the retry loop, the error of its last attempt and, when that is nil, its
result; the cancel function has been invoked exactly when the error is not
nil. -/
theorem searchQuery_ready (env : Env) (c : Cluster) (IsRetryableError : GoError → Bool)
    (created built fuel : Nat) (ctx : Context) (qIndexName : String) (q : SearchQuery)
    (opts : SearchOptions) (provider : httpProvider) (p : Prepared) (out : SearchOutcome)
    (hprep : searchQuery.prepare c created built ctx q opts = .ready p)
    (h : searchQuery env c IsRetryableError created built fuel ctx qIndexName q opts provider =
      some out) :
    ∃ res, searchQuery.loop env c IsRetryableError p qIndexName provider fuel 0 built [] =
        some (res, out.attempts) ∧
      out.prepared = some p ∧ out.err = res.err ∧
      (res.err = none → out.result = res.result ∧ out.cancel = some p.cancel) ∧
      (res.err ≠ none → out.result = none ∧ out.cancel = some p.cancel.invoke) := by
  unfold searchQuery at h
  simp only [hprep] at h
  cases hl : searchQuery.loop env c IsRetryableError p qIndexName provider fuel 0 built [] with
  | none => simp [hl] at h
  | some rm =>
    obtain ⟨res, made⟩ := rm
    simp only [hl] at h
    cases he : res.err with
    | none =>
      simp only [he, Option.some.injEq] at h
      subst h
      exact ⟨res, rfl, rfl, he.symm, fun _ => ⟨rfl, rfl⟩, fun hx => absurd he hx⟩
    | some e =>
      simp only [he, Option.some.injEq] at h
      subst h
      refine ⟨res, rfl, rfl, he.symm, ?_, fun _ => ⟨rfl, rfl⟩⟩
      intro hx
      rw [he] at hx
      cases hx

/-- The retry loop ends within M attempts when the behaviour allows no retry
from M on. -/
theorem searchQuery.loop_terminates (env : Env) (c : Cluster)
    (IsRetryableError : GoError → Bool) (p : Prepared) (qIndexName : String)
    (provider : httpProvider) (b : RetryBehavior) (M : Nat)
    (hb : c.sb.SearchRetryBehavior = some b) (hM : ∀ n, M ≤ n → b.CanRetry n = false)
    (fuel retries now : Nat) (made : List Attempt) (hfuel : 1 ≤ fuel)
    (hle : M ≤ retries + fuel) :
    ∃ res made1, searchQuery.loop env c IsRetryableError p qIndexName provider fuel retries now
      made = some (res, made1) := by
  induction fuel generalizing retries now made with
  | zero => omega
  | succ fuel ih =>
    rw [searchQuery.loop]
    simp only [hb]
    split
    · exact ⟨_, _, rfl⟩
    · split_ifs with hc
      · exact ⟨_, _, rfl⟩
      · have hc2 : b.CanRetry (retries + 1) = true := by
          by_contra hx
          exact hc (Or.inr (by simpa using hx))
        have hlt : retries + 1 < M := by
          by_contra hx
          rw [hM (retries + 1) (by omega)] at hc2
          cases hc2
        exact ih _ _ _ (by omega) (by omega)

/-- A nil result goes with every error `executeSearchQuery` returns. -/
theorem executeSearchQuery_err (env : Env) (now : Nat) (ctx : Context) (query : DelayedObject)
    (qIndexName : String) (provider : httpProvider) (cancel : Option CancelFunc)
    (serializer : Option JSONSerializer)
    (herr : (executeSearchQuery env now ctx query qIndexName provider cancel serializer).err ≠
      none) :
    (executeSearchQuery env now ctx query qIndexName provider cancel serializer).result = none := by
  generalize hout : executeSearchQuery env now ctx query qIndexName provider cancel serializer = out
    at herr ⊢
  unfold executeSearchQuery at hout
  split at hout
  · subst hout; rfl
  · split at hout
    · split_ifs at hout <;> (subst hout; rfl)
    · rename_i resp now1 _
      unfold executeSearchQuery.respond at hout
      simp only [] at hout
      split_ifs at hout with h400 h401 h200
      · split at hout <;> (subst hout; rfl)
      · subst hout; rfl
      · subst hout; rfl
      · unfold executeSearchQuery.success at hout
        simp only [newStreamingResults] at hout
        split at hout
        · subst hout; rfl
        · split_ifs at hout with h1 h2
          · subst hout; simp at herr
          · subst hout; rfl
          · subst hout; simp at herr

/-- The request `executeSearchQuery` sends: when the request data marshal, the
outcome depends on the provider only through its answer to that request at the
instant of the call. -/
theorem executeSearchQuery_request (env : Env) (now : Nat) (ctx : Context)
    (query : DelayedObject) (qIndexName : String) (provider provider2 : httpProvider)
    (cancel : Option CancelFunc) (serializer : Option JSONSerializer) (qBytes : Raw)
    (hq : jsonMarshal query = .ok qBytes)
    (hp : provider2.DoHttpRequest (executeSearchQuery.request ctx qIndexName qBytes) now =
      provider.DoHttpRequest (executeSearchQuery.request ctx qIndexName qBytes) now) :
    executeSearchQuery env now ctx query qIndexName provider2 cancel serializer =
      executeSearchQuery env now ctx query qIndexName provider cancel serializer := by
  unfold executeSearchQuery
  unfold executeSearchQuery.request at hp
  simp only [hq, hp]

/-- What `json.Marshal` gives for a delayed object, when it succeeds. -/
theorem jsonMarshal_ok (query : DelayedObject) (qBytes : Raw)
    (h : jsonMarshal query = .ok qBytes) : qBytes = objectTokens (sortMembers query) := by
  unfold jsonMarshal at h
  split_ifs at h
  simp only [Except.ok.injEq] at h
  rw [← h]

/-- C29: `executeSearchQuery` and `searchQuery` return exactly one of a result
and an error: the result is nil whenever the error is not nil, and whenever the
error is nil the result is not nil and its streaming result is set. -/
theorem result_xor_error (env : Env) :
    (∀ (now : Nat) (ctx : Context) (query : DelayedObject) (qIndexName : String)
        (provider : httpProvider) (cancel : Option CancelFunc)
        (serializer : Option JSONSerializer),
      ((executeSearchQuery env now ctx query qIndexName provider cancel serializer).err ≠ none →
        (executeSearchQuery env now ctx query qIndexName provider cancel serializer).result =
          none) ∧
      ((executeSearchQuery env now ctx query qIndexName provider cancel serializer).err = none →
        ∃ r sr,
          (executeSearchQuery env now ctx query qIndexName provider cancel serializer).result =
            some r ∧ r.streamResult = some sr)) ∧
    (∀ (c : Cluster) (IsRetryableError : GoError → Bool) (created built fuel : Nat)
        (ctx : Context) (qIndexName : String) (q : SearchQuery) (opts : SearchOptions)
        (provider : httpProvider) (out : SearchOutcome),
      searchQuery env c IsRetryableError created built fuel ctx qIndexName q opts provider =
        some out →
      (out.err ≠ none → out.result = none) ∧
      (out.err = none → ∃ r sr, out.result = some r ∧ r.streamResult = some sr)) := by
  refine ⟨?_, ?_⟩
  · intro now ctx query qIndexName provider cancel serializer
    refine ⟨executeSearchQuery_err env now ctx query qIndexName provider cancel serializer, ?_⟩
    intro he
    obtain ⟨r, sr, h1, h2, -⟩ := executeSearchQuery_ok env now ctx query qIndexName provider
      cancel serializer he
    exact ⟨r, sr, h1, h2⟩
  · intro c IsRetryableError created built fuel ctx qIndexName q opts provider out h
    cases hprep : searchQuery.prepare c created built ctx q opts with
    | failed err cancel =>
      unfold searchQuery at h
      simp only [hprep, Option.some.injEq] at h
      subst h
      exact ⟨fun _ => rfl, fun hx => by simp at hx⟩
    | ready p =>
      obtain ⟨res, hl, -, herr, hok, hko⟩ := searchQuery_ready env c IsRetryableError created
        built fuel ctx qIndexName q opts provider p out hprep h
      obtain ⟨news, h1, h2, h3, h4, h5, h6, h7, h8⟩ := searchQuery.loop_trace env c
        IsRetryableError p qIndexName provider fuel 0 built [] res out.attempts hl
      simp only [List.nil_append] at h1
      subst h1
      refine ⟨fun hx => (hko (by rw [← herr]; exact hx)).1, ?_⟩
      intro he
      rw [herr] at he
      obtain ⟨g1, -⟩ := hok he
      cases hlast : out.attempts.getLast? with
      | none => rw [hlast] at h6; cases h6
      | some last =>
        rw [hlast] at h6
        simp only [Option.map_some', Option.some.injEq] at h6
        have hx := h5 last (List.mem_of_getLast?_eq_some hlast)
        rw [h6] at hx
        have he2 := he
        rw [hx] at he2
        obtain ⟨r0, sr, hr, hs, -⟩ := executeSearchQuery_ok env last.sentAt p.ctx p.queryData
          qIndexName provider (some p.cancel) (some p.Serializer) he2
        exact ⟨r0, sr, by rw [g1, hx, hr], hs⟩

/-- Witness of C29: a response with status 401 gives an error and a nil
result, from `executeSearchQuery` and from `searchQuery`. -/
theorem result_xor_error_witness :
    ((executeSearchQuery sampleEnv 0 sampleCtx [] "idx"
        (sampleProvider 401 (sampleBody [] "unauthorized" none)) none none).err ≠ none ∧
      (executeSearchQuery sampleEnv 0 sampleCtx [] "idx"
        (sampleProvider 401 (sampleBody [] "unauthorized" none)) none none).result = none) ∧
    ∃ out, sampleSearch (sampleProvider 401 (sampleBody [] "unauthorized" none)) = some out ∧
      out.err ≠ none ∧ out.result = none := by
  refine ⟨⟨by decide,
    ((result_xor_error sampleEnv).1 0 sampleCtx [] "idx"
      (sampleProvider 401 (sampleBody [] "unauthorized" none)) none none).1 (by decide)⟩, ?_⟩
  have e : (sampleSearch (sampleProvider 401 (sampleBody [] "unauthorized" none))).map
      (fun o => o.err.isSome) = some true := by decide
  cases h : sampleSearch (sampleProvider 401 (sampleBody [] "unauthorized" none)) with
  | none => rw [h] at e; cases e
  | some out =>
    rw [h] at e
    simp only [Option.map_some', Option.some.injEq] at e
    have herr : out.err ≠ none := by
      intro hx
      rw [hx] at e
      cases e
    exact ⟨out, rfl, herr,
      ((result_xor_error sampleEnv).2 sampleCluster sampleNotRetryable 0 500000 1 sampleCallerCtx
        "idx" sampleQuery sampleOptions (sampleProvider 401 (sampleBody [] "unauthorized" none))
        out h).1 herr⟩

/-- C22 (counterexample): with a retry behaviour that allows one retry 1 ms
after a failure, a caller deadline of 200 ms and a "ctl" timeout of 2 ms, the
operation deadline is the instant 2 ms; the first attempt is sent at 0.5 ms and
the retry at 1.6 ms, when 0.4 ms remain (0 whole milliseconds), yet the body of
both requests, echoed by the provider with its keys in sorted order, carries
the "ctl" timeout 1 that was computed before the first attempt. -/
theorem retry_reuses_first_timeout :
    (searchQuery sampleEnv sampleRetryCluster sampleRetryAll 0 500000 2 sampleCallerCtx "idx"
        sampleQuery sampleOptions sampleEchoProvider).map
      (fun out => (out.prepared.map (fun p => p.ctx.deadline),
        out.attempts.map (fun a => (a.sentAt, a.outcome.body.map (fun b => b.tokens))))) =
      some (some (some 2000000),
        [(500000, some [.delim .lbrace, .str "ctl", .delim .lbrace, .str "timeout",
            .num (.int 1), .delim .rbrace, .str "query", .delim .lbrace, .str "match",
            .str "beer", .delim .rbrace, .str "size", .num (.int 10), .delim .rbrace]),
         (1600000, some [.delim .lbrace, .str "ctl", .delim .lbrace, .str "timeout",
            .num (.int 1), .delim .rbrace, .str "query", .delim .lbrace, .str "match",
            .str "beer", .delim .rbrace, .str "size", .num (.int 10), .delim .rbrace])]) ∧
    ((2000000 : Int) - 1600000) / Millisecond = 0 := by
  decide

/-- C22 (amended): when `searchQuery` gets as far as sending, the request data
marshal and the call returns, every attempt, retries included, sends the same
request under the same operation context: its body is the request data built
before the first attempt, written with sorted keys, whose "ctl" timeout is the
time that remained until the shared deadline when the request was built, in
whole milliseconds. The
first attempt is sent at that instant; a retry is sent later with the value of
the first attempt. -/
theorem request_fixed_across_attempts (env : Env) (c : Cluster)
    (IsRetryableError : GoError → Bool) (created built fuel : Nat) (ctx : Context)
    (qIndexName : String) (q : SearchQuery) (opts : SearchOptions) (provider : httpProvider)
    (p : Prepared) (out : SearchOutcome) (qBytes : Raw)
    (hprep : searchQuery.prepare c created built ctx q opts = .ready p)
    (hq : jsonMarshal p.queryData = .ok qBytes)
    (h : searchQuery env c IsRetryableError created built fuel ctx qIndexName q opts provider =
      some out) :
    (∀ a ∈ out.attempts, ∀ provider2 : httpProvider,
      provider2.DoHttpRequest (executeSearchQuery.request p.ctx qIndexName qBytes) a.sentAt =
        provider.DoHttpRequest (executeSearchQuery.request p.ctx qIndexName qBytes) a.sentAt →
      executeSearchQuery env a.sentAt p.ctx p.queryData qIndexName provider2 (some p.cancel)
        (some p.Serializer) = a.outcome) ∧
    (executeSearchQuery.request p.ctx qIndexName qBytes).Body =
      objectTokens (sortMembers p.queryData) ∧
    p.queryData.lookup "ctl" = some (objectTokens (sortMembers p.ctlData)) ∧
    p.ctlData.lookup "timeout" = some [.num (.int (p.opTimeout.tdiv Millisecond))] ∧
    (∃ D : Int, p.ctx.deadline = some D ∧ p.opTimeout = D - built) ∧
    out.attempts.head?.map (fun a => a.sentAt) = some built := by
  obtain ⟨qd, ctl0, payload, ctlRaw, e1, e2, e3, e4, e5, e6, e7, e8, e9, -, -⟩ :=
    searchQuery.prepare_ready c created built ctx q opts p hprep
  obtain ⟨res, hl, -⟩ := searchQuery_ready env c IsRetryableError created built
    fuel ctx qIndexName q opts provider p out hprep h
  obtain ⟨news, h1, h2, h3, h4, h5, h6, h7, h8⟩ := searchQuery.loop_trace env c IsRetryableError
    p qIndexName provider fuel 0 built [] res out.attempts hl
  simp only [List.nil_append] at h1
  subst h1
  refine ⟨?_, ?_, ?_, ?_, ?_, h4⟩
  · intro a ha provider2 hp
    rw [h5 a ha]
    exact executeSearchQuery_request env a.sentAt p.ctx p.queryData qIndexName provider provider2
      (some p.cancel) (some p.Serializer) qBytes hq hp
  · exact jsonMarshal_ok p.queryData qBytes hq
  · rw [e9, lookup_mapSet, lookup_mapSet, jsonMarshal_ok p.ctlData ctlRaw e8]
    simp
  · rw [e7, lookup_mapSet]
    simp
  · have hD : ∃ D : Int, p.ctx.deadline = some D := by
      rw [e5]
      unfold Context.WithTimeout
      cases ctx.deadline <;> simp
    obtain ⟨D, hD⟩ := hD
    exact ⟨D, hD, by rw [e6, hD]; rfl⟩

/-- Witness of C22 (amended): the sample call with one retry against the
provider that echoes the request. -/
theorem request_fixed_across_attempts_witness :
    samplePrepared.queryData.lookup "ctl" =
      some (objectTokens (sortMembers samplePrepared.ctlData)) ∧
    samplePrepared.ctlData.lookup "timeout" =
      some [.num (.int (samplePrepared.opTimeout.tdiv Millisecond))] := by
  cases h : searchQuery sampleEnv sampleRetryCluster sampleRetryAll 0 500000 2 sampleCallerCtx
      "idx" sampleQuery sampleOptions sampleEchoProvider with
  | none => exact absurd h (by decide)
  | some out =>
    have g := request_fixed_across_attempts sampleEnv sampleRetryCluster sampleRetryAll 0 500000 2
      sampleCallerCtx "idx" sampleQuery sampleOptions sampleEchoProvider samplePrepared out
      (objectTokens (sortMembers samplePrepared.queryData)) (by decide) rfl h
    exact ⟨g.2.2.1, g.2.2.2.1⟩

/-- C27 (failing input): for the HTTP 200 response `{"total_hits":0}`, a success
without rows, `searchQuery` returns a result and a nil error without having
invoked the cancel function of the derived context, but the cancel function is
not attached to the result, and `Close` on the result does not invoke it. For
the response with rows the cancel function is attached, not yet invoked, and
`Close` invokes it once; and when `searchQuery` returns an error (status 401)
it has invoked the cancel function once. -/
theorem cancel_lost_without_rows :
    (sampleSearch (sampleProvider 200 (sampleBody sampleAbsentHitsTokens "" none))).map
        (fun out => (out.err, out.cancel.map (fun f => f.calls),
          out.result.map (fun r => r.cancel))) =
      some (none, some 0, some none) ∧
    (sampleSearch (sampleProvider 200 (sampleBody sampleAbsentHitsTokens "" none))).map
        (fun out => out.result.map (fun r => (r.Close 700000).map (fun x => x.1.cancel))) =
      some (some (some none)) ∧
    (sampleSearch (sampleProvider 200 (sampleBody sampleTokens "" none))).map
        (fun out => (out.err, out.cancel.map (fun f => f.calls),
          out.result.map (fun r => r.cancel))) =
      some (none, some 0, some (some { calls := 0 })) ∧
    (sampleSearch (sampleProvider 200 (sampleBody sampleTokens "" none))).map
        (fun out => out.result.map (fun r => (r.Close 700000).map (fun x => x.1.cancel))) =
      some (some (some (some { calls := 1 }))) ∧
    (sampleSearch (sampleProvider 401 (sampleBody [] "unauthorized" none))).map
        (fun out => (out.err.isSome, out.result, out.cancel.map (fun f => f.calls))) =
      some (true, none, some 1) := by
  refine ⟨by decide, by decide, by decide, by decide, by decide⟩

/-- C28 (failing input): with the cluster's search timeout of 75 seconds, a
caller's context without deadline and options without "ctl" timeout, the
derived context created at the instant 0 expires 75 000 000 seconds later
(the duration in nanoseconds multiplied by `time.Millisecond`) and the "ctl"
timeout sent is 75 000 000 000 ms; the supplied "ctl" timeout of 75 000 ms
gives the deadline 75 seconds and the "ctl" timeout 75 000. -/
theorem default_timeout_not_in_milliseconds :
    (searchQuery sampleEnv sampleCluster sampleNotRetryable 0 0 1 sampleBackground "idx"
        sampleQuery sampleDefaultOptions sampleFailingProvider).map
      (fun out => out.prepared.map
        (fun p => (p.timeout, p.ctx.deadline, p.ctlData.lookup "timeout"))) =
      some (some (75000000000, some (75000000000 * Millisecond),
        some [.num (.int 75000000000)])) ∧
    (searchQuery sampleEnv sampleCluster sampleNotRetryable 0 0 1 sampleBackground "idx"
        sampleQuery sampleSecondsOptions sampleFailingProvider).map
      (fun out => out.prepared.map
        (fun p => (p.timeout, p.ctx.deadline, p.ctlData.lookup "timeout"))) =
      some (some (75000, some 75000000000, some [.num (.int 75000)])) ∧
    sampleCluster.sb.SearchTimeout = 75000000000 ∧
    sampleCluster.sb.SearchTimeout / Millisecond = 75000 := by
  refine ⟨by decide, by decide, by decide, by decide⟩

/-- The `switch` of `Next` on an attribute it does not know, whose value holds
no number outside the range of a `float64`, skips the value and changes
neither the result nor the row target. -/
theorem SearchResult.NextSwitch_unknown (env : Env) (r : SearchResult) (k : String) (v : Raw)
    (row : SearchResultRow) (hk : k ∉ SearchResult.rowAttributes) (hv : IsValue v)
    (hfit : fitsInterface v = true) :
    SearchResult.NextSwitch env r (.str k) v row = .ok (r, [], row) := by
  simp only [SearchResult.rowAttributes, List.mem_cons, List.mem_singleton, not_or,
    List.not_mem_nil, or_false] at hk
  obtain ⟨h1, h2, h3, h4, h5, h6, h7⟩ := hk
  unfold SearchResult.NextSwitch
  simp only [JsonToken.str.injEq, h1, h2, h3, h4, h5, h6, h7, if_false,
    Decoder.Decode_value unmarshalIgnore v () hv, unmarshalIgnore, hfit, if_true]

/-- The member by member loop of `Next` does on a row what it does on the
attributes of the row that `Next` knows, when the values of the others hold no
number outside the range of a `float64`. -/
theorem SearchResult.rowMembers_filter (env : Env) (ms : List (String × Raw))
    (hv : ∀ kv ∈ ms, IsValue kv.2)
    (hfit : ∀ kv ∈ ms, kv.1 ∉ SearchResult.rowAttributes → fitsInterface kv.2 = true)
    (r : SearchResult) (row : SearchResultRow) :
    SearchResult.rowMembers env r ms row =
      SearchResult.rowMembers env r
        (ms.filter (fun kv => decide (kv.1 ∈ SearchResult.rowAttributes))) row := by
  induction ms generalizing r row with
  | nil => rfl
  | cons kv ms ih =>
    have hms : ∀ kv ∈ ms, IsValue kv.2 := fun kv hkv => hv kv (List.mem_cons_of_mem _ hkv)
    have hfs : ∀ kv ∈ ms, kv.1 ∉ SearchResult.rowAttributes → fitsInterface kv.2 = true :=
      fun kv hkv => hfit kv (List.mem_cons_of_mem _ hkv)
    by_cases hk : kv.1 ∈ SearchResult.rowAttributes
    · rw [List.filter_cons_of_pos (by simpa using hk)]
      simp only [SearchResult.rowMembers]
      cases hs : SearchResult.NextSwitch env r (.str kv.1) kv.2 row with
      | error p => rfl
      | ok p => exact ih hms hfs _ _
    · rw [List.filter_cons_of_neg (by simpa using hk)]
      simp only [SearchResult.rowMembers,
        SearchResult.NextSwitch_unknown env r kv.1 kv.2 row hk (hv kv (by simp))
          (hfit kv (by simp) hk)]
      exact ih hms hfs _ _

/-- The member by member loop of `Next` accepts a row each of whose known
attributes is well typed. -/
theorem SearchResult.rowMembers_typed (env : Env) (ms : List (String × Raw))
    (hv : ∀ kv ∈ ms, IsValue kv.2)
    (hfit : ∀ kv ∈ ms, kv.1 ∉ SearchResult.rowAttributes → fitsInterface kv.2 = true)
    (ht : ∀ kv ∈ ms, kv.1 ∈ SearchResult.rowAttributes →
      ((kv.1 = "index" ∨ kv.1 = "id") ∧ ∃ s, kv.2 = [.str s]) ∨
      (kv.1 = "score" ∧ ∃ n, kv.2 = [.num n] ∧ n.fitsFloat64 = true) ∨
      kv.1 = "fields" ∨
      (kv.1 = "explanation" ∧ ∀ old, ∃ x, env.unmarshalExplanation kv.2 old = .ok x) ∨
      (kv.1 = "locations" ∧ ∀ old, ∃ x, env.unmarshalLocations kv.2 old = .ok x) ∨
      (kv.1 = "fragments" ∧ ∀ old, ∃ x, env.unmarshalFragments kv.2 old = .ok x))
    (r : SearchResult) (row : SearchResultRow) :
    (SearchResult.rowMembers env r ms row).2.2 = true := by
  induction ms generalizing r row with
  | nil => rfl
  | cons kv ms ih =>
    have hms : ∀ kv ∈ ms, IsValue kv.2 := fun kv hkv => hv kv (List.mem_cons_of_mem _ hkv)
    have hfs : ∀ kv ∈ ms, kv.1 ∉ SearchResult.rowAttributes → fitsInterface kv.2 = true :=
      fun kv hkv => hfit kv (List.mem_cons_of_mem _ hkv)
    have hts := fun kv hkv => ht kv (List.mem_cons_of_mem _ hkv)
    have hvv : IsValue kv.2 := hv kv (by simp)
    have hok : ∃ r1 dec1 row1, SearchResult.NextSwitch env r (.str kv.1) kv.2 row =
        .ok (r1, dec1, row1) := by
      by_cases hk : kv.1 ∈ SearchResult.rowAttributes
      · rcases ht kv (by simp) hk with ⟨hkk, s, hs⟩ | ⟨hkk, n, hn, hf⟩ | hkk |
          ⟨hkk, hx⟩ | ⟨hkk, hx⟩ | ⟨hkk, hx⟩
        · rcases hkk with hkk | hkk
          · simp [SearchResult.NextSwitch, hkk, hs, Decoder.Decode, Decoder.DecodeRaw, scanValue,
              unmarshalString]
          · simp [SearchResult.NextSwitch, hkk, hs, Decoder.Decode, Decoder.DecodeRaw, scanValue,
              unmarshalString]
        · simp [SearchResult.NextSwitch, hkk, hn, Decoder.Decode, Decoder.DecodeRaw, scanValue,
            unmarshalFloat, hf]
        · simp [SearchResult.NextSwitch, hkk,
            Decoder.Decode_value unmarshalRawMessage kv.2 _ hvv, unmarshalRawMessage]
        · obtain ⟨x, hx⟩ := hx row.Explanation
          simp [SearchResult.NextSwitch, hkk,
            Decoder.Decode_value env.unmarshalExplanation kv.2 _ hvv, hx]
        · obtain ⟨x, hx⟩ := hx row.Locations
          simp [SearchResult.NextSwitch, hkk,
            Decoder.Decode_value env.unmarshalLocations kv.2 _ hvv, hx]
        · obtain ⟨x, hx⟩ := hx row.Fragments
          simp [SearchResult.NextSwitch, hkk,
            Decoder.Decode_value env.unmarshalFragments kv.2 _ hvv, hx]
      · exact ⟨r, [], row, SearchResult.NextSwitch_unknown env r kv.1 kv.2 row hk hvv
          (hfit kv (by simp) hk)⟩
    obtain ⟨r1, dec1, row1, hs⟩ := hok
    simp only [SearchResult.rowMembers, hs]
    exact ih hms hfs hts r1 row1

set_option maxRecDepth 8000 in
/-- C24 (counterexample): the rows `{"id":"a","score":2}` and
`{"id":"a","score":2,"x":1e400}` differ only in the attribute x, which `Next`
does not know; for the response whose only row is the first, `Next` returns
true, and for the response whose only row is the second it returns false
(having filled the id, and without recording an error), because decoding
1e400 into the throw-away `interface{}` fails. Likewise `readAttribute` on the
unknown top-level key x with the value 1e400 returns an error. -/
theorem unknown_attribute_out_of_range :
    sampleRowMembersHuge.filter (fun kv => decide (kv.1 ∈ SearchResult.rowAttributes)) =
      sampleRowMembers.filter (fun kv => decide (kv.1 ∈ SearchResult.rowAttributes)) ∧
    (sampleExec (sampleBody (sampleHitsTokens [objectTokens sampleRowMembers]) "" none)).result.bind
        (fun r => (r.Next sampleEnv SearchResultRow.zero).map
          (fun x => (x.2.2, x.2.1.ID, x.1.err))) =
      some (true, "a", none) ∧
    (sampleExec (sampleBody (sampleHitsTokens [objectTokens sampleRowMembersHuge]) "" none)).result.bind
        (fun r => (r.Next sampleEnv SearchResultRow.zero).map
          (fun x => (x.2.2, x.2.1.ID, x.1.err))) =
      some (false, "a", none) ∧
    (sampleResult.readAttribute sampleEnv [.num (.frac "1e400"), .delim .rbrace]
        (.str "x")).2.2 =
      (false, some (.jsonError "cannot unmarshal number into Go value of type float64")) := by
  refine ⟨by decide, by decide, by decide, by decide⟩

/-- C24 (amended): for any two row objects whose members are JSON values, that
differ only in attributes other than index, id, score, explanation, locations,
fragments and fields, and in which the values of those other attributes hold
no number outside the range of a `float64`, the loop of `Next` leaves the same
result, fills the row target identically and returns the same flag; the flag is
true for both when every known attribute is well typed (a string for index and
id, a number in the range of a `float64` for score, any value for fields, a
value the map types accept for explanation, locations and fragments); a row
object with no known attribute is accepted and leaves the row target as it
was. And `readAttribute` on a top-level key other than status, total_hits,
facets, took, max_score and hits, followed by a JSON value, consumes exactly
that value, returns (false, nil) and leaves the result unchanged when the
value holds no number outside the range of a `float64`, and otherwise returns
the flag false with a decoding error and leaves the result unchanged. -/
theorem unknown_attributes_ignored (env : Env) (r : SearchResult) :
    (∀ (ms1 ms2 : List (String × Raw)) (rowPtr : SearchResultRow),
      (∀ kv ∈ ms1, IsValue kv.2) → (∀ kv ∈ ms2, IsValue kv.2) →
      (∀ kv ∈ ms1, kv.1 ∉ SearchResult.rowAttributes → fitsInterface kv.2 = true) →
      (∀ kv ∈ ms2, kv.1 ∉ SearchResult.rowAttributes → fitsInterface kv.2 = true) →
      ms1.filter (fun kv => decide (kv.1 ∈ SearchResult.rowAttributes)) =
        ms2.filter (fun kv => decide (kv.1 ∈ SearchResult.rowAttributes)) →
      (SearchResult.NextLoop env ((objectTokens ms1).length + 1) r (objectTokens ms1) rowPtr =
          SearchResult.NextLoop env ((objectTokens ms2).length + 1) r (objectTokens ms2) rowPtr ∧
        r.decodeRow env (objectTokens ms1) rowPtr = r.decodeRow env (objectTokens ms2) rowPtr ∧
        r.rowDecodes env (objectTokens ms1) rowPtr =
          r.rowDecodes env (objectTokens ms2) rowPtr) ∧
      ((∀ kv ∈ ms1, kv.1 ∈ SearchResult.rowAttributes →
          ((kv.1 = "index" ∨ kv.1 = "id") ∧ ∃ s, kv.2 = [.str s]) ∨
          (kv.1 = "score" ∧ ∃ n, kv.2 = [.num n] ∧ n.fitsFloat64 = true) ∨
          kv.1 = "fields" ∨
          (kv.1 = "explanation" ∧ ∀ old, ∃ x, env.unmarshalExplanation kv.2 old = .ok x) ∨
          (kv.1 = "locations" ∧ ∀ old, ∃ x, env.unmarshalLocations kv.2 old = .ok x) ∨
          (kv.1 = "fragments" ∧ ∀ old, ∃ x, env.unmarshalFragments kv.2 old = .ok x)) →
        r.rowDecodes env (objectTokens ms1) rowPtr = true ∧
        r.rowDecodes env (objectTokens ms2) rowPtr = true)) ∧
    (∀ (ms : List (String × Raw)) (rowPtr : SearchResultRow),
      (∀ kv ∈ ms, IsValue kv.2) →
      (∀ kv ∈ ms, kv.1 ∉ SearchResult.rowAttributes ∧ fitsInterface kv.2 = true) →
      SearchResult.NextLoop env ((objectTokens ms).length + 1) r (objectTokens ms) rowPtr =
        (r, rowPtr, true)) ∧
    (∀ (k : String) (v : Raw) (rest : List JsonToken),
      k ∉ SearchResult.attributes → IsValue v →
      (fitsInterface v = true →
        r.readAttribute env (v ++ rest) (.str k) = (r, rest, false, none)) ∧
      (fitsInterface v = false →
        (r.readAttribute env (v ++ rest) (.str k)).1 = r ∧
        (r.readAttribute env (v ++ rest) (.str k)).2.2 =
          (false,
            some (.jsonError "cannot unmarshal number into Go value of type float64")))) := by
  have loop : ∀ (ms : List (String × Raw)) (rowPtr : SearchResultRow),
      (∀ kv ∈ ms, IsValue kv.2) →
      SearchResult.NextLoop env ((objectTokens ms).length + 1) r (objectTokens ms) rowPtr =
        SearchResult.rowMembers env r ms rowPtr := by
    intro ms rowPtr hv
    have h1 : SearchResult.NextLoop env ((objectTokens ms).length + 1) r (objectTokens ms) rowPtr =
        SearchResult.NextLoop env (objectTokens ms).length r
          (memberTokens ms ++ [.delim .rbrace]) rowPtr := by
      rw [SearchResult.NextLoop]
      simp [objectTokens, Decoder.More, Decoder.Token]
    have hl := memberTokens_length ms
    rw [h1, SearchResult.NextLoop_members env ms hv _ (by simp [objectTokens]; omega) r rowPtr]
  have key : ∀ (ms : List (String × Raw)) (rowPtr : SearchResultRow),
      (∀ kv ∈ ms, IsValue kv.2) →
      (∀ kv ∈ ms, kv.1 ∉ SearchResult.rowAttributes → fitsInterface kv.2 = true) →
      SearchResult.NextLoop env ((objectTokens ms).length + 1) r (objectTokens ms) rowPtr =
        SearchResult.rowMembers env r
          (ms.filter (fun kv => decide (kv.1 ∈ SearchResult.rowAttributes))) rowPtr := by
    intro ms rowPtr hv hfit
    rw [loop ms rowPtr hv]
    exact SearchResult.rowMembers_filter env ms hv hfit r rowPtr
  refine ⟨?_, ?_, ?_⟩
  · intro ms1 ms2 rowPtr hv1 hv2 hf1 hf2 hf
    have e : SearchResult.NextLoop env ((objectTokens ms1).length + 1) r (objectTokens ms1) rowPtr =
        SearchResult.NextLoop env ((objectTokens ms2).length + 1) r (objectTokens ms2) rowPtr := by
      rw [key ms1 rowPtr hv1 hf1, key ms2 rowPtr hv2 hf2, hf]
    have e2 : r.rowDecodes env (objectTokens ms1) rowPtr =
        r.rowDecodes env (objectTokens ms2) rowPtr := by
      simp only [SearchResult.rowDecodes, e]
    refine ⟨⟨e, ?_, e2⟩, ?_⟩
    · simp only [SearchResult.decodeRow, e]
    · intro ht
      have h1 : r.rowDecodes env (objectTokens ms1) rowPtr = true := by
        simp only [SearchResult.rowDecodes, loop ms1 rowPtr hv1]
        exact SearchResult.rowMembers_typed env ms1 hv1 hf1 ht r rowPtr
      exact ⟨h1, e2 ▸ h1⟩
  · intro ms rowPtr hv hk
    rw [key ms rowPtr hv (fun kv hkv _ => (hk kv hkv).2)]
    have hnil : ms.filter (fun kv => decide (kv.1 ∈ SearchResult.rowAttributes)) = [] := by
      rw [List.filter_eq_nil_iff]
      intro kv hkv
      simpa using (hk kv hkv).1
    rw [hnil]
    rfl
  · intro k v rest hk hv
    simp only [SearchResult.attributes, List.mem_cons, List.mem_singleton, not_or,
      List.not_mem_nil, or_false] at hk
    obtain ⟨h1, h2, h3, h4, h5, h6⟩ := hk
    refine ⟨?_, ?_⟩
    · intro hfit
      unfold SearchResult.readAttribute
      simp only [JsonToken.str.injEq, h1, h2, h3, h4, h5, h6, if_false,
        Decoder.Decode_append unmarshalIgnore v rest () hv, unmarshalIgnore, hfit, if_true]
    · intro hfit
      unfold SearchResult.readAttribute
      simp [h1, h2, h3, h4, h5, h6,
        Decoder.Decode_append unmarshalIgnore v rest () hv, unmarshalIgnore, hfit]

/-- Witness of C24 (amended): the rows `{"id":"a","score":2}` and
`{"rank":[1,2],"id":"a","sort":null,"score":2}` fill a fresh row target
identically, and `Next` accepts both. -/
theorem unknown_attributes_ignored_witness :
    sampleResult.decodeRow sampleEnv (objectTokens sampleRowMembersExtra) SearchResultRow.zero =
      sampleResult.decodeRow sampleEnv (objectTokens sampleRowMembers) SearchResultRow.zero ∧
    sampleResult.rowDecodes sampleEnv (objectTokens sampleRowMembersExtra) SearchResultRow.zero =
      true ∧
    sampleResult.rowDecodes sampleEnv (objectTokens sampleRowMembers) SearchResultRow.zero = true :=
  ⟨(((unknown_attributes_ignored sampleEnv sampleResult).1 sampleRowMembersExtra sampleRowMembers
      SearchResultRow.zero (by decide) (by decide) (by decide) (by decide) (by decide)).1).2.1,
    (((unknown_attributes_ignored sampleEnv sampleResult).1 sampleRowMembersExtra sampleRowMembers
      SearchResultRow.zero (by decide) (by decide) (by decide) (by decide) (by decide)).2
      (by
        intro kv hkv hk
        simp only [sampleRowMembersExtra, List.mem_cons, List.mem_singleton,
          List.not_mem_nil, or_false] at hkv
        rcases hkv with h | h | h | h <;> subst h
        · exact absurd hk (by decide)
        · exact Or.inl ⟨Or.inr rfl, "a", rfl⟩
        · exact absurd hk (by decide)
        · exact Or.inr (Or.inl ⟨rfl, .int 2, rfl, by decide⟩))).1,
    (((unknown_attributes_ignored sampleEnv sampleResult).1 sampleRowMembersExtra sampleRowMembers
      SearchResultRow.zero (by decide) (by decide) (by decide) (by decide) (by decide)).2
      (by
        intro kv hkv hk
        simp only [sampleRowMembersExtra, List.mem_cons, List.mem_singleton,
          List.not_mem_nil, or_false] at hkv
        rcases hkv with h | h | h | h <;> subst h
        · exact absurd hk (by decide)
        · exact Or.inl ⟨Or.inr rfl, "a", rfl⟩
        · exact absurd hk (by decide)
        · exact Or.inr (Or.inl ⟨rfl, .int 2, rfl, by decide⟩))).2⟩

/-- The errors of a status whose last "errors" member has the value `ev`. -/
theorem unmarshalStatusFields_last_errors (pre post : List (String × Raw)) (ev : Raw)
    (st status : searchResponseStatus) (hk : ∀ kv ∈ post, foldEq "errors" kv.1 = false)
    (h : unmarshalStatusFields st (pre ++ ("errors", ev) :: post) = .ok status) :
    status.Errors = decodeIface ev := by
  rw [unmarshalStatusFields_append] at h
  cases hp : unmarshalStatusFields st pre with
  | error e => rw [hp] at h; cases h
  | ok st1 =>
    rw [hp] at h
    simp only [unmarshalStatusFields] at h
    have e1 : foldEq "total" "errors" = false := by decide
    have e2 : foldEq "failed" "errors" = false := by decide
    have e3 : foldEq "successful" "errors" = false := by decide
    have e4 : foldEq "errors" "errors" = true := by decide
    by_cases hfit : fitsInterface ev = true
    · have hf : unmarshalStatusField st1 ("errors", ev) =
          .ok { st1 with Errors := decodeIface ev } := by
        simp [unmarshalStatusField, e1, e2, e3, e4, hfit]
      rw [hf] at h
      simp only at h
      exact unmarshalStatusFields_errors post _ status hk h
    · have hf : unmarshalStatusField st1 ("errors", ev) =
          .error (.jsonError "cannot unmarshal number into Go value of type float64") := by
        simp [unmarshalStatusField, e1, e2, e3, e4, hfit]
      rw [hf] at h
      cases h

set_option maxRecDepth 8000 in
/-- C25 (counterexample): the status `{"total":1,"errors":{"a":1e400}}` of an
HTTP 200 response has an errors object whose one entry is not a string, yet
`readAttribute` does not return the clientError "could not parse errors" and
does not store the total: decoding the status fails on the number outside the
range of a `float64`, the decoding error is returned and the result is left as
it was. -/
theorem status_errors_out_of_range :
    sampleResult.httpStatus = 200 ∧
    sampleStatusHugeErrorTokens.drop 2 =
      objectTokens [("total", [.num (.int 1)]),
        ("errors", objectTokens [("a", [.num (.frac "1e400")])])] ++
        [.str "hits", .delim .lbrack, .delim .rbrack, .delim .rbrace] ∧
    (sampleResult.readAttribute sampleEnv (sampleStatusHugeErrorTokens.drop 2)
        (.str "status")).2.2 =
      (false, some (.jsonError "cannot unmarshal number into Go value of type float64")) ∧
    (sampleResult.readAttribute sampleEnv (sampleStatusHugeErrorTokens.drop 2)
        (.str "status")).1.metadata.status = SearchStatus.mk 0 0 0 ∧
    (sampleResult.readAttribute sampleEnv (sampleStatusHugeErrorTokens.drop 2)
        (.str "status")).1 = sampleResult := by
  refine ⟨by decide, by decide, by decide, by decide, by decide⟩

/-- C25 (amended): for a result with HTTP status 200 and a status attribute that
is a JSON object whose members are JSON values and which decodes into the
status struct (its counts are integers and its errors value holds no number
outside the range of a `float64`), `readAttribute` consumes the status, stores
its total, successful and failed counts in the metadata and returns the flag
false. If the errors value is a JSON object: when every entry of the map it
decodes to is a string and there is at least one, a searchMultiError is
recorded with exactly one record per entry, of message key-value, with the
source endpoint and HTTP status of the result, and no error is returned; when
some entry is not a string the clientError "could not parse errors" is
returned; when the object is empty no error is recorded or returned. If the
errors value is null or absent, no error is recorded or returned. The errors
value is that of the last member whose key matches "errors" under the case
folding of the decoder, and the order of a `range` over a map is any
permutation of its entries. -/
theorem status_errors_object (env : Env) (r : SearchResult) (sm : List (String × Raw))
    (rest : List JsonToken) (status : searchResponseStatus)
    (out : SearchResult × List JsonToken × Bool × Option GoError)
    (h200 : r.httpStatus = 200) (hsv : ∀ kv ∈ sm, IsValue kv.2)
    (hst : unmarshalStatusFields (searchResponseStatus.mk 0 0 0 Iface.nil) sm = .ok status)
    (hperm : ∀ m, (env.rangeOrder m).Perm m)
    (hout : r.readAttribute env (objectTokens sm ++ rest) (.str "status") = out) :
    out.1.metadata.status = SearchStatus.mk status.Total status.Failed status.Successful ∧
    out.2.1 = rest ∧ out.2.2.1 = false ∧
    (∀ pre es post, sm = pre ++ ("errors", objectTokens es) :: post →
      (∀ kv ∈ post, foldEq "errors" kv.1 = false) → (∀ kv ∈ es, IsValue kv.2) →
      ((∀ kv ∈ mapOfMembers es, ∃ s, kv.2 = [.str s]) → mapOfMembers es ≠ [] →
        ∃ msgs : List String, msgs.length = (mapOfMembers es).length ∧
          (∀ msg, msg ∈ msgs ↔
            ∃ k s, (k, [JsonToken.str s]) ∈ mapOfMembers es ∧ msg = k ++ "-" ++ s) ∧
          out.1.err = some (.searchMultiError (msgs.map searchError.mk) r.metadata.sourceAddr
            r.httpStatus) ∧
          out.2.2.2 = none) ∧
      ((∃ kv ∈ mapOfMembers es, ∀ s, kv.2 ≠ [.str s]) →
        out.2.2.2 = some (.clientError "could not parse errors")) ∧
      (es = [] → out.1.err = r.err ∧ out.2.2.2 = none)) ∧
    (∀ pre post, sm = pre ++ ("errors", [.null]) :: post →
      (∀ kv ∈ post, foldEq "errors" kv.1 = false) → out.1.err = r.err ∧ out.2.2.2 = none) ∧
    ((∀ kv ∈ sm, foldEq "errors" kv.1 = false) → out.1.err = r.err ∧ out.2.2.2 = none) := by
  have hval : IsValue (objectTokens sm) := IsValue_objectTokens sm hsv
  have hum : unmarshalStatus (objectTokens sm) (searchResponseStatus.mk 0 0 0 Iface.nil) =
      .ok status := by
    have hm := objectMembers_memberTokens sm hsv (objectTokens sm).length
      (by have := memberTokens_length sm; simp [objectTokens]; omega)
    cases sm with
    | nil =>
      simp only [unmarshalStatusFields] at hst
      simp [objectTokens, memberTokens, unmarshalStatus, objectMembers, unmarshalStatusFields,
        hst]
    | cons kv sm =>
      obtain ⟨k, v⟩ := kv
      unfold unmarshalStatus
      simp only [objectTokens, memberTokens, List.cons_append] at hm ⊢
      rw [hm]
      exact hst
  have hdec : Decoder.Decode unmarshalStatus (objectTokens sm ++ rest)
      (searchResponseStatus.mk 0 0 0 Iface.nil) = .ok (status, rest) := by
    rw [Decoder.Decode_append unmarshalStatus (objectTokens sm) rest _ hval, hum]
  obtain ⟨g1, g2, g3, g4, g5⟩ := readAttribute_status env r (objectTokens sm ++ rest) rest status
    h200 hdec
  rw [hout] at g1 g2 g3 g4 g5
  refine ⟨g1, g2, g3, ?_, ?_, ?_⟩
  · intro pre es post hsm hpost hes
    subst hsm
    have hE : status.Errors = .map (mapOfMembers es) := by
      rw [unmarshalStatusFields_last_errors pre post (objectTokens es) _ status hpost hst]
      exact decodeIface_object es hes
    obtain ⟨k1, k2, k3⟩ := g5 (mapOfMembers es) hE
    have hp := hperm (mapOfMembers es)
    refine ⟨?_, ?_, ?_⟩
    · intro hstr hne
      obtain ⟨msgs, m1, m2, m3⟩ := statusErrorsOfMap_strings (env.rangeOrder (mapOfMembers es))
        (fun kv hkv => hstr kv (hp.mem_iff.1 hkv))
      have hl : msgs.length = (mapOfMembers es).length := by rw [m2, hp.length_eq]
      have hmne : msgs ≠ [] := by
        intro h0
        rw [h0] at hl
        exact hne (List.length_eq_zero.1 hl.symm)
      refine ⟨msgs, hl, ?_, k3 msgs m1 hmne⟩
      intro msg
      rw [m3]
      constructor
      · rintro ⟨k, s, h1, h2⟩
        exact ⟨k, s, hp.mem_iff.1 h1, h2⟩
      · rintro ⟨k, s, h1, h2⟩
        exact ⟨k, s, hp.mem_iff.2 h1, h2⟩
    · rintro ⟨kv, hkv, hn⟩
      exact (k1 (statusErrorsOfMap_other _ ⟨kv, hp.mem_iff.2 hkv, hn⟩)).2
    · intro hnil
      subst hnil
      have h0 : env.rangeOrder (mapOfMembers []) = [] := by
        have := hperm (mapOfMembers [])
        simpa [mapOfMembers] using this
      exact k2 (by rw [h0]; rfl)
  · intro pre post hsm hpost
    subst hsm
    exact g4 (by
      rw [unmarshalStatusFields_last_errors pre post [.null] _ status hpost hst]
      rfl)
  · intro hno
    exact g4 (unmarshalStatusFields_errors sm _ status hno hst)

/-- Witness of C25 (amended): the status `{"total":1,"failed":1,"errors":{"pindex":"boom"}}`
records the multi error with the one record "pindex-boom". -/
theorem status_errors_object_witness :
    ∃ msgs : List String, msgs.length = 1 ∧
      (sampleResult.readAttribute sampleEnv
        (objectTokens [("total", [.num (.int 1)]), ("failed", [.num (.int 1)]),
          ("errors", objectTokens [("pindex", [.str "boom"])])] ++ [.delim .rbrace])
        (.str "status")).1.err =
        some (.searchMultiError (msgs.map searchError.mk) "10.0.0.1:8094" 200) :=
  match ((status_errors_object sampleEnv sampleResult
      [("total", [.num (.int 1)]), ("failed", [.num (.int 1)]),
        ("errors", objectTokens [("pindex", [.str "boom"])])]
      [.delim .rbrace]
      (searchResponseStatus.mk 1 1 0 (.map [("pindex", [.str "boom"])])) _
      rfl (by decide) rfl (fun m => List.Perm.refl m) rfl).2.2.2.1
      [("total", [.num (.int 1)]), ("failed", [.num (.int 1)])] [("pindex", [.str "boom"])] []
      rfl (by decide) (by decide)).1
      (by
        intro kv hkv
        simp only [mapOfMembers, List.foldl, mapSet, List.mem_singleton] at hkv
        subst hkv
        exact ⟨"boom", rfl⟩)
      (by decide) with
  | ⟨msgs, h1, _, h3, _⟩ => ⟨msgs, h1, h3⟩

/-- Division by a millisecond truncated toward zero: a non-negative duration is
rounded down, a negative one up, by less than a millisecond. -/
theorem tdiv_Millisecond_bounds (x : Int) :
    (0 ≤ x → 0 ≤ x.tdiv Millisecond ∧ x.tdiv Millisecond * Millisecond ≤ x ∧
      x < (x.tdiv Millisecond + 1) * Millisecond) ∧
    (x < 0 → x.tdiv Millisecond ≤ 0 ∧ x ≤ x.tdiv Millisecond * Millisecond ∧
      (x.tdiv Millisecond - 1) * Millisecond < x) := by
  have hms : (0 : Int) < Millisecond := by decide
  constructor
  · intro hx
    rw [Int.tdiv_eq_ediv hx (le_of_lt hms)]
    exact ⟨Int.ediv_nonneg hx (le_of_lt hms), Int.ediv_mul_le _ (ne_of_gt hms),
      Int.lt_ediv_add_one_mul_self _ hms⟩
  · intro hx
    have hn : 0 ≤ -x := by omega
    have e : x.tdiv Millisecond = -((-x) / Millisecond) := by
      rw [← Int.tdiv_eq_ediv hn (le_of_lt hms), Int.neg_tdiv, neg_neg]
    rw [e]
    have h1 := Int.ediv_nonneg hn (le_of_lt hms)
    have h2 := Int.ediv_mul_le (-x) (ne_of_gt hms)
    have h3 := Int.lt_ediv_add_one_mul_self (-x) hms
    refine ⟨by omega, ?_, ?_⟩
    · rw [neg_mul]; omega
    · have : (-(-x / Millisecond) - 1) * Millisecond = -((-x / Millisecond + 1) * Millisecond) := by
        ring
      rw [this]; omega

/-- Division by a millisecond truncated toward zero does not exceed a bound in
whole milliseconds that the duration does not exceed. -/
theorem tdiv_Millisecond_le (x t : Int) (h : x ≤ t * Millisecond) : x.tdiv Millisecond ≤ t := by
  have hms : (0 : Int) < Millisecond := by decide
  by_cases hx : 0 ≤ x
  · rw [Int.tdiv_eq_ediv hx (le_of_lt hms)]
    exact Int.ediv_le_of_le_mul hms h
  · have hx1 : x < 0 := by omega
    obtain ⟨h1, h2, h3⟩ := (tdiv_Millisecond_bounds x).2 hx1
    by_contra hc
    have h4 : t + 1 ≤ x.tdiv Millisecond := by omega
    have h5 : (t + 1) * Millisecond ≤ x.tdiv Millisecond * Millisecond :=
      Int.mul_le_mul_of_nonneg_right h4 (le_of_lt hms)
    have h6 : (x.tdiv Millisecond - 1) * Millisecond =
        x.tdiv Millisecond * Millisecond - Millisecond := by ring
    have h7 : (t + 1) * Millisecond = t * Millisecond + Millisecond := by ring
    omega

/-- C20 (counterexample): the caller's deadline is 1 ms after the derived
context is created and the clock is read 1.5 ms after it, so the caller's
remaining time at request-build time is -0.5 ms; `searchQuery` still gets as
far as sending, and the "timeout" it writes into the "ctl" block is 0 ms, which
exceeds the caller's remaining time and is not the time remaining until the
operation deadline. -/
theorem ctl_timeout_after_expired_deadline :
    ∃ p : Prepared,
      searchQuery.prepare sampleCluster 0 1500000 sampleShortCtx sampleQuery sampleOptions =
        .ready p ∧
      p.ctx.deadline = some 1000000 ∧
      p.opTimeout = -500000 ∧
      p.ctlData.lookup "timeout" = some [.num (.int 0)] ∧
      sampleShortCtx.deadline = some 1000000 ∧
      ¬ ((0 : Int) * Millisecond ≤ 1000000 - 1500000) ∧
      (0 : Int) * Millisecond ≠ p.opTimeout :=
  ⟨_, rfl, by decide, by decide, by decide, by decide, by decide, by decide⟩

/-- C20 (amended): when `searchQuery` gets as far as sending, and the effective
timeout in milliseconds fits an `int64` as nanoseconds, the operation deadline
is the earlier of the caller's deadline and the instant that timeout after the
derived context was created; the "timeout" written into the "ctl" block of the
request is the time remaining until that deadline at the instant the request
is built, in whole milliseconds, truncated toward zero. When that remaining
time is not negative, the value sent is not negative, is the remaining time
rounded down by less than a millisecond, and does not exceed the caller's
remaining time; when it is negative, the value sent is zero or negative and is
the remaining time rounded up by less than a millisecond. The clock not
running backwards, the value sent does not exceed the effective timeout, which
is the "ctl" timeout the caller supplied when there is one. -/
theorem ctl_timeout_is_remaining_time (c : Cluster) (created built : Nat) (ctx : Context)
    (q : SearchQuery) (opts : SearchOptions) (p : Prepared)
    (hprep : searchQuery.prepare c created built ctx q opts = .ready p)
    (hlo : -(2 ^ 63) ≤ p.timeout * Millisecond) (hhi : p.timeout * Millisecond < 2 ^ 63) :
    (∃ D : Int, p.ctx.deadline = some D ∧
        D = (match ctx.deadline with
          | some d => min d ((created : Int) + p.timeout * Millisecond)
          | none => (created : Int) + p.timeout * Millisecond) ∧
        p.opTimeout = D - built) ∧
    p.ctlData.lookup "timeout" = some [.num (.int (p.opTimeout.tdiv Millisecond))] ∧
    (∃ ctlRaw, jsonMarshal p.ctlData = .ok ctlRaw ∧ p.queryData.lookup "ctl" = some ctlRaw) ∧
    (0 ≤ p.opTimeout →
      0 ≤ p.opTimeout.tdiv Millisecond ∧
      p.opTimeout.tdiv Millisecond * Millisecond ≤ p.opTimeout ∧
      p.opTimeout < (p.opTimeout.tdiv Millisecond + 1) * Millisecond ∧
      (∀ d, ctx.deadline = some d →
        p.opTimeout.tdiv Millisecond * Millisecond ≤ d - built)) ∧
    (p.opTimeout < 0 →
      p.opTimeout.tdiv Millisecond ≤ 0 ∧
      p.opTimeout ≤ p.opTimeout.tdiv Millisecond * Millisecond ∧
      (p.opTimeout.tdiv Millisecond - 1) * Millisecond < p.opTimeout) ∧
    (created ≤ built → p.opTimeout.tdiv Millisecond ≤ p.timeout) ∧
    (∀ qd ctl0 t, opts.toOptionsData = .ok qd → searchQuery.ctlData qd = .ok ctl0 →
        ctl0.lookup "timeout" = some [.num (.int t)] → p.timeout = t) := by
  unfold searchQuery.prepare at hprep
  cases ho : opts.toOptionsData with
  | error e => simp [ho] at hprep
  | ok queryData =>
    cases hc : searchQuery.ctlData queryData with
    | error e => simp [ho, hc] at hprep
    | ok ctlData =>
      cases ht : searchQuery.timeout c ctlData with
      | error e => simp [ho, hc, ht] at hprep
      | ok timeout =>
        simp only [ho, hc, ht, DelayedObject.Set, jsonMillisecondDuration.MarshalJSON] at hprep
        cases hm : jsonMarshal (mapSet ctlData "timeout"
            [.num (.int (((ctx.WithTimeout created (wrapInt64 (timeout * Millisecond))).deadline.getD 0
              - (built : Int)).tdiv Millisecond))]) with
        | error e => simp [hm] at hprep
        | ok ctlRaw =>
          simp only [hm] at hprep
          cases hq : q.toSearchQueryData with
          | error e => simp [hq] at hprep
          | ok dq =>
            cases dq with
            | error e => simp [hq] at hprep
            | ok payload =>
              simp only [hq, PrepareOutcome.ready.injEq] at hprep
              subst hprep
              simp only at hlo hhi ⊢
              rw [wrapInt64_of_fits _ hlo hhi] at hm ⊢
              have hms : (0 : Int) < Millisecond := by decide
              have hD : ∃ D : Int, (ctx.WithTimeout created (timeout * Millisecond)).deadline = some D ∧
                  D = (match ctx.deadline with
                    | some d => min d ((created : Int) + timeout * Millisecond)
                    | none => (created : Int) + timeout * Millisecond) := by
                unfold Context.WithTimeout
                cases ctx.deadline <;> simp
              obtain ⟨D, hD1, hD2⟩ := hD
              have hget : (ctx.WithTimeout created (timeout * Millisecond)).deadline.getD 0 = D := by
                rw [hD1]; rfl
              rw [hget] at hm ⊢
              have hD3 : ∀ d, ctx.deadline = some d → D ≤ d := by
                intro d hd
                rw [hD2, hd]; exact min_le_left _ _
              refine ⟨⟨D, hD1, hD2, rfl⟩, ?_, ⟨ctlRaw, hm, ?_⟩, ?_, ?_, ?_, ?_⟩
              · rw [lookup_mapSet]; simp
              · rw [lookup_mapSet, lookup_mapSet]; simp
              · intro h0
                obtain ⟨b1, b2, b3⟩ := (tdiv_Millisecond_bounds (D - (built : Int))).1 h0
                refine ⟨b1, b2, b3, ?_⟩
                intro d hd
                have := hD3 d hd
                omega
              · intro h0
                exact (tdiv_Millisecond_bounds (D - (built : Int))).2 h0
              · intro hcb
                have h2 : D ≤ (created : Int) + timeout * Millisecond := by
                  rw [hD2]
                  cases ctx.deadline with
                  | none => exact le_refl _
                  | some d => exact min_le_right _ _
                have h3 : D - (built : Int) ≤ timeout * Millisecond := by
                  have : (created : Int) ≤ (built : Int) := by exact_mod_cast hcb
                  omega
                exact tdiv_Millisecond_le _ _ h3
              · intro qd ctl0 t hqd hctl hlook
                cases hqd
                rw [hc] at hctl
                cases hctl
                unfold searchQuery.timeout at ht
                simp only [DelayedObject.Has, hlook, Option.isSome_some, if_true, DelayedObject.Get,
                  unmarshalInt] at ht
                split_ifs at ht with hr
                · simp only [Except.ok.injEq] at ht
                  exact ht.symm

/-- Witness of C20 (amended): the caller allows 200 ms and supplies a "ctl"
timeout of 2 ms, the clock is read 0.5 ms after the derived context is created;
the timeout sent is 1 ms, within the 1.5 ms that remain, within the caller's
remaining 199.5 ms and within the 2 ms supplied. -/
theorem ctl_timeout_is_remaining_time_witness :
    searchQuery.prepare sampleCluster 0 500000 sampleCallerCtx sampleQuery sampleOptions =
      .ready samplePrepared ∧
    samplePrepared.ctlData.lookup "timeout" =
      some [.num (.int (samplePrepared.opTimeout.tdiv Millisecond))] ∧
    (0 ≤ samplePrepared.opTimeout.tdiv Millisecond ∧
      samplePrepared.opTimeout.tdiv Millisecond * Millisecond ≤ samplePrepared.opTimeout ∧
      samplePrepared.opTimeout < (samplePrepared.opTimeout.tdiv Millisecond + 1) * Millisecond ∧
      (∀ d, sampleCallerCtx.deadline = some d →
        samplePrepared.opTimeout.tdiv Millisecond * Millisecond ≤ d - ((500000 : Nat) : Int))) ∧
    samplePrepared.opTimeout.tdiv Millisecond ≤ samplePrepared.timeout :=
  ⟨by decide,
    (ctl_timeout_is_remaining_time sampleCluster 0 500000 sampleCallerCtx sampleQuery sampleOptions
      samplePrepared (by decide) (by decide) (by decide)).2.1,
    (ctl_timeout_is_remaining_time sampleCluster 0 500000 sampleCallerCtx sampleQuery sampleOptions
      samplePrepared (by decide) (by decide) (by decide)).2.2.2.1 (by decide),
    (ctl_timeout_is_remaining_time sampleCluster 0 500000 sampleCallerCtx sampleQuery sampleOptions
      samplePrepared (by decide) (by decide) (by decide)).2.2.2.2.2.1 (by decide)⟩

/-- More fuel does not change what the retry loop returns. -/
theorem searchQuery.loop_mono (env : Env) (c : Cluster) (IsRetryableError : GoError → Bool)
    (p : Prepared) (qIndexName : String) (provider : httpProvider)
    (fuel k retries now : Nat) (made : List Attempt) (x : ExecOutcome × List Attempt)
    (h : searchQuery.loop env c IsRetryableError p qIndexName provider fuel retries now made =
      some x) :
    searchQuery.loop env c IsRetryableError p qIndexName provider (fuel + k) retries now made =
      some x := by
  induction fuel generalizing retries now made with
  | zero => simp [searchQuery.loop] at h
  | succ fuel ih =>
    have e : fuel + 1 + k = (fuel + k) + 1 := by omega
    rw [e]
    rw [searchQuery.loop] at h ⊢
    generalize executeSearchQuery env now p.ctx p.queryData qIndexName provider
      (some p.cancel) (some p.Serializer) = res0 at h ⊢
    cases herr : res0.err with
    | none => simpa [herr] using h
    | some e =>
      simp only [herr] at h ⊢
      cases hb : c.sb.SearchRetryBehavior with
      | none => simpa [hb] using h
      | some b =>
        simp only [hb] at h ⊢
        split_ifs at h ⊢ with hc
        · exact h
        · exact ih _ _ _ h

/-- The retry loop returns after exactly as many attempts as it reports: with
that much fuel it returns the same, and with less it does not return. -/
theorem searchQuery.loop_exact (env : Env) (c : Cluster) (IsRetryableError : GoError → Bool)
    (p : Prepared) (qIndexName : String) (provider : httpProvider)
    (fuel retries now : Nat) (made : List Attempt) (res : ExecOutcome) (news : List Attempt)
    (h : searchQuery.loop env c IsRetryableError p qIndexName provider fuel retries now made =
      some (res, made ++ news)) :
    (∀ fuel2, news.length ≤ fuel2 →
      searchQuery.loop env c IsRetryableError p qIndexName provider fuel2 retries now made =
        some (res, made ++ news)) ∧
    (∀ fuel2, fuel2 < news.length →
      searchQuery.loop env c IsRetryableError p qIndexName provider fuel2 retries now made =
        none) := by
  have key : ∀ fuel2 x,
      searchQuery.loop env c IsRetryableError p qIndexName provider fuel2 retries now made =
        some x → x = (res, made ++ news) ∧ news.length ≤ fuel2 := by
    intro fuel2 x hx
    have h1 := searchQuery.loop_mono env c IsRetryableError p qIndexName provider fuel fuel2
      retries now made _ h
    have h2 := searchQuery.loop_mono env c IsRetryableError p qIndexName provider fuel2 fuel
      retries now made _ hx
    rw [Nat.add_comm] at h2
    rw [h1] at h2
    simp only [Option.some.injEq] at h2
    subst h2
    refine ⟨rfl, ?_⟩
    obtain ⟨news2, g1, -, g3, -⟩ := searchQuery.loop_trace env c IsRetryableError p qIndexName
      provider fuel2 retries now made res (made ++ news) hx
    have := List.append_cancel_left g1
    subst this
    exact g3
  have hex : ∀ n : Nat, n ≤ fuel → news.length ≤ n →
      searchQuery.loop env c IsRetryableError p qIndexName provider n retries now made =
        some (res, made ++ news) := by
    intro n
    induction n generalizing fuel retries now made news with
    | zero =>
      intro _ hn
      obtain ⟨news2, g1, g2, -⟩ := searchQuery.loop_trace env c IsRetryableError p qIndexName
        provider fuel retries now made res (made ++ news) h
      have := List.append_cancel_left g1
      subst this
      omega
    | succ n ih =>
      intro hle hn
      cases fuel with
      | zero => omega
      | succ fuel =>
        rw [searchQuery.loop] at h ⊢
        generalize executeSearchQuery env now p.ctx p.queryData qIndexName provider
          (some p.cancel) (some p.Serializer) = res0 at h ⊢
        cases herr : res0.err with
        | none => simpa [herr] using h
        | some e =>
          simp only [herr] at h ⊢
          cases hb : c.sb.SearchRetryBehavior with
          | none => simpa [hb] using h
          | some b =>
            simp only [hb] at h ⊢
            split_ifs at h ⊢ with hc
            · exact h
            · obtain ⟨news2, g1, g2, -⟩ := searchQuery.loop_trace env c IsRetryableError p
                qIndexName provider fuel _ _ _ res (made ++ news) h
              rw [List.append_assoc] at g1
              have g := List.append_cancel_left g1
              subst g
              rw [← List.append_assoc] at h ⊢
              refine ih fuel _ _ _ news2 h ?_ (by omega) ?_
              · intro fuel2 x hx
                have h1 := searchQuery.loop_mono env c IsRetryableError p qIndexName provider
                  fuel fuel2 _ _ _ _ h
                have h2 := searchQuery.loop_mono env c IsRetryableError p qIndexName provider
                  fuel2 fuel _ _ _ _ hx
                rw [Nat.add_comm] at h2
                rw [h1] at h2
                simp only [Option.some.injEq] at h2
                subst h2
                refine ⟨rfl, ?_⟩
                obtain ⟨news3, k1, -, k3, -⟩ := searchQuery.loop_trace env c IsRetryableError p
                  qIndexName provider fuel2 _ _ _ res _ hx
                have := List.append_cancel_left k1
                subst this
                exact k3
              · simp at hn; omega
  refine ⟨?_, ?_⟩
  · intro fuel2 hf
    obtain ⟨news2, g1, -, g3, -⟩ := searchQuery.loop_trace env c IsRetryableError p qIndexName
      provider fuel retries now made res (made ++ news) h
    have := List.append_cancel_left g1
    subst this
    have h0 := hex news.length g3 (le_refl _)
    have h1 := searchQuery.loop_mono env c IsRetryableError p qIndexName provider news.length
      (fuel2 - news.length) retries now made _ h0
    have e : news.length + (fuel2 - news.length) = fuel2 := by omega
    rw [e] at h1
    exact h1
  · intro fuel2 hf
    cases hx : searchQuery.loop env c IsRetryableError p qIndexName provider fuel2 retries now
      made with
    | none => rfl
    | some x =>
      have := (key fuel2 x hx).2
      omega

/-- What `searchQuery` returns is fixed by what its retry loop returns. -/
theorem searchQuery_of_loop (env : Env) (c : Cluster) (IsRetryableError : GoError → Bool)
    (created built fuel fuel2 : Nat) (ctx : Context) (qIndexName : String) (q : SearchQuery)
    (opts : SearchOptions) (provider : httpProvider) (p : Prepared)
    (hprep : searchQuery.prepare c created built ctx q opts = .ready p)
    (hl : searchQuery.loop env c IsRetryableError p qIndexName provider fuel2 0 built [] =
      searchQuery.loop env c IsRetryableError p qIndexName provider fuel 0 built []) :
    searchQuery env c IsRetryableError created built fuel2 ctx qIndexName q opts provider =
      searchQuery env c IsRetryableError created built fuel ctx qIndexName q opts provider := by
  unfold searchQuery
  simp only [hprep, hl]

/-- C21: when `searchQuery` gets as far as sending and returns, it has made at
least one attempt, the first at once, each a call of `executeSearchQuery` with
the prepared context and request data, and it returns the error of the last
one, with that attempt's non-nil result when the error is nil and a nil result
otherwise. Every attempt before the last failed with a retryable error after
which the configured behaviour allowed a retry, so a success, an error that is
not retryable, and any error without retry behaviour are each the last
attempt; otherwise the last attempt is the one after which `CanRetry` returned
false. The return follows the last attempt at once: the call returns the same
when allowed exactly as many attempts as it made or any larger number, and
does not return when allowed fewer. And when the first attempt succeeds, or
fails without retry behaviour, with an error that is not retryable, or with
`CanRetry(1)` false, `searchQuery` returns after that one attempt, with its
error and its result. -/
theorem last_attempt_is_returned (env : Env) (c : Cluster) (IsRetryableError : GoError → Bool)
    (created built : Nat) (ctx : Context) (qIndexName : String) (q : SearchQuery)
    (opts : SearchOptions) (provider : httpProvider) (p : Prepared)
    (hprep : searchQuery.prepare c created built ctx q opts = .ready p) :
    (∀ fuel out,
      searchQuery env c IsRetryableError created built fuel ctx qIndexName q opts provider =
        some out →
      ∃ last, out.attempts.getLast? = some last ∧
        out.err = last.outcome.err ∧
        (last.outcome.err = none → out.result = last.outcome.result ∧ out.result ≠ none) ∧
        (last.outcome.err ≠ none → out.result = none) ∧
        (∀ a ∈ out.attempts, a.outcome = executeSearchQuery env a.sentAt p.ctx p.queryData
          qIndexName provider (some p.cancel) (some p.Serializer)) ∧
        out.attempts.head?.map (fun a => a.sentAt) = some built ∧
        (∀ i a, out.attempts[i]? = some a → i + 1 < out.attempts.length →
          ∃ e b, a.outcome.err = some e ∧ IsRetryableError e = true ∧
            c.sb.SearchRetryBehavior = some b ∧ b.CanRetry (i + 1) = true) ∧
        (last.outcome.err = none ∨ c.sb.SearchRetryBehavior = none ∨
          (∃ e, last.outcome.err = some e ∧ IsRetryableError e = false) ∨
          (∃ b, c.sb.SearchRetryBehavior = some b ∧
            b.CanRetry out.attempts.length = false)) ∧
        (∀ fuel2, out.attempts.length ≤ fuel2 →
          searchQuery env c IsRetryableError created built fuel2 ctx qIndexName q opts provider =
            some out) ∧
        (∀ fuel2, fuel2 < out.attempts.length →
          searchQuery env c IsRetryableError created built fuel2 ctx qIndexName q opts provider =
            none)) ∧
    (∀ fuel, 1 ≤ fuel →
      ((executeSearchQuery env built p.ctx p.queryData qIndexName provider (some p.cancel)
          (some p.Serializer)).err = none ∨
        c.sb.SearchRetryBehavior = none ∨
        (∃ e, (executeSearchQuery env built p.ctx p.queryData qIndexName provider (some p.cancel)
            (some p.Serializer)).err = some e ∧
          (IsRetryableError e = false ∨
            ∃ b, c.sb.SearchRetryBehavior = some b ∧ b.CanRetry 1 = false))) →
      ∃ out,
        searchQuery env c IsRetryableError created built fuel ctx qIndexName q opts provider =
          some out ∧
        out.attempts = [Attempt.mk built (executeSearchQuery env built p.ctx p.queryData qIndexName
          provider (some p.cancel) (some p.Serializer))] ∧
        out.err = (executeSearchQuery env built p.ctx p.queryData qIndexName provider
          (some p.cancel) (some p.Serializer)).err ∧
        out.result = (executeSearchQuery env built p.ctx p.queryData qIndexName provider
          (some p.cancel) (some p.Serializer)).result) := by
  refine ⟨?_, ?_⟩
  · intro fuel out h
    obtain ⟨res, hl, -, herr, hok, hko⟩ := searchQuery_ready env c IsRetryableError created built
      fuel ctx qIndexName q opts provider p out hprep h
    obtain ⟨news, h1, h2, h3, h4, h5, h6, h7, h8⟩ := searchQuery.loop_trace env c
      IsRetryableError p qIndexName provider fuel 0 built [] res out.attempts hl
    simp only [List.nil_append] at h1
    subst h1
    have hl2 : searchQuery.loop env c IsRetryableError p qIndexName provider fuel 0 built [] =
        some (res, [] ++ out.attempts) := by simpa using hl
    obtain ⟨hx1, hx2⟩ := searchQuery.loop_exact env c IsRetryableError p qIndexName provider fuel
      0 built [] res out.attempts hl2
    cases hlast : out.attempts.getLast? with
    | none => rw [hlast] at h6; cases h6
    | some last =>
      rw [hlast] at h6
      simp only [Option.map_some', Option.some.injEq] at h6
      have hmem : last ∈ out.attempts := List.mem_of_getLast?_eq_some hlast
      refine ⟨last, rfl, by rw [herr, h6], ?_, ?_, h5, h4, ?_, ?_, ?_, ?_⟩
      · intro he
        rw [h6] at he
        obtain ⟨g1, -⟩ := hok he
        refine ⟨by rw [g1, h6], ?_⟩
        rw [g1]
        have hx := h5 last hmem
        rw [h6] at hx
        have he2 := he
        rw [hx] at he2
        obtain ⟨r0, sr, hr, -⟩ := executeSearchQuery_ok env last.sentAt p.ctx p.queryData
          qIndexName provider (some p.cancel) (some p.Serializer) he2
        rw [hx, hr]
        simp
      · intro he
        rw [h6] at he
        exact (hko he).1
      · intro i a hi hlt
        cases hi2 : out.attempts[i + 1]? with
        | none =>
          rw [List.getElem?_eq_none_iff] at hi2
          omega
        | some a2 =>
          obtain ⟨e, b, g1, g2, g3, g4, -⟩ := h7 i a a2 hi hi2
          exact ⟨e, b, g1, g2, g3, by simpa using g4⟩
      · rw [h6]
        simpa using h8
      · intro fuel2 hf
        rw [searchQuery_of_loop env c IsRetryableError created built fuel fuel2 ctx qIndexName q
          opts provider p hprep (by rw [hx1 fuel2 hf, hl2]), h]
      · intro fuel2 hf
        unfold searchQuery
        simp only [hprep, hx2 fuel2 hf]
  · intro fuel hfuel hterm
    obtain ⟨n, rfl⟩ : ∃ n, fuel = n + 1 := ⟨fuel - 1, by omega⟩
    have hloop : searchQuery.loop env c IsRetryableError p qIndexName provider (n + 1) 0 built [] =
        some (executeSearchQuery env built p.ctx p.queryData qIndexName provider (some p.cancel)
          (some p.Serializer),
          [Attempt.mk built (executeSearchQuery env built p.ctx p.queryData qIndexName
            provider (some p.cancel) (some p.Serializer))]) := by
      rw [searchQuery.loop]
      generalize executeSearchQuery env built p.ctx p.queryData qIndexName provider
        (some p.cancel) (some p.Serializer) = res0 at hterm ⊢
      cases herr : res0.err with
      | none => simp
      | some e =>
        simp only [List.nil_append]
        cases hb : c.sb.SearchRetryBehavior with
        | none => rfl
        | some b =>
          simp only []
          rcases hterm with ht | ht | ⟨e2, g1, g2⟩
          · rw [herr] at ht; cases ht
          · rw [hb] at ht; cases ht
          · rw [herr] at g1
            cases g1
            rcases g2 with g2 | ⟨b2, g3, g4⟩
            · simp [g2]
            · rw [hb] at g3
              cases g3
              simp [g4]
    unfold searchQuery
    simp only [hprep, hloop]
    cases herr : (executeSearchQuery env built p.ctx p.queryData qIndexName provider
        (some p.cancel) (some p.Serializer)).err with
    | none => exact ⟨_, rfl, rfl, rfl, rfl⟩
    | some e =>
      refine ⟨_, rfl, rfl, rfl, ?_⟩
      exact (executeSearchQuery_err env built p.ctx p.queryData qIndexName provider
        (some p.cancel) (some p.Serializer) (by rw [herr]; simp)).symm

/-- Witness of C21: under a behaviour that allows one retry, against a provider
that fails the first request and answers the second, the sample call makes two
attempts, at 0.5 ms and at 1.6 ms; the error of the first is not returned, the
call returns the result of the second and stops there, and it does not return
when allowed one attempt only. -/
theorem last_attempt_is_returned_witness :
    (searchQuery sampleEnv sampleRetryCluster sampleRetryAll 0 500000 5 sampleCallerCtx "idx"
        sampleQuery sampleOptions sampleFlakyProvider).map
      (fun o => (o.attempts.map (fun a => (a.sentAt, a.outcome.err)), o.err,
        o.result.map (fun r => r.metadata.totalHits))) =
      some ([(500000, some (.errorsWrap (.streamError "connection reset")
          "could not complete search http request")), (1600000, none)], none, some 2) ∧
    ∃ out last,
      searchQuery sampleEnv sampleRetryCluster sampleRetryAll 0 500000 5 sampleCallerCtx "idx"
        sampleQuery sampleOptions sampleFlakyProvider = some out ∧
      out.attempts.getLast? = some last ∧ out.err = last.outcome.err ∧
      (last.outcome.err = none → out.result = last.outcome.result ∧ out.result ≠ none) ∧
      searchQuery sampleEnv sampleRetryCluster sampleRetryAll 0 500000 out.attempts.length
        sampleCallerCtx "idx" sampleQuery sampleOptions sampleFlakyProvider = some out := by
  refine ⟨by decide, ?_⟩
  cases h : searchQuery sampleEnv sampleRetryCluster sampleRetryAll 0 500000 5 sampleCallerCtx
      "idx" sampleQuery sampleOptions sampleFlakyProvider with
  | none => exact absurd h (by decide)
  | some out =>
    obtain ⟨last, h1, h2, h3, -, -, -, -, -, h9, -⟩ :=
      (last_attempt_is_returned sampleEnv sampleRetryCluster sampleRetryAll 0 500000
        sampleCallerCtx "idx" sampleQuery sampleOptions sampleFlakyProvider samplePrepared
        (by decide)).1 5 out h
    exact ⟨out, last, rfl, h1, h2, h3, h9 _ (le_refl _)⟩

/-- C26: when `searchQuery` gets as far as sending with a retry behaviour whose
`CanRetry(n)` is false for every n from M on (M at least 1), the retry loop
ends and `searchQuery` returns, having invoked `executeSearchQuery` at least
once and at most M times: every attempt is a call of `executeSearchQuery` with
the prepared context and request data. The first attempt is made at once,
whatever the behaviour; when attempt k fails with a retryable error and
`CanRetry(k)` returns true, attempt k + 1 is made, `NextInterval(k)` after
attempt k returned, and attempt k + 1 is made in no other case; after the last
attempt the loop ends on a success, on an error that is not retryable, or on
`CanRetry` returning false for the number of attempts made, and `searchQuery`
returns the error and the result of that attempt. -/
theorem retry_loop_bounded (env : Env) (c : Cluster) (IsRetryableError : GoError → Bool)
    (created built fuel : Nat) (ctx : Context) (qIndexName : String) (q : SearchQuery)
    (opts : SearchOptions) (provider : httpProvider) (p : Prepared) (b : RetryBehavior)
    (M : Nat)
    (hprep : searchQuery.prepare c created built ctx q opts = .ready p)
    (hb : c.sb.SearchRetryBehavior = some b) (hM : ∀ n, M ≤ n → b.CanRetry n = false)
    (hM1 : 1 ≤ M) (hfuel : M ≤ fuel) :
    ∃ out, searchQuery env c IsRetryableError created built fuel ctx qIndexName q opts provider =
        some out ∧
      1 ≤ out.attempts.length ∧ out.attempts.length ≤ M ∧
      (∀ a ∈ out.attempts, a.outcome = executeSearchQuery env a.sentAt p.ctx p.queryData
        qIndexName provider (some p.cancel) (some p.Serializer)) ∧
      out.attempts[0]? = some (Attempt.mk built (executeSearchQuery env built p.ctx p.queryData
        qIndexName provider (some p.cancel) (some p.Serializer))) ∧
      (∀ k a a2, out.attempts[k]? = some a → out.attempts[k + 1]? = some a2 →
        ∃ e, a.outcome.err = some e ∧ IsRetryableError e = true ∧ b.CanRetry (k + 1) = true ∧
          a2.sentAt = a.outcome.now + (b.NextInterval (k + 1)).toNat) ∧
      (∀ k a e, out.attempts[k]? = some a → a.outcome.err = some e →
        IsRetryableError e = true → b.CanRetry (k + 1) = true →
        out.attempts[k + 1]? = some (Attempt.mk
          (a.outcome.now + (b.NextInterval (k + 1)).toNat)
          (executeSearchQuery env (a.outcome.now + (b.NextInterval (k + 1)).toNat) p.ctx
            p.queryData qIndexName provider (some p.cancel) (some p.Serializer)))) ∧
      (∀ last, out.attempts.getLast? = some last →
        (last.outcome.err = none ∨
          (∃ e, last.outcome.err = some e ∧ IsRetryableError e = false) ∨
          b.CanRetry out.attempts.length = false) ∧
        out.err = last.outcome.err ∧ out.result = last.outcome.result) := by
  obtain ⟨res, made1, hl⟩ := searchQuery.loop_terminates env c IsRetryableError p qIndexName
    provider b M hb hM fuel 0 built [] (by omega) (by omega)
  have hex : ∃ out, searchQuery env c IsRetryableError created built fuel ctx qIndexName q opts
      provider = some out := by
    unfold searchQuery
    simp only [hprep, hl]
    cases res.err with
    | none => exact ⟨_, rfl⟩
    | some e => exact ⟨_, rfl⟩
  obtain ⟨out, hout⟩ := hex
  obtain ⟨res2, hl2, -, herr, hok, hko⟩ := searchQuery_ready env c IsRetryableError created built
    fuel ctx qIndexName q opts provider p out hprep hout
  obtain ⟨news, h1, h2, h3, h4, h5, h6, h7, h8⟩ := searchQuery.loop_trace env c IsRetryableError
    p qIndexName provider fuel 0 built [] res2 out.attempts hl2
  simp only [List.nil_append] at h1
  subst h1
  have hstep : ∀ k a a2, out.attempts[k]? = some a → out.attempts[k + 1]? = some a2 →
      ∃ e, a.outcome.err = some e ∧ IsRetryableError e = true ∧ b.CanRetry (k + 1) = true ∧
        a2.sentAt = a.outcome.now + (b.NextInterval (k + 1)).toNat := by
    intro k a a2 hk hk2
    obtain ⟨e, b2, g1, g2, g3, g4, g5⟩ := h7 k a a2 hk hk2
    rw [hb] at g3
    cases g3
    exact ⟨e, g1, g2, by simpa using g4, by simpa using g5⟩
  have hmemi : ∀ (k : Nat) (a : Attempt), out.attempts[k]? = some a → a ∈ out.attempts := by
    intro k a hk
    rw [List.getElem?_eq_some_iff] at hk
    obtain ⟨hlt, hk⟩ := hk
    rw [← hk]
    exact List.getElem_mem hlt
  refine ⟨out, hout, h2, ?_, h5, ?_, hstep, ?_, ?_⟩
  · by_contra hgt
    have hlen : out.attempts.length - 2 + 1 < out.attempts.length := by omega
    cases hi : out.attempts[out.attempts.length - 2]? with
    | none => rw [List.getElem?_eq_none_iff] at hi; omega
    | some a =>
      cases hi2 : out.attempts[out.attempts.length - 2 + 1]? with
      | none => rw [List.getElem?_eq_none_iff] at hi2; omega
      | some a2 =>
        obtain ⟨e, b2, -, -, g3, g4, -⟩ := h7 _ a a2 hi hi2
        rw [hb] at g3
        cases g3
        rw [hM _ (by omega)] at g4
        cases g4
  · cases hat : out.attempts with
    | nil => rw [hat] at h2; simp at h2
    | cons a0 rest =>
      rw [hat] at h4 h5
      simp only [List.head?_cons, Option.map_some', Option.some.injEq] at h4
      have := h5 a0 (by simp)
      rw [h4] at this
      simp only [List.getElem?_cons_zero, Option.some.injEq]
      cases a0
      simp only at h4 this
      subst h4
      rw [this]
  · intro k a e hk he hr hcan
    cases hk2 : out.attempts[k + 1]? with
    | some a2 =>
      obtain ⟨e2, -, -, -, g4⟩ := hstep k a a2 hk hk2
      have := h5 a2 (hmemi _ _ hk2)
      cases a2
      simp only at g4 this
      subst g4
      rw [this]
    | none =>
      exfalso
      rw [List.getElem?_eq_none_iff] at hk2
      have hklt : k < out.attempts.length := by
        by_contra hx
        have : out.attempts[k]? = none := List.getElem?_eq_none_iff.2 (by omega)
        rw [this] at hk
        cases hk
      have hkl : out.attempts.length - 1 = k := by omega
      have hlast : out.attempts.getLast? = some a := by
        rw [List.getLast?_eq_getElem?, hkl, hk]
      rw [hlast] at h6
      simp only [Option.map_some', Option.some.injEq] at h6
      rw [← h6] at h8
      rcases h8 with h8 | h8 | ⟨e3, g1, g2⟩ | ⟨b2, g1, g2⟩
      · rw [he] at h8; cases h8
      · rw [hb] at h8; cases h8
      · rw [he] at g1
        cases g1
        rw [hr] at g2
        cases g2
      · rw [hb] at g1
        cases g1
        have e1 : 0 + out.attempts.length = k + 1 := by omega
        rw [e1, hcan] at g2
        cases g2
  · intro last hlast
    rw [hlast] at h6
    simp only [Option.map_some', Option.some.injEq] at h6
    rw [h6]
    refine ⟨?_, herr, ?_⟩
    · rcases h8 with h8 | h8 | h8 | ⟨b2, g1, g2⟩
      · exact Or.inl h8
      · rw [hb] at h8; cases h8
      · exact Or.inr (Or.inl h8)
      · rw [hb] at g1
        cases g1
        exact Or.inr (Or.inr (by simpa using g2))
    · by_cases he : res2.err = none
      · exact (hok he).1
      · rw [(hko he).1]
        have hmem : last ∈ out.attempts := List.mem_of_getLast?_eq_some hlast
        have hx := h5 last hmem
        rw [h6] at hx
        rw [hx] at he ⊢
        exact (executeSearchQuery_err env last.sentAt p.ctx p.queryData qIndexName provider
          (some p.cancel) (some p.Serializer) he).symm

/-- Witness of C26: the sample retry behaviour allows no retry from 2 on; the
call against a provider that fails every request makes exactly 2 attempts, at
0.5 ms and, 1 ms after the first returned, at 4 ms, and returns the error of
the second. -/
theorem retry_loop_bounded_witness :
    (searchQuery sampleEnv sampleRetryCluster sampleRetryAll 0 500000 2 sampleCallerCtx "idx"
        sampleQuery sampleOptions sampleFailingProvider).map
      (fun o => (o.attempts.map (fun a => (a.sentAt, a.outcome.err, a.outcome.now)), o.err)) =
      some ([(500000, some .timeoutError, 3000000), (4000000, some .timeoutError, 4000000)],
        some .timeoutError) ∧
    ∃ out, searchQuery sampleEnv sampleRetryCluster sampleRetryAll 0 500000 2 sampleCallerCtx
        "idx" sampleQuery sampleOptions sampleFailingProvider = some out ∧
      1 ≤ out.attempts.length ∧ out.attempts.length ≤ 2 ∧
      (∀ a ∈ out.attempts, a.outcome = executeSearchQuery sampleEnv a.sentAt samplePrepared.ctx
        samplePrepared.queryData "idx" sampleFailingProvider (some samplePrepared.cancel)
        (some samplePrepared.Serializer)) := by
  refine ⟨by decide, ?_⟩
  obtain ⟨out, h1, h2, h3, h4, -⟩ := retry_loop_bounded sampleEnv sampleRetryCluster sampleRetryAll
    0 500000 2 sampleCallerCtx "idx" sampleQuery sampleOptions sampleFailingProvider
    samplePrepared sampleRetryBehavior 2 (by decide) rfl
    (by intro n hn; simp [sampleRetryBehavior]; omega) (by decide) (by decide)
  exact ⟨out, h1, h2, h3, h4⟩

/-- Inserting a member into sorted members adds that member and no other. -/
theorem insertMember_perm (kv : String × Raw) (xs : List (String × Raw)) :
    (insertMember kv xs).Perm (kv :: xs) := by
  induction xs with
  | nil => exact List.Perm.refl _
  | cons x xs ih =>
    unfold insertMember
    split_ifs
    · exact List.Perm.refl _
    · exact (List.Perm.cons x ih).trans (List.Perm.swap kv x xs)

/-- The members `json.Marshal` writes for a Go map are its entries. -/
theorem sortMembers_perm (m : List (String × Raw)) : (sortMembers m).Perm m := by
  induction m with
  | nil => exact List.Perm.refl _
  | cons kv m ih =>
    unfold sortMembers
    rw [List.foldr_cons]
    exact (insertMember_perm kv _).trans (List.Perm.cons kv ih)

/-- An assignment of a JSON value to a map of JSON values leaves a map of JSON
values. -/
theorem mapSet_values (m : List (String × Raw)) (k : String) (v : Raw)
    (hm : ∀ kv ∈ m, IsValue kv.2) (hv : IsValue v) : ∀ kv ∈ mapSet m k v, IsValue kv.2 := by
  induction m with
  | nil =>
    intro kv hkv
    simp only [mapSet, List.mem_singleton] at hkv
    subst hkv
    exact hv
  | cons x m ih =>
    obtain ⟨k0, v0⟩ := x
    intro kv hkv
    unfold mapSet at hkv
    split_ifs at hkv with h
    · rcases List.mem_cons.1 hkv with h1 | h1
      · subst h1; exact hv
      · exact hm kv (List.mem_cons_of_mem _ h1)
    · rcases List.mem_cons.1 hkv with h1 | h1
      · subst h1; exact hm _ (by simp)
      · exact ih (fun kv hkv => hm kv (List.mem_cons_of_mem _ hkv)) kv h1

/-- The call `json.Marshal` succeeds exactly on a map of JSON values. -/
theorem jsonMarshal_values (query : DelayedObject) :
    (∃ qBytes, jsonMarshal query = .ok qBytes) ↔ ∀ kv ∈ query, IsValue kv.2 := by
  unfold jsonMarshal
  constructor
  · rintro ⟨qBytes, h⟩
    split_ifs at h with hall
    intro kv hkv
    have := List.all_eq_true.1 hall kv hkv
    simpa using this
  · intro h
    have hall : query.all (fun kv => decide (IsValue kv.2)) = true := by
      rw [List.all_eq_true]
      intro kv hkv
      simpa using h kv hkv
    simp [hall]

/-- C23: when `searchQuery` gets as far as sending, `executeSearchQuery` hands
the provider a POST to the path "/api/index/" ++ indexName ++ "/query" on the
search service, under the operation context, whose body is the JSON object of
the request data, keys sorted: what `executeSearchQuery` returns is what its
response part makes of the provider's answer to exactly that request at the
instant of the call, and the classified transport error when the provider
fails it. The request data marshal when the caller's options and the query's
payload are JSON values. The request data are the caller's options in which
only "query" and "ctl" are assigned, and "ctl" is the caller's "ctl" block in
which only "timeout" is assigned: every other option and every other key of
"ctl" has the value the caller supplied, "query" is the serialized payload of
the query and the "ctl" timeout is the computed operation timeout in whole
milliseconds. -/
theorem request_carries_options (c : Cluster) (created built : Nat) (ctx : Context)
    (q : SearchQuery) (opts : SearchOptions) (p : Prepared) (qd ctl0 : DelayedObject)
    (hprep : searchQuery.prepare c created built ctx q opts = .ready p)
    (hopts : opts.toOptionsData = .ok qd) (hctl : searchQuery.ctlData qd = .ok ctl0) :
    (∀ (env : Env) (now : Nat) (qIndexName : String) (provider : httpProvider)
        (cancel : Option CancelFunc) (serializer : Option JSONSerializer),
      (∀ kv ∈ p.queryData, IsValue kv.2) →
      (∀ resp now1,
        provider.DoHttpRequest
          { Service := .FtsService, Path := "/api/index/" ++ qIndexName ++ "/query",
            Method := "POST", Context := p.ctx,
            Body := objectTokens (sortMembers p.queryData) } now = (.ok resp, now1) →
        executeSearchQuery env now p.ctx p.queryData qIndexName provider cancel serializer =
          executeSearchQuery.respond env p.ctx cancel serializer resp now1) ∧
      (∀ e now1,
        provider.DoHttpRequest
          { Service := .FtsService, Path := "/api/index/" ++ qIndexName ++ "/query",
            Method := "POST", Context := p.ctx,
            Body := objectTokens (sortMembers p.queryData) } now = (.error e, now1) →
        executeSearchQuery env now p.ctx p.queryData qIndexName provider cancel serializer =
          { result := none,
            err := some (if e = .ErrNoFtsService then
                .serviceNotAvailableError env.ErrNoFtsServiceText
              else if p.ctx.Err now1 = some .DeadlineExceeded then .timeoutError
              else .errorsWrap e "could not complete search http request"),
            body := none, now := now1 })) ∧
    ((∀ kv ∈ qd, IsValue kv.2) →
      (∀ payload, q.toSearchQueryData = .ok (.ok payload) → IsValue payload) →
      ∀ kv ∈ p.queryData, IsValue kv.2) ∧
    (sortMembers p.queryData).Perm p.queryData ∧
    (∀ k, k ≠ "ctl" → k ≠ "query" → p.queryData.lookup k = qd.lookup k) ∧
    (∃ payload, q.toSearchQueryData = .ok (.ok payload) ∧
      p.queryData.lookup "query" = some payload) ∧
    p.queryData.lookup "ctl" = some (objectTokens (sortMembers p.ctlData)) ∧
    (sortMembers p.ctlData).Perm p.ctlData ∧
    (∀ k, k ≠ "timeout" → p.ctlData.lookup k = ctl0.lookup k) ∧
    p.ctlData.lookup "timeout" = some [.num (.int (p.opTimeout.tdiv Millisecond))] ∧
    (∀ cms, qd.lookup "ctl" = some (objectTokens cms) → (∀ kv ∈ cms, IsValue kv.2) →
      ctl0 = mapOfMembers cms) ∧
    (qd.lookup "ctl" = none → ctl0 = []) := by
  obtain ⟨qd1, ctl1, payload, ctlRaw, e1, e2, e3, e4, e5, e6, e7, e8, e9, -, -⟩ :=
    searchQuery.prepare_ready c created built ctx q opts p hprep
  rw [hopts] at e1
  cases e1
  rw [hctl] at e2
  cases e2
  refine ⟨?_, ?_, sortMembers_perm _, ?_, ⟨payload, e4, ?_⟩, ?_, sortMembers_perm _, ?_, ?_, ?_,
    ?_⟩
  · intro env now qIndexName provider cancel serializer hval
    obtain ⟨qBytes, hq⟩ := (jsonMarshal_values p.queryData).2 hval
    have hqb := jsonMarshal_ok p.queryData qBytes hq
    subst hqb
    refine ⟨?_, ?_⟩
    · intro resp now1 hp
      exact executeSearchQuery_response env now p.ctx p.queryData qIndexName provider cancel
        serializer _ resp now1 hq hp
    · intro e now1 hp
      exact executeSearchQuery_transport env now p.ctx p.queryData qIndexName provider cancel
        serializer _ e now1 hq hp
  · intro hqd hpay
    rw [e9]
    refine mapSet_values _ _ _ (mapSet_values _ _ _ hqd ?_) (hpay payload e4)
    rw [jsonMarshal_ok p.ctlData ctlRaw e8]
    refine IsValue_objectTokens _ ?_
    intro kv hkv
    exact (jsonMarshal_values p.ctlData).1 ⟨ctlRaw, e8⟩ kv ((sortMembers_perm _).mem_iff.1 hkv)
  · intro k hk1 hk2
    rw [e9, lookup_mapSet, lookup_mapSet]
    simp [hk1, hk2]
  · rw [e9, lookup_mapSet]
    simp
  · rw [e9, lookup_mapSet, lookup_mapSet, jsonMarshal_ok p.ctlData ctlRaw e8]
    simp
  · intro k hk
    rw [e7, lookup_mapSet]
    simp [hk]
  · rw [e7, lookup_mapSet]
    simp
  · intro cms hlook hv
    unfold searchQuery.ctlData at hctl
    simp only [DelayedObject.Has, hlook, Option.isSome_some, if_true, DelayedObject.Get,
      unmarshalDelayedObject_object cms hv, Except.ok.injEq] at hctl
    exact hctl.symm
  · intro hlook
    unfold searchQuery.ctlData at hctl
    simp only [DelayedObject.Has, hlook, Option.isSome_none, Bool.false_eq_true, if_false,
      Except.ok.injEq] at hctl
    exact hctl.symm

/-- Witness of C23: for the sample options `{"ctl":{"timeout":2},"size":10}` and
the payload `{"match":"beer"}`, a provider that answers only the POST to
"/api/index/idx/query" on the search service with the body
`{"ctl":{"timeout":1},"query":{"match":"beer"},"size":10}` under the operation
context, and fails every other request, is answered: `executeSearchQuery`
returns the error made of its answer; and "size" is kept in the request
data. -/
theorem request_carries_options_witness :
    (executeSearchQuery sampleEnv 500000 samplePrepared.ctx samplePrepared.queryData "idx"
        (sampleProbeProvider (HttpRequest.mk .FtsService "/api/index/idx/query" "POST"
          (Context.mk (some 2000000) none)
          [.delim .lbrace, .str "ctl", .delim .lbrace, .str "timeout", .num (.int 1),
           .delim .rbrace, .str "query", .delim .lbrace, .str "match", .str "beer",
           .delim .rbrace, .str "size", .num (.int 10), .delim .rbrace]))
        (some samplePrepared.cancel) (some samplePrepared.Serializer)).err =
      some (.searchMultiError [searchError.mk "received"] "10.0.0.1:8094" 400) ∧
    samplePrepared.queryData.lookup "size" = some [.num (.int 10)] ∧
    samplePrepared.queryData.lookup "ctl" =
      some (objectTokens (sortMembers samplePrepared.ctlData)) := by
  have h := request_carries_options sampleCluster 0 500000 sampleCallerCtx sampleQuery
    sampleOptions samplePrepared
    [("ctl", [.delim .lbrace, .str "timeout", .num (.int 2), .delim .rbrace]),
     ("size", [.num (.int 10)])]
    [("timeout", [.num (.int 2)])] (by decide) rfl rfl
  refine ⟨?_, h.2.2.2.1 "size" (by decide) (by decide), h.2.2.2.2.2.1⟩
  rw [(h.1 sampleEnv 500000 "idx" _ (some samplePrepared.cancel)
    (some samplePrepared.Serializer) (by decide)).1
    { StatusCode := 400, Endpoint := "http://10.0.0.1:8094",
      Body := sampleBody [] "received" none } 600000 rfl]
  decide

/-- C12 (counterexample): for the truncated response `{"hits":[{"id":` the
returned result has no recorded error and its stream is open; no further row
is available, `Next` returns false and leaves the row target as it was, but
the recorded error is no longer nil: the error the streaming result returned
has been recorded. -/
theorem next_records_stream_error :
    ((sampleExec (sampleBody sampleTruncatedRowTokens "" none)).result.bind
        (fun r => (r.Next sampleEnv SearchResultRow.zero).map
          (fun x => (r.err, r.streamResult.map (fun sr => sr.Closed), x.2.2, x.2.1,
            x.1.err.isSome)))) =
      some (none, some false, false, SearchResultRow.zero, true) := by
  decide

/-- C12 (amended): when an error is already recorded on the result, `Next`
returns false and changes neither the result (no row is read from the stream)
nor the row target; it does the same when the stream is closed. On an open
stream without recorded error, whenever the streaming result yields no row or
returns an error, `Next` returns false and leaves the row target as it was, and
the recorded error afterwards is the error the streaming result returned, if
any, and otherwise what the call of the streaming result left recorded. -/
theorem next_false_cases (env : Env) (r : SearchResult) (rowPtr : SearchResultRow) :
    (r.err ≠ none → r.Next env rowPtr = some (r, rowPtr, false)) ∧
    (∀ sr, r.streamResult = some sr → sr.Closed = true →
        r.Next env rowPtr = some (r, rowPtr, false)) ∧
    (∀ (sr sr1 : streamingResult) (r1 : SearchResult) (raw : Option Raw) (e : GoError),
        r.err = none → r.streamResult = some sr → sr.Closed = false →
        sr.NextBytes (SearchResult.readAttribute env) r = (sr1, r1, raw, some e) →
        r.Next env rowPtr =
          some ({ r1 with streamResult := some sr1, err := some e }, rowPtr, false)) ∧
    (∀ (sr sr1 : streamingResult) (r1 : SearchResult),
        r.err = none → r.streamResult = some sr → sr.Closed = false →
        sr.NextBytes (SearchResult.readAttribute env) r = (sr1, r1, none, none) →
        r.Next env rowPtr = some ({ r1 with streamResult := some sr1 }, rowPtr, false)) := by
  refine ⟨?_, ?_, ?_, ?_⟩
  · intro herr
    simp [SearchResult.Next, herr]
  · intro sr hs hc
    unfold SearchResult.Next
    split_ifs with herr
    · rfl
    · simp [SearchResult.NextBytes, hs, hc]
  · intro sr sr1 r1 raw e herr hs hc hnb
    simp [SearchResult.Next, herr, SearchResult.NextBytes, hs, hc, hnb]
  · intro sr sr1 r1 herr hs hc hnb
    simp [SearchResult.Next, herr, SearchResult.NextBytes, hs, hc, hnb]

/-- Witness of C12 (amended): on the closed sample result `Next` returns false
and changes nothing; on the sample result with a recorded error likewise. -/
theorem next_false_cases_witness :
    sampleClosed.streamResult.map (fun sr => sr.Closed) = some true ∧
    sampleClosed.Next sampleEnv SearchResultRow.zero =
      some (sampleClosed, SearchResultRow.zero, false) ∧
    (SearchResult.mk sampleResult.metadata (some .timeoutError) none 200
        sampleResult.streamResult none none none).Next sampleEnv SearchResultRow.zero =
      some (SearchResult.mk sampleResult.metadata (some .timeoutError) none 200
        sampleResult.streamResult none none none, SearchResultRow.zero, false) :=
  ⟨rfl, (next_false_cases sampleEnv sampleClosed SearchResultRow.zero).2.1 _ rfl rfl,
    (next_false_cases sampleEnv _ SearchResultRow.zero).1 (by decide)⟩

/-- On a well typed attribute of a hit the `switch` of `Next` goes on, having
stored the attribute as the specification of a row says. -/
theorem SearchResult.NextSwitch_hit (env : Env) (r : SearchResult) (kv : String × Raw)
    (row : SearchResultRow) (hvv : IsValue kv.2)
    (hfit : kv.1 ∉ SearchResult.rowAttributes → fitsInterface kv.2 = true)
    (ht : kv.1 ∈ SearchResult.rowAttributes →
      ((kv.1 = "index" ∨ kv.1 = "id") ∧ ∃ s, kv.2 = [.str s]) ∨
      (kv.1 = "score" ∧ ∃ n, kv.2 = [.num n] ∧ n.fitsFloat64 = true) ∨
      kv.1 = "fields" ∨
      (kv.1 = "explanation" ∧ ∀ old, ∃ x, env.unmarshalExplanation kv.2 old = .ok x) ∨
      (kv.1 = "locations" ∧ ∀ old, ∃ x, env.unmarshalLocations kv.2 old = .ok x) ∨
      (kv.1 = "fragments" ∧ ∀ old, ∃ x, env.unmarshalFragments kv.2 old = .ok x)) :
    ∃ r1 dec1, SearchResult.NextSwitch env r (.str kv.1) kv.2 row =
        .ok (r1, dec1, hitAttribute env r.serializer row kv) ∧
      r1.serializer = r.serializer := by
  by_cases hk : kv.1 ∈ SearchResult.rowAttributes
  · rcases ht hk with ⟨hkk, s, hs⟩ | ⟨hkk, n, hn, hf⟩ | hkk | ⟨hkk, hx⟩ | ⟨hkk, hx⟩ | ⟨hkk, hx⟩
    · rcases hkk with hkk | hkk
      · simp [SearchResult.NextSwitch, hitAttribute, hkk, hs, Decoder.Decode, Decoder.DecodeRaw,
          scanValue, unmarshalString]
      · simp [SearchResult.NextSwitch, hitAttribute, hkk, hs, Decoder.Decode, Decoder.DecodeRaw,
          scanValue, unmarshalString]
    · simp [SearchResult.NextSwitch, hitAttribute, hkk, hn, Decoder.Decode, Decoder.DecodeRaw,
        scanValue, unmarshalFloat, hf]
    · simp [SearchResult.NextSwitch, hitAttribute, hkk,
        Decoder.Decode_value unmarshalRawMessage kv.2 _ hvv, unmarshalRawMessage]
    · obtain ⟨x, hx⟩ := hx row.Explanation
      simp [SearchResult.NextSwitch, hitAttribute, hkk,
        Decoder.Decode_value env.unmarshalExplanation kv.2 _ hvv, hx]
    · obtain ⟨x, hx⟩ := hx row.Locations
      simp [SearchResult.NextSwitch, hitAttribute, hkk,
        Decoder.Decode_value env.unmarshalLocations kv.2 _ hvv, hx]
    · obtain ⟨x, hx⟩ := hx row.Fragments
      simp [SearchResult.NextSwitch, hitAttribute, hkk,
        Decoder.Decode_value env.unmarshalFragments kv.2 _ hvv, hx]
  · refine ⟨r, [], ?_, rfl⟩
    rw [SearchResult.NextSwitch_unknown env r kv.1 kv.2 row hk hvv (hfit hk)]
    have h : hitAttribute env r.serializer row kv = row := by
      simp only [SearchResult.rowAttributes, List.mem_cons, List.mem_singleton, not_or,
        List.not_mem_nil, or_false] at hk
      obtain ⟨h1, h2, h3, h4, h5, h6, h7⟩ := hk
      simp [hitAttribute, h1, h2, h3, h4, h5, h6, h7]
    rw [h]

/-- The member by member loop of `Next` accepts a well typed hit and fills the
row target as the specification of a row says. -/
theorem SearchResult.rowMembers_hit (env : Env) (ms : List (String × Raw))
    (h : SearchResult.WellTypedHit env ms) (r : SearchResult) (row : SearchResultRow) :
    ∃ r1, SearchResult.rowMembers env r ms row = (r1, hitRow env r.serializer ms row, true) := by
  obtain ⟨hv, hfit, ht⟩ := h
  induction ms generalizing r row with
  | nil => exact ⟨r, rfl⟩
  | cons kv ms ih =>
    obtain ⟨r1, dec1, hs, hser⟩ := SearchResult.NextSwitch_hit env r kv row (hv kv (by simp))
      (hfit kv (by simp)) (ht kv (by simp))
    obtain ⟨r2, h2⟩ := ih r1 (hitAttribute env r.serializer row kv)
      (fun kv hkv => hv kv (List.mem_cons_of_mem _ hkv))
      (fun kv hkv => hfit kv (List.mem_cons_of_mem _ hkv))
      (fun kv hkv => ht kv (List.mem_cons_of_mem _ hkv))
    refine ⟨r2, ?_⟩
    rw [hser] at h2
    simp only [SearchResult.rowMembers, hs, h2, hitRow, List.foldl_cons]

/-- Decoding well typed hits one after the other into one row target accepts
every hit and gives the rows of the specification. -/
theorem SearchResult.decodeRows_hits (env : Env) (r : SearchResult)
    (hits : List (List (String × Raw))) (h : ∀ ms ∈ hits, SearchResult.WellTypedHit env ms)
    (row : SearchResultRow) :
    r.decodeRows env (hits.map objectTokens) row = hitRows env r.serializer hits row ∧
    r.rowsDecode env (hits.map objectTokens) row = true := by
  induction hits generalizing row with
  | nil => exact ⟨rfl, rfl⟩
  | cons ms hits ih =>
    have hw := h ms (by simp)
    obtain ⟨d1, d2⟩ := SearchResult.decodeRow_object env r ms hw.1 row
    obtain ⟨r1, hr⟩ := SearchResult.rowMembers_hit env ms hw r row
    rw [hr] at d1 d2
    simp only at d1 d2
    obtain ⟨i1, i2⟩ := ih (fun ms hms => h ms (List.mem_cons_of_mem _ hms))
      (hitRow env r.serializer ms row)
    simp only [List.map_cons, SearchResult.decodeRows, SearchResult.rowsDecode, hitRows, d1, d2,
      i1, i2, Bool.and_self, and_self]

/-- The attribute handler on the key "hits" followed by an opening bracket
reports the row array. -/
theorem readAttribute_hits (env : Env) (r : SearchResult) (tail : List JsonToken) :
    r.readAttribute env (.delim .lbrack :: tail) (.str "hits") = (r, tail, true, none) := by
  simp [SearchResult.readAttribute, Decoder.Token]

/-- The attribute loop over accepted attributes followed by the row array:
every attribute is handed to the handler, the loop stops behind the opening
bracket of the row array, and no error is recorded or returned. -/
theorem readAttributesLoop_pre (env : Env) (pre : List (String × Raw)) (tail : List JsonToken)
    (hpre : ∀ kv ∈ pre, SearchResult.Accepts env kv) (fuel : Nat)
    (hfuel : pre.length + 1 ≤ fuel) (s : streamingResult) (r : SearchResult)
    (h200 : r.httpStatus = 200)
    (hd : s.decoder = memberTokens pre ++ .str "hits" :: .delim .lbrack :: tail) :
    ∃ r1, streamingResult.readAttributesLoop (SearchResult.readAttribute env) fuel s r =
        ({ s with decoder := tail, hasRows := true }, r1, none) ∧
      r1.err = r.err ∧ r.SameFrame r1 := by
  induction pre generalizing fuel s r with
  | nil =>
    obtain ⟨n, rfl⟩ : ∃ n, fuel = n + 1 := ⟨fuel - 1, by omega⟩
    refine ⟨r, ?_, rfl, SearchResult.SameFrame.refl r⟩
    simp only [memberTokens, List.nil_append] at hd
    rw [streamingResult.readAttributesLoop]
    simp [hd, Decoder.More, Decoder.Token, readAttribute_hits]
  | cons kv pre ih =>
    obtain ⟨n, rfl⟩ : ∃ n, fuel = n + 1 := ⟨fuel - 1, by simp at hfuel; omega⟩
    obtain ⟨k, v⟩ := kv
    simp only [memberTokens, List.cons_append, List.append_assoc] at hd
    obtain ⟨a1, a2⟩ := hpre (k, v) (by simp) r
      (memberTokens pre ++ .str "hits" :: .delim .lbrack :: tail) h200
    simp only at a1 a2
    have hfr := readAttribute_sameFrame env r
      (v ++ (memberTokens pre ++ .str "hits" :: .delim .lbrack :: tail)) (.str k)
    generalize hx : r.readAttribute env
      (v ++ (memberTokens pre ++ .str "hits" :: .delim .lbrack :: tail)) (.str k) = x
      at a1 a2 hfr
    obtain ⟨x1, x2⟩ := x
    simp only at a1 a2 hfr
    subst a1
    obtain ⟨r1, g1, g2, g3⟩ := ih (fun kv hkv => hpre kv (List.mem_cons_of_mem _ hkv)) n
      (by simp at hfuel; omega)
      { s with decoder := memberTokens pre ++ .str "hits" :: .delim .lbrack :: tail } x1
      (hfr.2.2.2.1.trans h200) rfl
    refine ⟨r1, ?_, g2.trans a2, hfr.trans g3⟩
    rw [streamingResult.readAttributesLoop]
    simp only [hd, Decoder.More, Decoder.Token, hx]
    simpa using g1

/-- Reading the attributes of a response whose attributes before the row array
are accepted: the stream is left on the first row, with the row array located,
and no error is recorded or returned. -/
theorem readAttributes_response (env : Env) (pre : List (String × Raw))
    (hits : List (List (String × Raw))) (post : List JsonToken)
    (hpre : ∀ kv ∈ pre, SearchResult.Accepts env kv) (s : streamingResult) (r : SearchResult)
    (h200 : r.httpStatus = 200) (hd : s.decoder = responseTokens pre hits post) :
    ∃ r1, s.readAttributes (SearchResult.readAttribute env) r =
        ({ s with decoder := (hits.map objectTokens).flatten ++ .delim .rbrack :: post,
                  hasRows := true }, r1, none) ∧
      r1.err = r.err ∧ r.SameFrame r1 := by
  obtain ⟨r1, g1, g2, g3⟩ := readAttributesLoop_pre env pre
    ((hits.map objectTokens).flatten ++ .delim .rbrack :: post) hpre
    (responseTokens pre hits post).length
    (by
      have := memberTokens_length pre
      simp [responseTokens]
      omega)
    { s with decoder := memberTokens pre ++ .str "hits" :: .delim .lbrack ::
        ((hits.map objectTokens).flatten ++ .delim .rbrack :: post) } r h200 rfl
  refine ⟨r1, ?_, g2, g3⟩
  unfold streamingResult.readAttributes
  rw [hd, streamingResult.readAttributesLoop]
  simp only [hd, responseTokens, Decoder.More, Decoder.Token]
  simpa [responseTokens] using g1

/-- A status attribute of a status 200 response that is a JSON object, decodes
into the status struct and carries no errors is accepted by the attribute
handler. -/
theorem SearchResult.Accepts_status (env : Env) (sm : List (String × Raw))
    (status : searchResponseStatus) (hsv : ∀ kv ∈ sm, IsValue kv.2)
    (hst : unmarshalStatusFields (searchResponseStatus.mk 0 0 0 Iface.nil) sm = .ok status)
    (hnil : status.Errors = .nil) : SearchResult.Accepts env ("status", objectTokens sm) := by
  intro r rest h200
  have hval : IsValue (objectTokens sm) := IsValue_objectTokens sm hsv
  have hum : unmarshalStatus (objectTokens sm) (searchResponseStatus.mk 0 0 0 Iface.nil) =
      .ok status := by
    have hm := objectMembers_memberTokens sm hsv (objectTokens sm).length
      (by have := memberTokens_length sm; simp [objectTokens]; omega)
    cases sm with
    | nil =>
      simp only [unmarshalStatusFields] at hst
      simp [objectTokens, memberTokens, unmarshalStatus, objectMembers, unmarshalStatusFields,
        hst]
    | cons kv sm =>
      obtain ⟨k, v⟩ := kv
      unfold unmarshalStatus
      simp only [objectTokens, memberTokens, List.cons_append] at hm ⊢
      rw [hm]
      exact hst
  have hdec : Decoder.Decode unmarshalStatus (objectTokens sm ++ rest)
      (searchResponseStatus.mk 0 0 0 Iface.nil) = .ok (status, rest) := by
    rw [Decoder.Decode_append unmarshalStatus (objectTokens sm) rest _ hval, hum]
  obtain ⟨-, g2, g3, g4, -⟩ := readAttribute_status env r (objectTokens sm ++ rest) rest status
    h200 hdec
  obtain ⟨g5, g6⟩ := g4 hnil
  exact ⟨Prod.ext g2 (Prod.ext g3 g6), g5⟩

/-- C1 (counterexample): for the response `{"hits":[{"id":"a"}],"total_hits":1}`
iterating `Next` returns true once and then false, and `Metadata` called
immediately after still fails with the clientError; and for the response
`{"status":{"errors":{"pindex":"boom"}},"hits":[{"id":"a"}]}`, whose status
stands before a row array of one row, `executeSearchQuery` returns a result
with no error, and the first call of `Next` returns false: no row is
delivered. -/
theorem metadata_not_ready_after_last_row :
    ((sampleExec (sampleBody sampleOneRowTokens "" none)).result.bind
        (fun r => r.iterate sampleEnv 5 SearchResultRow.zero)).map
      (fun x => (x.2.1.length, x.2.2, x.1.Metadata)) =
      some (1, true,
        some (none, some (.clientError "result must be closed before accessing meta-data"))) ∧
    (sampleExec (sampleBody sampleStatusThenRowsTokens "" none)).err = none ∧
    ((sampleExec (sampleBody sampleStatusThenRowsTokens "" none)).result.bind
        (fun r => r.iterate sampleEnv 5 SearchResultRow.zero)).map
      (fun x => (x.2.1.length, x.2.2)) = some (0, true) := by
  refine ⟨by decide, by decide, by decide⟩

/-- C1 (amended): for every HTTP 200 response whose top-level object holds
attributes that the attribute handler accepts without recording an error (in
any number and order, a status without errors among them), then the row array
"hits" with N well typed hits, then anything, `executeSearchQuery` returns a
result and no error, and iterating `Next` on that result returns true exactly N
times and then false, the row target holding after the k-th call what the
specification of a row gives for the first k hits stored one after the other,
in wire order. `Metadata` and `Facets` fail with the clientError before the
iteration and still fail after the call that returned false; after `Close`
both succeed. -/
theorem next_yields_rows_in_order (env : Env) (now : Nat) (ctx : Context)
    (query : DelayedObject) (qIndexName : String) (provider : httpProvider)
    (cancel : Option CancelFunc) (serializer : Option JSONSerializer) (qBytes : Raw)
    (resp : HttpResponse) (now1 : Nat) (pre : List (String × Raw))
    (hits : List (List (String × Raw))) (post : List JsonToken) (row0 : SearchResultRow)
    (hq : jsonMarshal query = .ok qBytes)
    (hp : provider.DoHttpRequest
        { Service := .FtsService, Path := "/api/index/" ++ qIndexName ++ "/query",
          Method := "POST", Context := ctx, Body := qBytes } now = (.ok resp, now1))
    (h200 : resp.StatusCode = 200)
    (hbody : resp.Body.tokens = responseTokens pre hits post)
    (hpre : ∀ kv ∈ pre, SearchResult.Accepts env kv)
    (hhits : ∀ ms ∈ hits, SearchResult.WellTypedHit env ms) :
    ∃ r0 rE,
      (executeSearchQuery env now ctx query qIndexName provider cancel serializer).result =
        some r0 ∧
      (executeSearchQuery env now ctx query qIndexName provider cancel serializer).err = none ∧
      r0.iterate env (hits.length + 1) row0 =
        some (rE, hitRows env serializer hits row0, true) ∧
      (hitRows env serializer hits row0).length = hits.length ∧
      r0.Metadata =
        some (none, some (.clientError "result must be closed before accessing meta-data")) ∧
      r0.Facets =
        some (none, some (.clientError "result must be closed before accessing meta-data")) ∧
      rE.Metadata =
        some (none, some (.clientError "result must be closed before accessing meta-data")) ∧
      rE.Facets =
        some (none, some (.clientError "result must be closed before accessing meta-data")) ∧
      ∀ now2, ∃ rC e, rE.Close now2 = some (rC, e) ∧
        (∃ m, rC.Metadata = some (some m, none)) ∧ (∃ f, rC.Facets = some (f, none)) := by
  have key : ∀ host : String, ∃ r0 rE,
      (executeSearchQuery.success env ctx cancel serializer resp host now1).result = some r0 ∧
      (executeSearchQuery.success env ctx cancel serializer resp host now1).err = none ∧
      r0.iterate env (hits.length + 1) row0 =
        some (rE, hitRows env serializer hits row0, true) ∧
      (hitRows env serializer hits row0).length = hits.length ∧
      r0.Metadata =
        some (none, some (.clientError "result must be closed before accessing meta-data")) ∧
      r0.Facets =
        some (none, some (.clientError "result must be closed before accessing meta-data")) ∧
      rE.Metadata =
        some (none, some (.clientError "result must be closed before accessing meta-data")) ∧
      rE.Facets =
        some (none, some (.clientError "result must be closed before accessing meta-data")) ∧
      ∀ now2, ∃ rC e, rE.Close now2 = some (rC, e) ∧
        (∃ m, rC.Metadata = some (some m, none)) ∧ (∃ f, rC.Facets = some (f, none)) := by
    intro host
    obtain ⟨r1, g1, g2, g3⟩ := readAttributes_response env pre hits post hpre
      { decoder := resp.Body.tokens, stream := resp.Body, closed := false, hasRows := false,
        ended := false }
      { metadata := { status := { Total := 0, Failed := 0, Successful := 0 }, totalHits := 0,
                      took := 0, maxScore := .int 0, sourceAddr := host },
        err := none, facets := none, httpStatus := resp.StatusCode, streamResult := none,
        cancel := none, ctx := none, serializer := serializer }
      h200 hbody
    simp only at g2
    obtain ⟨-, -, -, -, f5⟩ := g3
    simp only at f5
    have hres : executeSearchQuery.success env ctx cancel serializer resp host now1 =
        { result := some { r1 with
            streamResult := some
              { decoder := (hits.map objectTokens).flatten ++ .delim .rbrack :: post,
                stream := resp.Body, closed := false, hasRows := true, ended := false },
            cancel := cancel, ctx := some ctx },
          err := none, body := some resp.Body, now := now1 } := by
      unfold executeSearchQuery.success
      simp only [newStreamingResults]
      rw [g1]
      simp [streamingResult.HasRows]
    have hlen : (hits.map objectTokens).length = hits.length := List.length_map _ _
    obtain ⟨d1, d2⟩ := SearchResult.decodeRows_hits env
      { r1 with
        streamResult := some
          { decoder := (hits.map objectTokens).flatten ++ .delim .rbrack :: post,
            stream := resp.Body, closed := false, hasRows := true, ended := false },
        cancel := cancel, ctx := some ctx } hits hhits row0
    have hv : ∀ raw ∈ hits.map objectTokens, IsValue raw := by
      intro raw hraw
      obtain ⟨ms, hms, rfl⟩ := List.mem_map.1 hraw
      exact IsValue_objectTokens ms (hhits ms hms).1
    generalize htr : streamingResult.readAttributes (SearchResult.readAttribute env)
      { ({ decoder := (hits.map objectTokens).flatten ++ .delim .rbrack :: post,
           stream := resp.Body, closed := false, hasRows := true, ended := false } :
          streamingResult) with decoder := post }
      ({ r1 with
        streamResult := some
          { decoder := (hits.map objectTokens).flatten ++ .delim .rbrack :: post,
            stream := resp.Body, closed := false, hasRows := true, ended := false },
        cancel := cancel, ctx := some ctx } : SearchResult) = tr
    obtain ⟨s1, rT, eT⟩ := tr
    have hit := SearchResult.iterate_rows env (hits.map objectTokens) post s1 _ _ rT eT row0 rfl
      (by simpa using g2) rfl rfl rfl hv d2 htr
    have hser : hitRows env r1.serializer hits row0 = hitRows env serializer hits row0 := by
      rw [f5]
    simp only at d1
    rw [hser] at d1
    rw [hlen, d1] at hit
    obtain ⟨t1, -, t3, -⟩ := trail_frame env _ _ s1 rT eT htr
    simp only at t1 t3
    refine ⟨_, _, by rw [hres], by rw [hres], hit, ?_, ?_, ?_, ?_, ?_, ?_⟩
    · rw [← d1, SearchResult.decodeRows_length, hlen]
    · simp [SearchResult.Metadata, streamingResult.Closed]
    · simp [SearchResult.Facets, streamingResult.Closed]
    · simp [SearchResult.Metadata, streamingResult.Closed, t1]
    · simp [SearchResult.Facets, streamingResult.Closed, t1]
    · intro now2
      obtain ⟨rC, k1, k2, -, -, k5, k6⟩ := SearchResult.Close_open now2
        { rT with streamResult := some { s1 with ended := true }, err := eT.or rT.err }
        { s1 with ended := true } ctx rfl (by simp [t1]) (by simp [t3])
      refine ⟨rC, _, k1, ⟨rC.metadata, ?_⟩, ⟨rC.facets, ?_⟩⟩
      · simp [SearchResult.Metadata, k2, streamingResult.Closed]
      · simp [SearchResult.Facets, k2, streamingResult.Closed]
  rw [executeSearchQuery_response env now ctx query qIndexName provider cancel serializer
    qBytes resp now1 hq hp]
  unfold executeSearchQuery.respond
  simp only [h200]
  simp only [show ¬ ((200 : Int) = 400) by decide, show ¬ ((200 : Int) = 401) by decide,
    if_false, ne_eq, not_true_eq_false]
  exact key _

/-- Witness of C1 (amended): for the response
`{"status":{"total":1,"failed":0,"successful":1},"hits":[{"id":"a","score":2},{"id":"b"}],"took":7}`,
whose status stands before the row array, `Next` returns true twice and then
false; the row target holds the id "a" and the score 2 after the first call
and the id "b" after the second. -/
theorem next_yields_rows_in_order_witness :
    ((executeSearchQuery sampleEnv 0 sampleCtx [] "idx" sampleHitsProvider (some (CancelFunc.mk 0))
        (some .DefaultJSONSerializer)).result.bind
        (fun r => r.iterate sampleEnv 3 SearchResultRow.zero)).map
      (fun x => (x.2.1.map (fun row => (row.ID, row.Score)), x.2.2)) =
      some ([("a", .int 2), ("b", .int 2)], true) ∧
    ∃ r0 rE,
      (executeSearchQuery sampleEnv 0 sampleCtx [] "idx" sampleHitsProvider (some (CancelFunc.mk 0))
        (some .DefaultJSONSerializer)).result = some r0 ∧
      (executeSearchQuery sampleEnv 0 sampleCtx [] "idx" sampleHitsProvider (some (CancelFunc.mk 0))
        (some .DefaultJSONSerializer)).err = none ∧
      r0.iterate sampleEnv (sampleHits.length + 1) SearchResultRow.zero =
        some (rE, hitRows sampleEnv (some .DefaultJSONSerializer) sampleHits SearchResultRow.zero,
          true) ∧
      rE.Metadata =
        some (none, some (.clientError "result must be closed before accessing meta-data")) ∧
      rE.Facets =
        some (none, some (.clientError "result must be closed before accessing meta-data")) := by
  refine ⟨by decide, ?_⟩
  obtain ⟨r0, rE, h1, h2, h3, -, -, -, h7, h8, -⟩ := next_yields_rows_in_order sampleEnv 0
    sampleCtx [] "idx" sampleHitsProvider (some (CancelFunc.mk 0)) (some .DefaultJSONSerializer)
    (objectTokens (sortMembers []))
    { StatusCode := 200, Endpoint := "http://10.0.0.1:8094",
      Body := sampleBody (responseTokens [sampleStatusAttr] sampleHits
        [.str "took", .num (.int 7), .delim .rbrace]) "" none }
    1 [sampleStatusAttr] sampleHits [.str "took", .num (.int 7), .delim .rbrace]
    SearchResultRow.zero rfl rfl rfl rfl
    (by
      intro kv hkv
      simp only [List.mem_singleton] at hkv
      subst hkv
      exact SearchResult.Accepts_status sampleEnv _ (searchResponseStatus.mk 1 0 1 Iface.nil)
        (by decide) rfl rfl)
    (by
      intro ms hms
      simp only [sampleHits, List.mem_cons, List.mem_singleton, List.not_mem_nil, or_false] at hms
      rcases hms with h | h <;> subst h
      · refine ⟨by decide, by decide, ?_⟩
        intro kv hkv hk
        simp only [sampleRowMembers, List.mem_cons, List.mem_singleton, List.not_mem_nil,
          or_false] at hkv
        rcases hkv with h | h <;> subst h
        · exact Or.inl ⟨Or.inr rfl, "a", rfl⟩
        · exact Or.inr (Or.inl ⟨rfl, .int 2, rfl, by decide⟩)
      · refine ⟨by decide, by decide, ?_⟩
        intro kv hkv hk
        simp only [List.mem_singleton] at hkv
        subst hkv
        exact Or.inl ⟨Or.inr rfl, "b", rfl⟩)
  exact ⟨r0, rE, h1, h2, h3, h7, h8⟩

end Gocb
